import Mathlib

/-!
# pcidb generator: the `pci.ids` parser

A shallow embedding of `parseDBFile` and its helpers from `pkg/pcidb/gen.go`,
followed by theorems about the line classifier, the context registers and the
composite-key encoding.

Modelling conventions.

* A line is the `[]rune` obtained from `scanner.Text()`, i.e. a `List Char`;
  the input of the parser is the list of lines the scanner delivers, in order.
  Column `i` of a line is its `i`-th rune (0-based).
* Go maps with unsigned integer keys are finite maps (`Finmap`) from `Nat`;
  two maps are equal exactly when they hold the same entries.
* Unsigned machine integers are natural numbers; a shift that is executed in a
  `w`-bit type is reduced modulo `2 ^ w`.
* A run that panics is a run that returns `Except.error`; nothing is recovered.
-/

namespace Pcidb

/-! ## Data model (`gen.go`, type and var blocks) -/

/-- A Go `map[K]V` with an unsigned integer key type. -/
abbrev GoMap (β : Type) : Type := Finmap (fun _ : Nat => β)

/-- The Go struct `Subsystem`. -/
structure Subsystem where
  Vendor : Nat
  Name : String
deriving DecidableEq

/-- The six package-level maps. -/
structure Tables where
  Classes : GoMap String
  Vendors : GoMap String
  Subclasses : GoMap String
  Products : GoMap String
  ProgrammingInterfaces : GoMap String
  Subsystems : GoMap Subsystem
deriving DecidableEq

/-- The maps as created by `make(map[...])`. -/
def Tables.empty : Tables :=
  { Classes := ∅, Vendors := ∅, Subclasses := ∅, Products := ∅,
    ProgrammingInterfaces := ∅, Subsystems := ∅ }

/-- The local variables of `parseDBFile` that survive from one line to the next. -/
structure Ctx where
  inClassBlock : Bool
  curClass : Nat
  curClassSubclass : Nat
  curVendor : Nat
  curVendorProduct : Nat
deriving DecidableEq

/-- The values of the locals before the first line: `inClassBlock := false`
and zero-valued registers. -/
def Ctx.init : Ctx :=
  { inClassBlock := false, curClass := 0, curClassSubclass := 0,
    curVendor := 0, curVendorProduct := 0 }

/-- The registers hold values of their Go types
(`uint8`, `uint16`, `uint16`, `uint32`). -/
def Ctx.WF (c : Ctx) : Prop :=
  c.curClass < 2 ^ 8 ∧ c.curClassSubclass < 2 ^ 16 ∧
  c.curVendor < 2 ^ 16 ∧ c.curVendorProduct < 2 ^ 32

instance (c : Ctx) : Decidable c.WF := by
  unfold Ctx.WF
  infer_instance

/-- Everything the loop body reads and writes: the locals and the global maps. -/
structure State where
  ctx : Ctx
  db : Tables
deriving DecidableEq

/-! ## `strconv.ParseUint` (base and bit size as passed by `mustParse8/16`) -/

/-- The two sentinel errors a `*strconv.NumError` can wrap here. -/
inductive NumErrKind where
  | ErrSyntax
  | ErrRange
deriving DecidableEq

/-- What stops a run: the value handed to `panic`.  `numError num err` is the
`*strconv.NumError` of `ParseUint` with `Num = num` and `Err = err`;
`sliceBounds` is the runtime panic of a slice expression whose bounds do not
fit: `lineBytes[n:]` on a line of fewer than `n` runes, or an upper bound beyond the
capacity of the slice. -/
inductive Abort where
  | numError (num : List Char) (err : NumErrKind)
  | sliceBounds
deriving DecidableEq

/-- The helper `lower` of strconv: `c | ('x' - 'X')`. -/
def lower (c : Nat) : Nat := c ||| 0x20

/-- The digit switch of `ParseUint`: decimal digits, then letters folded to
lower case; `none` is the default branch (syntax error).  A rune outside
ASCII is one or more bytes `≥ 0x80`, which `lower` leaves `≥ 0x80`, so it takes
the default branch exactly as its code point does here. -/
def digitVal (c : Char) : Option Nat :=
  let n := c.toNat
  if 48 ≤ n ∧ n ≤ 57 then some (n - 48)
  else if 97 ≤ lower n ∧ lower n ≤ 122 then some (lower n - 97 + 10)
  else none

/-- The loop of `ParseUint` over the remaining characters, `n` being the
accumulator (a `uint64`). -/
def parseUintLoop (base maxVal cutoff : Nat) : List Char → Nat → Except NumErrKind Nat
  | [], n => .ok n
  | c :: cs, n =>
    match digitVal c with
    | none => .error .ErrSyntax
    | some d =>
      if d ≥ base then .error .ErrSyntax
      else if n ≥ cutoff then .error .ErrRange
      else
        let n0 := (n * base) % 2 ^ 64
        let n1 := (n0 + d) % 2 ^ 64
        if n1 < n0 ∨ n1 > maxVal then .error .ErrRange
        else parseUintLoop base maxVal cutoff cs n1

/-- The function `strconv.ParseUint(s, base, bitSize)` for `2 ≤ base ≤ 36` and
`1 ≤ bitSize ≤ 64` (no prefix and no underscore handling applies). -/
def parseUint (s : List Char) (base bitSize : Nat) : Except NumErrKind Nat :=
  if s = [] then .error .ErrSyntax
  else parseUintLoop base (2 ^ bitSize - 1) ((2 ^ 64 - 1) / base + 1) s 0

/-- The function `mustParse8`: it panics with the error of
`ParseUint(string(in), 16, 8)`, if any, and returns the value as a `uint8`. -/
def mustParse8 (inp : List Char) : Except Abort Nat :=
  match parseUint inp 16 8 with
  | .error e => .error (.numError inp e)
  | .ok v => .ok (v % 2 ^ 8)

/-- The function `mustParse16`: it panics with the error of
`ParseUint(string(in), 16, 16)`, if any, and returns the value as a `uint16`. -/
def mustParse16 (inp : List Char) : Except Abort Nat :=
  match parseUint inp 16 16 with
  | .error e => .error (.numError inp e)
  | .ok v => .ok (v % 2 ^ 16)

/-! ## Slice expressions on the line -/

/-- The capacity of `lineBytes`, the result of `[]rune(line)`, for a line of `n` runes.
The slice does not escape `parseDBFile`, so the runtime builds it in the 32-rune buffer
it keeps in the caller's frame whenever the line fits (`tmpStringBufSize`), and
allocates otherwise.  An allocation holds at least `n` runes, rounded up to a size
class; no slice expression of the program reaches past column 13, so the rounding is
left out. -/
def runeCap (n : Nat) : Nat := max 32 n

/-- The slice expression `lineBytes[lo:hi]`.  Go bounds `hi` by the capacity of the
slice, not by its length, and the runes between length and capacity are zero: on a
line that ends before column `hi` the expression does not panic, it reads zero runes. -/
def slice (s : List Char) (lo hi : Nat) : Except Abort (List Char) :=
  if lo ≤ hi ∧ hi ≤ runeCap s.length then
    .ok (((s ++ List.replicate (runeCap s.length - s.length) (Char.ofNat 0)).take hi).drop lo)
  else .error .sliceBounds

/-- The slice expression `lineBytes[lo:]`, whose upper bound is the length. -/
def sliceFrom (s : List Char) (lo : Nat) : Except Abort (List Char) :=
  if lo ≤ s.length then .ok (s.drop lo) else .error .sliceBounds

/-! ## Composite keys -/

/-- The key `uint16(curClass)<<8 | uint16(subclassID)`. -/
def subclassKey (curClass subclassID : Nat) : Nat :=
  (curClass <<< 8) % 2 ^ 16 ||| subclassID

/-- The key `uint32(curClassSubclass)<<8 | uint32(progIfaceID)`. -/
def progIfaceKey (curClassSubclass progIfaceID : Nat) : Nat :=
  (curClassSubclass <<< 8) % 2 ^ 32 ||| progIfaceID

/-- The key `uint32(curVendor)<<16 | uint32(productID)`. -/
def productKey (curVendor productID : Nat) : Nat :=
  (curVendor <<< 16) % 2 ^ 32 ||| productID

/-- The key `uint64(curVendorProduct)<<16 | uint64(subsystemID)`. -/
def subsystemKey (curVendorProduct subsystemID : Nat) : Nat :=
  (curVendorProduct <<< 16) % 2 ^ 64 ||| subsystemID

/-! ## The loop body and the loop of `parseDBFile` -/

/-- One iteration of the `for scanner.Scan()` loop on the line `lineBytes`. -/
def processLine (st : State) (lineBytes : List Char) : Except Abort State :=
  -- skip comments and blank lines
  if lineBytes = [] ∨ lineBytes[0]? = some '#' then .ok st
  else if lineBytes[0]? = some 'C' then do
    let idField ← slice lineBytes 2 4
    let curClass ← mustParse8 idField
    let className ← sliceFrom lineBytes 6
    .ok { ctx := { st.ctx with inClassBlock := true, curClass := curClass },
          db := { st.db with Classes := st.db.Classes.insert curClass (String.mk className) } }
  else if lineBytes[0]? ≠ some '\t' then do
    let idField ← slice lineBytes 0 4
    let curVendor ← mustParse16 idField
    let vendorName ← sliceFrom lineBytes 6
    .ok { ctx := { st.ctx with inClassBlock := false, curVendor := curVendor },
          db := { st.db with Vendors := st.db.Vendors.insert curVendor (String.mk vendorName) } }
  else if lineBytes.length > 1 ∧ lineBytes[1]? ≠ some '\t' then
    if st.ctx.inClassBlock then do
      let idField ← slice lineBytes 1 3
      let subclassID ← mustParse8 idField
      let curClassSubclass := subclassKey st.ctx.curClass subclassID
      let subclassName ← sliceFrom lineBytes 5
      .ok { ctx := { st.ctx with curClassSubclass := curClassSubclass },
            db := { st.db with
              Subclasses := st.db.Subclasses.insert curClassSubclass (String.mk subclassName) } }
    else do
      let idField ← slice lineBytes 1 5
      let productID ← mustParse16 idField
      let productName ← sliceFrom lineBytes 7
      let curVendorProduct := productKey st.ctx.curVendor productID
      .ok { ctx := { st.ctx with curVendorProduct := curVendorProduct },
            db := { st.db with
              Products := st.db.Products.insert curVendorProduct (String.mk productName) } }
  else
    if st.ctx.inClassBlock then do
      let idField ← slice lineBytes 2 4
      let progIfaceID ← mustParse8 idField
      let progIfaceName ← sliceFrom lineBytes 6
      .ok { st with
            db := { st.db with
              ProgrammingInterfaces :=
                st.db.ProgrammingInterfaces.insert
                  (progIfaceKey st.ctx.curClassSubclass progIfaceID) (String.mk progIfaceName) } }
    else do
      let vendorField ← slice lineBytes 2 6
      let vendorID ← mustParse16 vendorField
      let idField ← slice lineBytes 7 11
      let subsystemID ← mustParse16 idField
      let subsystemName ← sliceFrom lineBytes 13
      .ok { st with
            db := { st.db with
              Subsystems :=
                st.db.Subsystems.insert
                  (subsystemKey st.ctx.curVendorProduct subsystemID)
                  { Vendor := vendorID, Name := String.mk subsystemName } } }

/-- The `for scanner.Scan()` loop: the lines are processed in order and the
first panic stops the run. -/
def parseLines (st : State) : List (List Char) → Except Abort State
  | [] => .ok st
  | line :: rest =>
    match processLine st line with
    | .error e => .error e
    | .ok st1 => parseLines st1 rest

/-- A run of `parseDBFile` on the lines of `pci.ids`, the package-level maps
holding `db` when it starts: the locals are initialised, the loop runs, and the
maps are what the caller finds afterwards. -/
def parseDBFile (db : Tables) (lines : List (List Char)) : Except Abort Tables :=
  match parseLines { ctx := Ctx.init, db := db } lines with
  | .error e => .error e
  | .ok st => .ok st.db

/-! ## Vocabulary of the statements -/

/-- A hexadecimal digit, upper or lower case. -/
def isHexDigit (c : Char) : Bool :=
  (48 ≤ c.toNat && c.toNat ≤ 57) || (97 ≤ c.toNat && c.toNat ≤ 102) ||
    (65 ≤ c.toNat && c.toNat ≤ 70)

/-- The value of a hexadecimal digit. -/
def hexVal (c : Char) : Nat :=
  if c.toNat ≤ 57 then c.toNat - 48
  else if 97 ≤ c.toNat then c.toNat - 87
  else c.toNat - 55

/-- The number a string of hexadecimal digits denotes, most significant digit first. -/
def hexNum (s : List Char) : Nat := s.foldl (fun n c => n * 16 + hexVal c) 0

/-- The characters of `l` at the columns `lo`, ..., `hi - 1`. -/
def cols (l : List Char) (lo hi : Nat) : List Char := (l.take hi).drop lo

/-- The text of the field of `l` at the columns `lo`, ..., `hi - 1` as the program reads
it: a column past the end of the line holds a zero rune. -/
def fieldText (l : List Char) (lo hi : Nat) : List Char :=
  cols (l ++ List.replicate (hi - l.length) (Char.ofNat 0)) lo hi

/-- A line the loop skips: empty, or starting with the comment marker. -/
def isBlankOrComment (l : List Char) : Bool := l.isEmpty || l[0]? == some '#'

/-- The field of `l` at the columns `lo`, ..., `hi - 1` holds a character that is not a
hexadecimal digit. -/
def hasNonHex (l : List Char) (lo hi : Nat) : Bool := (cols l lo hi).any (fun c => !isHexDigit c)

/-- The entries of `a`, together with the entries of `b` under the keys that `a` does
not hold. -/
def Tables.overlay (a b : Tables) : Tables :=
  { Classes := a.Classes ∪ b.Classes,
    Vendors := a.Vendors ∪ b.Vendors,
    Subclasses := a.Subclasses ∪ b.Subclasses,
    Products := a.Products ∪ b.Products,
    ProgrammingInterfaces := a.ProgrammingInterfaces ∪ b.ProgrammingInterfaces,
    Subsystems := a.Subsystems ∪ b.Subsystems }

/-- A header line: neither blank nor a comment, and not indented. -/
def isHeader (l : List Char) : Bool := !isBlankOrComment l && l[0]? != some '\t'

/-- The last header line of `lines`, or `cur` when `lines` holds no header line. -/
def lastHeaderFrom (cur : Option (List Char)) : List (List Char) → Option (List Char)
  | [] => cur
  | l :: rest => lastHeaderFrom (if isHeader l then some l else cur) rest

/-- The last header line of `lines`, if there is one. -/
def lastHeader (lines : List (List Char)) : Option (List Char) := lastHeaderFrom none lines

/-- What the mode flag and the two first-level registers hold when `h` is the last
header line processed so far (`none`: no header line yet in a run from `Ctx.init`). -/
def HeaderInv (h : Option (List Char)) (ctx : Ctx) : Prop :=
  match h with
  | none => ctx.inClassBlock = false ∧ ctx.curClass = 0 ∧ ctx.curVendor = 0
  | some h =>
    if h[0]? = some 'C' then
      ctx.inClassBlock = true ∧ 6 ≤ h.length ∧ (cols h 2 4).all isHexDigit = true ∧
        ctx.curClass = hexNum (cols h 2 4)
    else
      ctx.inClassBlock = false ∧ 6 ≤ h.length ∧ (cols h 0 4).all isHexDigit = true ∧
        ctx.curVendor = hexNum (cols h 0 4)

/-- The six mappings, by name. -/
inductive TableId where
  | classes
  | vendors
  | subclasses
  | products
  | progIfaces
  | subsystems
deriving DecidableEq

/-- A value stored in one of the mappings: a name, or a subsystem record. -/
inductive Payload where
  | name (s : String)
  | subsystem (s : Subsystem)
deriving DecidableEq

/-- The value stored under the key `k` of the mapping `t`, if any. -/
def Tables.entry (db : Tables) (t : TableId) (k : Nat) : Option Payload :=
  match t with
  | .classes => (db.Classes.lookup k).map Payload.name
  | .vendors => (db.Vendors.lookup k).map Payload.name
  | .subclasses => (db.Subclasses.lookup k).map Payload.name
  | .products => (db.Products.lookup k).map Payload.name
  | .progIfaces => (db.ProgrammingInterfaces.lookup k).map Payload.name
  | .subsystems => (db.Subsystems.lookup k).map Payload.subsystem

/-- What line number `i` (0-based) of `lines` inserts, in a run of the loop that starts
with the registers `ctx`: the loop body is run on that line with empty mappings and
with the registers the run has when it reaches the line.  `none` when the run does
not get past line `i`. -/
def lineWrites (ctx : Ctx) : List (List Char) → Nat → Option Tables
  | [], _ => none
  | l :: rest, i =>
    match processLine { ctx := ctx, db := Tables.empty } l with
    | .error _ => none
    | .ok st =>
      match i with
      | 0 => some st.db
      | j + 1 => lineWrites st.ctx rest j

/-- The payload line number `i` writes under the key `k` of the mapping `t`, if it
writes that key. -/
def writeAt (ctx : Ctx) (lines : List (List Char)) (i : Nat) (t : TableId) (k : Nat) :
    Option Payload :=
  (lineWrites ctx lines i).bind fun w => w.entry t k

/-! ## The emission of the lookup functions (`main`) -/

/-- The call `sort.Slice(ids, func(i, j int) bool { return ids[i] < ids[j] })`: the ids
in ascending order. -/
def sortSlice (ids : List Nat) : List Nat := ids.insertionSort (· ≤ ·)

/-- The `case` lines of one lookup function.  The ids collected by ranging over the map
`m` are sorted, and one case is printed per id with the value read from the map.  Go
leaves the order of a `range` over a map unspecified: `ranged` is the order of the run
at hand.  A case is the id and the value handed to `Printf`; `zero` is what reading a
missing key gives. -/
def emitCases {β : Type} (zero : β) (m : GoMap β) (ranged : List Nat) : List (Nat × β) :=
  (sortSlice ranged).map fun id => (id, (m.lookup id).getD zero)

/-- The list `ranged` is a possible order of a `range` over `m`: every key once. -/
def IsRange {β : Type} (m : GoMap β) (ranged : List Nat) : Prop :=
  ranged.Nodup ∧ ranged.toFinset = m.keys

/-- The orders in which the six `range` loops of `main` visit the keys. -/
structure RangeOrders where
  classes : List Nat
  subclasses : List Nat
  progIfaces : List Nat
  vendors : List Nat
  products : List Nat
  subsystems : List Nat

/-- Each of the six loops visits every key of its map exactly once. -/
def RangeOrders.Valid (r : RangeOrders) (db : Tables) : Prop :=
  IsRange db.Classes r.classes ∧ IsRange db.Subclasses r.subclasses ∧
  IsRange db.ProgrammingInterfaces r.progIfaces ∧ IsRange db.Vendors r.vendors ∧
  IsRange db.Products r.products ∧ IsRange db.Subsystems r.subsystems

/-- The cases of the six lookup functions `main` prints, in the order it prints them. -/
structure Lookups where
  lookupClass : List (Nat × String)
  lookupSubclass : List (Nat × String)
  lookupProgrammingInterface : List (Nat × String)
  lookupVendor : List (Nat × String)
  lookupProduct : List (Nat × String)
  lookupSubsystem : List (Nat × Subsystem)

/-- The part of `main` after `parseDBFile`: the six switch statements. -/
def emitLookups (db : Tables) (r : RangeOrders) : Lookups :=
  { lookupClass := emitCases "" db.Classes r.classes,
    lookupSubclass := emitCases "" db.Subclasses r.subclasses,
    lookupProgrammingInterface := emitCases "" db.ProgrammingInterfaces r.progIfaces,
    lookupVendor := emitCases "" db.Vendors r.vendors,
    lookupProduct := emitCases "" db.Products r.products,
    lookupSubsystem := emitCases { Vendor := 0, Name := "" } db.Subsystems r.subsystems }

/-- The cases `cs` are one per key of `m`, each with the value stored under its key, in
strictly ascending order of the keys. -/
def CasesOk {β : Type} (m : GoMap β) (cs : List (Nat × β)) : Prop :=
  (cs.map Prod.fst).Sorted (· < ·) ∧ (∀ k v, (k, v) ∈ cs ↔ m.lookup k = some v) ∧
    cs.length = m.keys.card

/-- The key set of the mapping `t`. -/
def Tables.keys (db : Tables) (t : TableId) : Finset Nat :=
  match t with
  | .classes => db.Classes.keys
  | .vendors => db.Vendors.keys
  | .subclasses => db.Subclasses.keys
  | .products => db.Products.keys
  | .progIfaces => db.ProgrammingInterfaces.keys
  | .subsystems => db.Subsystems.keys

/-- In class-hierarchy mode the current class id is a key of the Class mapping, and the
class id of every Subclass key is a key of the Class mapping. -/
def ClassParentInv (st : State) : Prop :=
  (st.ctx.inClassBlock = true → st.ctx.curClass ∈ st.db.Classes ∧ st.ctx.curClass < 2 ^ 8) ∧
    ∀ k ∈ st.db.Subclasses, (k >>> 8) ∈ st.db.Classes

/-- In vendor-hierarchy mode the current vendor id is a key of the Vendor mapping, and
the vendor id of every Product key is a key of the Vendor mapping. -/
def VendorParentInv (st : State) : Prop :=
  (st.ctx.inClassBlock = false → st.ctx.curVendor ∈ st.db.Vendors ∧ st.ctx.curVendor < 2 ^ 16) ∧
    ∀ k ∈ st.db.Products, (k >>> 16) ∈ st.db.Vendors

/-! ## Lemmas: `strconv.ParseUint` on hexadecimal fields -/

theorem digit_code (n : Nat) (hn : n < 128) :
    (if 48 ≤ n ∧ n ≤ 57 then some (n - 48)
      else if 97 ≤ lower n ∧ lower n ≤ 122 then some (lower n - 97 + 10) else none) =
      if (48 ≤ n && n ≤ 57) || (97 ≤ n && n ≤ 102) || (65 ≤ n && n ≤ 70) then
        some (if n ≤ 57 then n - 48 else if 97 ≤ n then n - 87 else n - 55)
      else if 97 ≤ lower n ∧ lower n ≤ 122 then some (lower n - 97 + 10) else none := by
  revert n
  decide

theorem digit_code_bound (n : Nat) (hn : n < 128) :
    (if (48 ≤ n && n ≤ 57) || (97 ≤ n && n ≤ 102) || (65 ≤ n && n ≤ 70) then
        decide ((if n ≤ 57 then n - 48 else if 97 ≤ n then n - 87 else n - 55) < 16)
      else decide (97 ≤ lower n ∧ lower n ≤ 122 → 16 ≤ lower n - 97 + 10)) = true := by
  revert n
  decide

theorem lower_ge (n : Nat) : n ≤ lower n :=
  Nat.le_of_testBit (fun i h => by simp [lower, h])

theorem digitVal_of_hex (c : Char) (h : isHexDigit c = true) :
    digitVal c = some (hexVal c) ∧ hexVal c < 16 := by
  have hn : c.toNat < 128 := by
    simp only [isHexDigit, Bool.or_eq_true, Bool.and_eq_true, decide_eq_true_eq] at h
    omega
  have h1 := digit_code c.toNat hn
  have h2 := digit_code_bound c.toNat hn
  unfold isHexDigit at h
  rw [if_pos h] at h1 h2
  exact ⟨h1, by simpa [hexVal] using h2⟩

theorem digitVal_of_not_hex (c : Char) (h : isHexDigit c = false) (d : Nat)
    (hd : digitVal c = some d) : 16 ≤ d := by
  by_cases hn : c.toNat < 128
  · have h1 := digit_code c.toNat hn
    have h2 := digit_code_bound c.toNat hn
    unfold isHexDigit at h
    simp only [h, Bool.false_eq_true, if_false] at h1 h2
    unfold digitVal at hd
    simp only at hd
    rw [h1] at hd
    split at hd
    · rename_i hr
      simp only [decide_eq_true_eq] at h2
      have := h2 hr
      simp only [Option.some.injEq] at hd
      omega
    · simp at hd
  · have hl := lower_ge c.toNat
    unfold digitVal at hd
    simp only at hd
    rw [if_neg (by omega), if_neg (by omega)] at hd
    simp at hd

theorem parseUintLoop_hex_step (m : Nat) (c : Char) (cs : List Char) (n : Nat)
    (hc : isHexDigit c = true) (hn : n * 16 + hexVal c ≤ m) (hm : m < 2 ^ 64) :
    parseUintLoop 16 m ((2 ^ 64 - 1) / 16 + 1) (c :: cs) n =
      parseUintLoop 16 m ((2 ^ 64 - 1) / 16 + 1) cs (n * 16 + hexVal c) := by
  obtain ⟨ec, lc⟩ := digitVal_of_hex c hc
  have e0 : (n * 16) % 2 ^ 64 = n * 16 := Nat.mod_eq_of_lt (by omega)
  have e1 : (n * 16 + hexVal c) % 2 ^ 64 = n * 16 + hexVal c := Nat.mod_eq_of_lt (by omega)
  rw [parseUintLoop, ec]
  simp only [e0, e1]
  rw [if_neg (by omega), if_neg (by omega), if_neg (by omega)]

theorem parseUint_hex2 (a b : Char) (ha : isHexDigit a = true) (hb : isHexDigit b = true) :
    parseUint [a, b] 16 8 = .ok (hexNum [a, b]) := by
  have la := (digitVal_of_hex a ha).2
  have lb := (digitVal_of_hex b hb).2
  rw [parseUint, if_neg (by simp),
    parseUintLoop_hex_step _ a _ _ ha (by omega) (by norm_num),
    parseUintLoop_hex_step _ b _ _ hb (by omega) (by norm_num)]
  rfl

theorem parseUint_hex4 (a b c d : Char) (ha : isHexDigit a = true) (hb : isHexDigit b = true)
    (hc : isHexDigit c = true) (hd : isHexDigit d = true) :
    parseUint [a, b, c, d] 16 16 = .ok (hexNum [a, b, c, d]) := by
  have la := (digitVal_of_hex a ha).2
  have lb := (digitVal_of_hex b hb).2
  have lc := (digitVal_of_hex c hc).2
  have ld := (digitVal_of_hex d hd).2
  rw [parseUint, if_neg (by simp),
    parseUintLoop_hex_step _ a _ _ ha (by omega) (by norm_num),
    parseUintLoop_hex_step _ b _ _ hb (by omega) (by norm_num),
    parseUintLoop_hex_step _ c _ _ hc (by omega) (by norm_num),
    parseUintLoop_hex_step _ d _ _ hd (by omega) (by norm_num)]
  rfl

theorem hexNum_two_lt (a b : Char) (ha : isHexDigit a = true) (hb : isHexDigit b = true) :
    hexNum [a, b] < 2 ^ 8 := by
  have la := (digitVal_of_hex a ha).2
  have lb := (digitVal_of_hex b hb).2
  simp only [hexNum, List.foldl]
  omega

theorem hexNum_four_lt (a b c d : Char) (ha : isHexDigit a = true) (hb : isHexDigit b = true)
    (hc : isHexDigit c = true) (hd : isHexDigit d = true) :
    hexNum [a, b, c, d] < 2 ^ 16 := by
  have la := (digitVal_of_hex a ha).2
  have lb := (digitVal_of_hex b hb).2
  have lc := (digitVal_of_hex c hc).2
  have ld := (digitVal_of_hex d hd).2
  simp only [hexNum, List.foldl]
  omega

theorem parseUintLoop_not_hex (m cut : Nat) (s : List Char) (n : Nat)
    (h : ∃ c ∈ s, isHexDigit c = false) :
    ∃ e, parseUintLoop 16 m cut s n = .error e := by
  induction s generalizing n with
  | nil => simp at h
  | cons c cs ih =>
    rw [parseUintLoop]
    cases hd : digitVal c with
    | none => exact ⟨_, rfl⟩
    | some d =>
      simp only
      by_cases h1 : d ≥ 16
      · rw [if_pos h1]; exact ⟨_, rfl⟩
      · rw [if_neg h1]
        by_cases h2 : n ≥ cut
        · rw [if_pos h2]; exact ⟨_, rfl⟩
        · rw [if_neg h2]
          split
          · exact ⟨_, rfl⟩
          · apply ih
            obtain ⟨x, hx, hxh⟩ := h
            rcases List.mem_cons.mp hx with rfl | hx
            · have := digitVal_of_not_hex x hxh d hd
              omega
            · exact ⟨x, hx, hxh⟩

theorem parseUint_not_hex (s : List Char) (bitSize : Nat) (h : ∃ c ∈ s, isHexDigit c = false) :
    ∃ e, parseUint s 16 bitSize = .error e := by
  unfold parseUint
  split
  · exact ⟨_, rfl⟩
  · exact parseUintLoop_not_hex _ _ s 0 h

theorem mustParse8_hex2 (a b : Char) (ha : isHexDigit a = true) (hb : isHexDigit b = true) :
    mustParse8 [a, b] = .ok (hexNum [a, b]) := by
  rw [mustParse8, parseUint_hex2 a b ha hb]
  simp only
  rw [Nat.mod_eq_of_lt (hexNum_two_lt a b ha hb)]

theorem mustParse16_hex4 (a b c d : Char) (ha : isHexDigit a = true) (hb : isHexDigit b = true)
    (hc : isHexDigit c = true) (hd : isHexDigit d = true) :
    mustParse16 [a, b, c, d] = .ok (hexNum [a, b, c, d]) := by
  rw [mustParse16, parseUint_hex4 a b c d ha hb hc hd]
  simp only
  rw [Nat.mod_eq_of_lt (hexNum_four_lt a b c d ha hb hc hd)]

theorem mustParse8_not_hex (s : List Char) (h : ∃ c ∈ s, isHexDigit c = false) :
    ∃ k, mustParse8 s = .error (.numError s k) := by
  obtain ⟨e, he⟩ := parseUint_not_hex s 8 h
  exact ⟨e, by rw [mustParse8, he]⟩

theorem mustParse16_not_hex (s : List Char) (h : ∃ c ∈ s, isHexDigit c = false) :
    ∃ k, mustParse16 s = .error (.numError s k) := by
  obtain ⟨e, he⟩ := parseUint_not_hex s 16 h
  exact ⟨e, by rw [mustParse16, he]⟩

theorem cols_length (l : List Char) (lo hi : Nat) (h : hi ≤ l.length) :
    (cols l lo hi).length = hi - lo := by
  simp [cols, List.length_drop, List.length_take, Nat.min_eq_left h]

theorem take_pad (l : List Char) (n hi : Nat) (z : Char) (h : hi ≤ l.length + n) :
    (l ++ List.replicate n z).take hi = (l ++ List.replicate (hi - l.length) z).take hi := by
  rw [List.take_append_eq_append_take, List.take_append_eq_append_take, List.take_replicate,
    List.take_replicate, Nat.min_self, Nat.min_eq_left (by omega)]

theorem le_runeCap (n : Nat) : n ≤ runeCap n := Nat.le_max_right 32 n

theorem slice_eq_fieldText (l : List Char) (lo hi : Nat) (h1 : lo ≤ hi)
    (h2 : hi ≤ runeCap l.length) : slice l lo hi = .ok (fieldText l lo hi) := by
  have hcap := le_runeCap l.length
  rw [slice, if_pos ⟨h1, h2⟩, take_pad l _ hi _ (by omega)]
  rfl

theorem slice_cases (l : List Char) (lo hi : Nat) :
    slice l lo hi = .ok (fieldText l lo hi) ∨ slice l lo hi = .error .sliceBounds := by
  by_cases h : lo ≤ hi ∧ hi ≤ runeCap l.length
  · exact Or.inl (slice_eq_fieldText l lo hi h.1 h.2)
  · exact Or.inr (by rw [slice, if_neg h])

theorem fieldText_of_le (l : List Char) (lo hi : Nat) (h : hi ≤ l.length) :
    fieldText l lo hi = cols l lo hi := by
  rw [fieldText, Nat.sub_eq_zero_of_le h]
  simp

theorem fieldText_length (l : List Char) (lo hi : Nat) :
    (fieldText l lo hi).length = hi - lo := by
  simp only [fieldText, cols, List.length_drop, List.length_take, List.length_append,
    List.length_replicate]
  omega

theorem cols_subset_fieldText (l : List Char) (lo hi : Nat) (c : Char)
    (h : c ∈ cols l lo hi) : c ∈ fieldText l lo hi := by
  simp only [fieldText, cols, List.take_append_eq_append_take, List.drop_append_eq_append_drop]
  exact List.mem_append_left _ h

theorem fieldText_short (l : List Char) (lo hi : Nat) (h1 : lo < hi) (h2 : l.length < hi) :
    ∃ c ∈ fieldText l lo hi, isHexDigit c = false := by
  refine ⟨Char.ofNat 0, ?_, by decide⟩
  simp only [fieldText, cols, List.take_append_eq_append_take, List.drop_append_eq_append_drop,
    List.take_replicate, List.drop_replicate, List.mem_append, List.mem_replicate]
  right
  simp only [List.length_take, Nat.min_self, ne_eq, and_true]
  omega

theorem slice_eq_cols (l : List Char) (lo hi : Nat) (h1 : lo ≤ hi) (h2 : hi ≤ l.length) :
    slice l lo hi = .ok (cols l lo hi) := by
  rw [slice_eq_fieldText l lo hi h1 (h2.trans (le_runeCap _)), fieldText_of_le l lo hi h2]

theorem sliceFrom_ok (l : List Char) (lo : Nat) (h : lo ≤ l.length) :
    sliceFrom l lo = .ok (l.drop lo) := by
  simp [sliceFrom, h]

theorem sliceFrom_short (l : List Char) (lo : Nat) (h : l.length < lo) :
    sliceFrom l lo = .error .sliceBounds := by
  simp [sliceFrom]; omega

theorem length_eq_four (s : List Char) (h : s.length = 4) : ∃ a b c d, s = [a, b, c, d] := by
  match s, h with
  | [a, b, c, d], _ => exact ⟨a, b, c, d, rfl⟩

theorem mustParse8_cols (l : List Char) (lo : Nat) (hl : lo + 2 ≤ l.length)
    (hh : (cols l lo (lo + 2)).all isHexDigit = true) :
    mustParse8 (cols l lo (lo + 2)) = .ok (hexNum (cols l lo (lo + 2))) ∧
      hexNum (cols l lo (lo + 2)) < 2 ^ 8 := by
  have hlen := cols_length l lo (lo + 2) hl
  obtain ⟨a, b, hab⟩ := List.length_eq_two.mp (by omega : (cols l lo (lo + 2)).length = 2)
  rw [hab] at hh ⊢
  simp only [List.all_cons, List.all_nil, Bool.and_true, Bool.and_eq_true] at hh
  exact ⟨mustParse8_hex2 a b hh.1 hh.2, hexNum_two_lt a b hh.1 hh.2⟩

theorem mustParse16_cols (l : List Char) (lo : Nat) (hl : lo + 4 ≤ l.length)
    (hh : (cols l lo (lo + 4)).all isHexDigit = true) :
    mustParse16 (cols l lo (lo + 4)) = .ok (hexNum (cols l lo (lo + 4))) ∧
      hexNum (cols l lo (lo + 4)) < 2 ^ 16 := by
  have hlen := cols_length l lo (lo + 4) hl
  obtain ⟨a, b, c, d, hab⟩ := length_eq_four (cols l lo (lo + 4)) (by omega)
  rw [hab] at hh ⊢
  simp only [List.all_cons, List.all_nil, Bool.and_true, Bool.and_eq_true] at hh
  exact ⟨mustParse16_hex4 a b c d hh.1 hh.2.1 hh.2.2.1 hh.2.2.2,
    hexNum_four_lt a b c d hh.1 hh.2.1 hh.2.2.1 hh.2.2.2⟩

/-! ## Lemmas: the branches of the loop body -/

theorem processLine_skip (st : State) (l : List Char) (h : l = [] ∨ l[0]? = some '#') :
    processLine st l = .ok st := by
  rw [processLine, if_pos h]

theorem ok_bind {ε α β : Type} (a : α) (f : α → Except ε β) :
    (Except.ok a >>= f) = f a := rfl

theorem error_bind {ε α β : Type} (e : ε) (f : α → Except ε β) :
    ((Except.error e : Except ε α) >>= f) = .error e := rfl

theorem not_skip_of_head (l : List Char) (c : Char) (h : l[0]? = some c) (hc : c ≠ '#') :
    ¬ (l = [] ∨ l[0]? = some '#') := by
  rintro (rfl | h1)
  · simp at h
  · rw [h] at h1
    exact hc (Option.some.inj h1)

theorem processLine_class (st : State) (l : List Char) (h : l[0]? = some 'C') :
    processLine st l =
      (slice l 2 4 >>= fun idField => mustParse8 idField >>= fun curClass =>
        sliceFrom l 6 >>= fun className =>
        .ok { ctx := { st.ctx with inClassBlock := true, curClass := curClass },
              db := { st.db with
                Classes := st.db.Classes.insert curClass (String.mk className) } }) := by
  rw [processLine, if_neg (not_skip_of_head l _ h (by decide)), if_pos h]

theorem processLine_vendor (st : State) (l : List Char) (h0 : ¬ (l = [] ∨ l[0]? = some '#'))
    (h1 : l[0]? ≠ some 'C') (h2 : l[0]? ≠ some '\t') :
    processLine st l =
      (slice l 0 4 >>= fun idField => mustParse16 idField >>= fun curVendor =>
        sliceFrom l 6 >>= fun vendorName =>
        .ok { ctx := { st.ctx with inClassBlock := false, curVendor := curVendor },
              db := { st.db with
                Vendors := st.db.Vendors.insert curVendor (String.mk vendorName) } }) := by
  rw [processLine, if_neg h0, if_neg h1, if_pos h2]

theorem processLine_subclass (st : State) (l : List Char) (h : l[0]? = some '\t')
    (h3 : l.length > 1 ∧ l[1]? ≠ some '\t') (hm : st.ctx.inClassBlock = true) :
    processLine st l =
      (slice l 1 3 >>= fun idField => mustParse8 idField >>= fun subclassID =>
        sliceFrom l 5 >>= fun subclassName =>
        .ok { ctx := { st.ctx with curClassSubclass := subclassKey st.ctx.curClass subclassID },
              db := { st.db with
                Subclasses := st.db.Subclasses.insert (subclassKey st.ctx.curClass subclassID)
                  (String.mk subclassName) } }) := by
  rw [processLine, if_neg (not_skip_of_head l _ h (by decide)), if_neg (by rw [h]; decide),
    if_neg (by simp [h]), if_pos h3, if_pos hm]

theorem processLine_product (st : State) (l : List Char) (h : l[0]? = some '\t')
    (h3 : l.length > 1 ∧ l[1]? ≠ some '\t') (hm : st.ctx.inClassBlock = false) :
    processLine st l =
      (slice l 1 5 >>= fun idField => mustParse16 idField >>= fun productID =>
        sliceFrom l 7 >>= fun productName =>
        .ok { ctx := { st.ctx with curVendorProduct := productKey st.ctx.curVendor productID },
              db := { st.db with
                Products := st.db.Products.insert (productKey st.ctx.curVendor productID)
                  (String.mk productName) } }) := by
  rw [processLine, if_neg (not_skip_of_head l _ h (by decide)), if_neg (by rw [h]; decide),
    if_neg (by simp [h]), if_pos h3, if_neg (by simp [hm])]

theorem processLine_progIface (st : State) (l : List Char) (h : l[0]? = some '\t')
    (h3 : ¬ (l.length > 1 ∧ l[1]? ≠ some '\t')) (hm : st.ctx.inClassBlock = true) :
    processLine st l =
      (slice l 2 4 >>= fun idField => mustParse8 idField >>= fun progIfaceID =>
        sliceFrom l 6 >>= fun progIfaceName =>
        .ok { st with
              db := { st.db with
                ProgrammingInterfaces :=
                  st.db.ProgrammingInterfaces.insert
                    (progIfaceKey st.ctx.curClassSubclass progIfaceID)
                    (String.mk progIfaceName) } }) := by
  rw [processLine, if_neg (not_skip_of_head l _ h (by decide)), if_neg (by rw [h]; decide),
    if_neg (by simp [h]), if_neg h3, if_pos hm]

theorem processLine_subsystem (st : State) (l : List Char) (h : l[0]? = some '\t')
    (h3 : ¬ (l.length > 1 ∧ l[1]? ≠ some '\t')) (hm : st.ctx.inClassBlock = false) :
    processLine st l =
      (slice l 2 6 >>= fun vendorField => mustParse16 vendorField >>= fun vendorID =>
        slice l 7 11 >>= fun idField => mustParse16 idField >>= fun subsystemID =>
        sliceFrom l 13 >>= fun subsystemName =>
        .ok { st with
              db := { st.db with
                Subsystems :=
                  st.db.Subsystems.insert
                    (subsystemKey st.ctx.curVendorProduct subsystemID)
                    { Vendor := vendorID, Name := String.mk subsystemName } } }) := by
  rw [processLine, if_neg (not_skip_of_head l _ h (by decide)), if_neg (by rw [h]; decide),
    if_neg (by simp [h]), if_neg h3, if_neg (by simp [hm])]

/-! ## Lemmas: the composite keys as sums -/

theorem shiftLeft_or_eq (p c w : Nat) (hc : c < 2 ^ w) : p <<< w ||| c = p * 2 ^ w + c := by
  rw [Nat.shiftLeft_eq, Nat.mul_comm p, ← Nat.mul_add_lt_is_or hc]

theorem subclassKey_eq (c s : Nat) (hc : c < 2 ^ 8) (hs : s < 2 ^ 8) :
    subclassKey c s = c * 2 ^ 8 + s := by
  have h : c <<< 8 < 2 ^ 16 := by rw [Nat.shiftLeft_eq]; omega
  rw [subclassKey, Nat.mod_eq_of_lt h, shiftLeft_or_eq c s 8 hs]

theorem progIfaceKey_eq (cs p : Nat) (hc : cs < 2 ^ 16) (hp : p < 2 ^ 8) :
    progIfaceKey cs p = cs * 2 ^ 8 + p := by
  have h : cs <<< 8 < 2 ^ 32 := by rw [Nat.shiftLeft_eq]; omega
  rw [progIfaceKey, Nat.mod_eq_of_lt h, shiftLeft_or_eq cs p 8 hp]

theorem productKey_eq (v p : Nat) (hv : v < 2 ^ 16) (hp : p < 2 ^ 16) :
    productKey v p = v * 2 ^ 16 + p := by
  have h : v <<< 16 < 2 ^ 32 := by rw [Nat.shiftLeft_eq]; omega
  rw [productKey, Nat.mod_eq_of_lt h, shiftLeft_or_eq v p 16 hp]

theorem subsystemKey_eq (vp s : Nat) (hv : vp < 2 ^ 32) (hs : s < 2 ^ 16) :
    subsystemKey vp s = vp * 2 ^ 16 + s := by
  have h : vp <<< 16 < 2 ^ 64 := by rw [Nat.shiftLeft_eq]; omega
  rw [subsystemKey, Nat.mod_eq_of_lt h, shiftLeft_or_eq vp s 16 hs]

theorem isBlankOrComment_iff (l : List Char) :
    isBlankOrComment l = true ↔ (l = [] ∨ l[0]? = some '#') := by
  simp [isBlankOrComment, List.isEmpty_iff]

theorem parseLines_cons (st : State) (l : List Char) (rest : List (List Char)) :
    parseLines st (l :: rest) = (processLine st l >>= fun st1 => parseLines st1 rest) := by
  rw [parseLines]
  cases processLine st l <;> rfl

theorem parseLines_append (st : State) (xs ys : List (List Char)) :
    parseLines st (xs ++ ys) = (parseLines st xs >>= fun st1 => parseLines st1 ys) := by
  induction xs generalizing st with
  | nil => rfl
  | cons x xs ih =>
    rw [List.cons_append, parseLines_cons, parseLines_cons]
    cases processLine st x with
    | error e => rfl
    | ok st1 => rw [ok_bind, ok_bind, ih]

/-! ## Lemmas: how a run stops -/

theorem bind_fails {α β : Type} (x : Except Abort α) (f : α → Except Abort β)
    (h : ∀ a, ∃ e, f a = .error e) : ∃ e, (x >>= f) = .error e := by
  cases x with
  | error e => exact ⟨e, rfl⟩
  | ok a => exact h a

theorem slice_mustParse8_fails {β : Type} (l : List Char) (lo hi : Nat)
    (f : Nat → Except Abort β) (hbad : hasNonHex l lo hi = true) :
    ∃ e, (slice l lo hi >>= fun x => mustParse8 x >>= f) = .error e := by
  rcases slice_cases l lo hi with hs | hs
  · have hmem : ∃ c ∈ fieldText l lo hi, isHexDigit c = false := by
      obtain ⟨c, hc, hh⟩ : ∃ c ∈ cols l lo hi, isHexDigit c = false := by
        simpa [hasNonHex] using hbad
      exact ⟨c, cols_subset_fieldText l lo hi c hc, hh⟩
    obtain ⟨k, hk⟩ := mustParse8_not_hex (fieldText l lo hi) hmem
    exact ⟨_, by rw [hs, ok_bind, hk, error_bind]⟩
  · exact ⟨_, by rw [hs, error_bind]⟩

theorem slice_mustParse16_fails {β : Type} (l : List Char) (lo hi : Nat)
    (f : Nat → Except Abort β) (hbad : hasNonHex l lo hi = true) :
    ∃ e, (slice l lo hi >>= fun x => mustParse16 x >>= f) = .error e := by
  rcases slice_cases l lo hi with hs | hs
  · have hmem : ∃ c ∈ fieldText l lo hi, isHexDigit c = false := by
      obtain ⟨c, hc, hh⟩ : ∃ c ∈ cols l lo hi, isHexDigit c = false := by
        simpa [hasNonHex] using hbad
      exact ⟨c, cols_subset_fieldText l lo hi c hc, hh⟩
    obtain ⟨k, hk⟩ := mustParse16_not_hex (fieldText l lo hi) hmem
    exact ⟨_, by rw [hs, ok_bind, hk, error_bind]⟩
  · exact ⟨_, by rw [hs, error_bind]⟩

theorem sliceFrom_fails {β : Type} (l : List Char) (lo : Nat) (f : List Char → Except Abort β)
    (h : l.length < lo) : ∃ e, (sliceFrom l lo >>= f) = .error e := by
  rw [sliceFrom_short l lo h]
  exact ⟨_, rfl⟩

theorem parseLines_abort (st0 st : State) (pre post : List (List Char)) (l : List Char)
    (e : Abort) (hpre : parseLines st0 pre = .ok st) (hl : processLine st l = .error e) :
    parseLines st0 (pre ++ l :: post) = .error e := by
  rw [parseLines_append, hpre, ok_bind, parseLines_cons, hl, error_bind]

theorem parseDBFile_abort (db : Tables) (st : State) (pre post : List (List Char))
    (l : List Char) (e : Abort) (hpre : parseLines { ctx := Ctx.init, db := db } pre = .ok st)
    (hl : processLine st l = .error e) : parseDBFile db (pre ++ l :: post) = .error e := by
  rw [parseDBFile, parseLines_abort _ st pre post l e hpre hl]

/-! ## Lemmas: the loop on given maps is the loop on empty maps, overlaid -/

theorem map_ok {α β : Type} (g : α → β) (a : α) :
    g <$> (Except.ok a : Except Abort α) = .ok (g a) := rfl

theorem map_error {α β : Type} (g : α → β) (e : Abort) :
    g <$> (Except.error e : Except Abort α) = .error e := rfl

theorem Tables.empty_overlay (db : Tables) : Tables.empty.overlay db = db := by
  simp [Tables.overlay, Tables.empty]

theorem Tables.overlay_assoc (a b c : Tables) :
    (a.overlay b).overlay c = a.overlay (b.overlay c) := by
  simp [Tables.overlay, Finmap.union_assoc]

theorem finmap_union_self {β : Type} (m : GoMap β) : m ∪ m = m := by
  apply Finmap.ext_lookup
  intro k
  by_cases h : k ∈ m
  · exact Finmap.lookup_union_left h
  · exact Finmap.lookup_union_right h

theorem Tables.overlay_self (a : Tables) : a.overlay a = a := by
  simp [Tables.overlay, finmap_union_self]

theorem processLine_overlay (ctx : Ctx) (db : Tables) (l : List Char) :
    processLine { ctx := ctx, db := db } l =
      (fun s : State => ({ ctx := s.ctx, db := s.db.overlay db } : State)) <$>
        processLine { ctx := ctx, db := Tables.empty } l := by
  by_cases h0 : l = [] ∨ l[0]? = some '#'
  · rw [processLine_skip _ l h0, processLine_skip _ l h0, map_ok, Tables.empty_overlay]
  by_cases hC : l[0]? = some 'C'
  · rw [processLine_class _ l hC, processLine_class _ l hC]
    simp only [map_bind, map_ok, Tables.overlay, Tables.empty, ← Finmap.insert_union,
      Finmap.empty_union]
  by_cases ht : l[0]? = some '\t'
  swap
  · rw [processLine_vendor _ l h0 hC ht, processLine_vendor _ l h0 hC ht]
    simp only [map_bind, map_ok, Tables.overlay, Tables.empty, ← Finmap.insert_union,
      Finmap.empty_union]
  by_cases h3 : l.length > 1 ∧ l[1]? ≠ some '\t'
  · cases hm : ctx.inClassBlock
    · rw [processLine_product _ l ht h3 hm, processLine_product _ l ht h3 hm]
      simp only [map_bind, map_ok, Tables.overlay, Tables.empty, ← Finmap.insert_union,
        Finmap.empty_union]
    · rw [processLine_subclass _ l ht h3 hm, processLine_subclass _ l ht h3 hm]
      simp only [map_bind, map_ok, Tables.overlay, Tables.empty, ← Finmap.insert_union,
        Finmap.empty_union]
  · cases hm : ctx.inClassBlock
    · rw [processLine_subsystem _ l ht h3 hm, processLine_subsystem _ l ht h3 hm]
      simp only [map_bind, map_ok, Tables.overlay, Tables.empty, ← Finmap.insert_union,
        Finmap.empty_union]
    · rw [processLine_progIface _ l ht h3 hm, processLine_progIface _ l ht h3 hm]
      simp only [map_bind, map_ok, Tables.overlay, Tables.empty, ← Finmap.insert_union,
        Finmap.empty_union]

theorem parseLines_overlay (ctx : Ctx) (db : Tables) (lines : List (List Char)) :
    parseLines { ctx := ctx, db := db } lines =
      (fun s : State => ({ ctx := s.ctx, db := s.db.overlay db } : State)) <$>
        parseLines { ctx := ctx, db := Tables.empty } lines := by
  suffices h : ∀ (d0 : Tables),
      parseLines { ctx := ctx, db := d0.overlay db } lines =
        (fun s : State => ({ ctx := s.ctx, db := s.db.overlay db } : State)) <$>
          parseLines { ctx := ctx, db := d0 } lines by
    have := h Tables.empty
    rwa [Tables.empty_overlay] at this
  induction lines generalizing ctx with
  | nil => intro d0; rfl
  | cons l rest ih =>
    intro d0
    rw [parseLines_cons, parseLines_cons, processLine_overlay ctx (d0.overlay db),
      processLine_overlay ctx d0]
    cases processLine { ctx := ctx, db := Tables.empty } l with
    | error e => rfl
    | ok s =>
      simp only [map_ok, ok_bind]
      rw [← Tables.overlay_assoc]
      exact ih s.ctx (s.db.overlay d0)

theorem parseDBFile_ok_iff (db M : Tables) (lines : List (List Char)) :
    parseDBFile db lines = .ok M ↔
      ∃ st, parseLines { ctx := Ctx.init, db := db } lines = .ok st ∧ st.db = M := by
  unfold parseDBFile
  cases parseLines { ctx := Ctx.init, db := db } lines with
  | error e => simp
  | ok st => simp

/-! ## Lemmas: what a successful iteration tells about the line -/

theorem all_hex_or_not (s : List Char) :
    s.all isHexDigit = true ∨ ∃ c ∈ s, isHexDigit c = false := by
  by_cases h : s.all isHexDigit = true
  · exact Or.inl h
  · right
    simpa using h

theorem slice_mustParse8_ok {β : Type} (l : List Char) (lo : Nat) (f : Nat → Except Abort β)
    (r : β) (h : (slice l lo (lo + 2) >>= fun x => mustParse8 x >>= f) = .ok r) :
    lo + 2 ≤ l.length ∧ (cols l lo (lo + 2)).all isHexDigit = true ∧
      hexNum (cols l lo (lo + 2)) < 2 ^ 8 ∧ f (hexNum (cols l lo (lo + 2))) = .ok r := by
  by_cases hl : lo + 2 ≤ l.length
  · rw [slice_eq_cols l lo (lo + 2) (by omega) hl, ok_bind] at h
    rcases all_hex_or_not (cols l lo (lo + 2)) with hh | hh
    · obtain ⟨hp, hlt⟩ := mustParse8_cols l lo hl hh
      rw [hp, ok_bind] at h
      exact ⟨hl, hh, hlt, h⟩
    · obtain ⟨k, hk⟩ := mustParse8_not_hex _ hh
      rw [hk, error_bind] at h
      cases h
  · rcases slice_cases l lo (lo + 2) with hs | hs
    · obtain ⟨k, hk⟩ := mustParse8_not_hex _
        (fieldText_short l lo (lo + 2) (by omega) (by omega))
      rw [hs, ok_bind, hk, error_bind] at h
      cases h
    · rw [hs, error_bind] at h
      cases h

theorem slice_mustParse16_ok {β : Type} (l : List Char) (lo : Nat) (f : Nat → Except Abort β)
    (r : β) (h : (slice l lo (lo + 4) >>= fun x => mustParse16 x >>= f) = .ok r) :
    lo + 4 ≤ l.length ∧ (cols l lo (lo + 4)).all isHexDigit = true ∧
      hexNum (cols l lo (lo + 4)) < 2 ^ 16 ∧ f (hexNum (cols l lo (lo + 4))) = .ok r := by
  by_cases hl : lo + 4 ≤ l.length
  · rw [slice_eq_cols l lo (lo + 4) (by omega) hl, ok_bind] at h
    rcases all_hex_or_not (cols l lo (lo + 4)) with hh | hh
    · obtain ⟨hp, hlt⟩ := mustParse16_cols l lo hl hh
      rw [hp, ok_bind] at h
      exact ⟨hl, hh, hlt, h⟩
    · obtain ⟨k, hk⟩ := mustParse16_not_hex _ hh
      rw [hk, error_bind] at h
      cases h
  · rcases slice_cases l lo (lo + 4) with hs | hs
    · obtain ⟨k, hk⟩ := mustParse16_not_hex _
        (fieldText_short l lo (lo + 4) (by omega) (by omega))
      rw [hs, ok_bind, hk, error_bind] at h
      cases h
    · rw [hs, error_bind] at h
      cases h

theorem sliceFrom_bind_ok {β : Type} (l : List Char) (lo : Nat)
    (f : List Char → Except Abort β) (r : β) (h : (sliceFrom l lo >>= f) = .ok r) :
    lo ≤ l.length ∧ f (l.drop lo) = .ok r := by
  by_cases hl : lo ≤ l.length
  · rw [sliceFrom_ok l lo hl, ok_bind] at h
    exact ⟨hl, h⟩
  · rw [sliceFrom_short l lo (by omega), error_bind] at h
    cases h

theorem processLine_class_ok (st st1 : State) (l : List Char) (h0 : l[0]? = some 'C')
    (h : processLine st l = .ok st1) :
    6 ≤ l.length ∧ (cols l 2 4).all isHexDigit = true ∧ hexNum (cols l 2 4) < 2 ^ 8 ∧
      st1 = { ctx := { st.ctx with inClassBlock := true, curClass := hexNum (cols l 2 4) },
              db := { st.db with
                Classes := st.db.Classes.insert (hexNum (cols l 2 4)) (String.mk (l.drop 6)) } } := by
  rw [processLine_class st l h0] at h
  obtain ⟨_, hh, hlt, h⟩ := slice_mustParse8_ok l 2 _ _ h
  obtain ⟨hl, h⟩ := sliceFrom_bind_ok l 6 _ _ h
  exact ⟨hl, hh, hlt, (Except.ok.inj h).symm⟩

theorem processLine_vendor_ok (st st1 : State) (l : List Char)
    (h0 : ¬ (l = [] ∨ l[0]? = some '#')) (h1 : l[0]? ≠ some 'C') (h2 : l[0]? ≠ some '\t')
    (h : processLine st l = .ok st1) :
    6 ≤ l.length ∧ (cols l 0 4).all isHexDigit = true ∧ hexNum (cols l 0 4) < 2 ^ 16 ∧
      st1 = { ctx := { st.ctx with inClassBlock := false, curVendor := hexNum (cols l 0 4) },
              db := { st.db with
                Vendors := st.db.Vendors.insert (hexNum (cols l 0 4)) (String.mk (l.drop 6)) } } := by
  rw [processLine_vendor st l h0 h1 h2] at h
  obtain ⟨_, hh, hlt, h⟩ := slice_mustParse16_ok l 0 _ _ h
  obtain ⟨hl, h⟩ := sliceFrom_bind_ok l 6 _ _ h
  exact ⟨hl, hh, hlt, (Except.ok.inj h).symm⟩

theorem processLine_subclass_ok (st st1 : State) (l : List Char) (h0 : l[0]? = some '\t')
    (h3 : l.length > 1 ∧ l[1]? ≠ some '\t') (hm : st.ctx.inClassBlock = true)
    (h : processLine st l = .ok st1) :
    5 ≤ l.length ∧ (cols l 1 3).all isHexDigit = true ∧ hexNum (cols l 1 3) < 2 ^ 8 ∧
      st1 = { ctx := { st.ctx with
                curClassSubclass := subclassKey st.ctx.curClass (hexNum (cols l 1 3)) },
              db := { st.db with
                Subclasses := st.db.Subclasses.insert
                  (subclassKey st.ctx.curClass (hexNum (cols l 1 3))) (String.mk (l.drop 5)) } } := by
  rw [processLine_subclass st l h0 h3 hm] at h
  obtain ⟨_, hh, hlt, h⟩ := slice_mustParse8_ok l 1 _ _ h
  obtain ⟨hl, h⟩ := sliceFrom_bind_ok l 5 _ _ h
  exact ⟨hl, hh, hlt, (Except.ok.inj h).symm⟩

theorem processLine_product_ok (st st1 : State) (l : List Char) (h0 : l[0]? = some '\t')
    (h3 : l.length > 1 ∧ l[1]? ≠ some '\t') (hm : st.ctx.inClassBlock = false)
    (h : processLine st l = .ok st1) :
    7 ≤ l.length ∧ (cols l 1 5).all isHexDigit = true ∧ hexNum (cols l 1 5) < 2 ^ 16 ∧
      st1 = { ctx := { st.ctx with
                curVendorProduct := productKey st.ctx.curVendor (hexNum (cols l 1 5)) },
              db := { st.db with
                Products := st.db.Products.insert
                  (productKey st.ctx.curVendor (hexNum (cols l 1 5))) (String.mk (l.drop 7)) } } := by
  rw [processLine_product st l h0 h3 hm] at h
  obtain ⟨_, hh, hlt, h⟩ := slice_mustParse16_ok l 1 _ _ h
  obtain ⟨hl, h⟩ := sliceFrom_bind_ok l 7 _ _ h
  exact ⟨hl, hh, hlt, (Except.ok.inj h).symm⟩

theorem processLine_progIface_ok (st st1 : State) (l : List Char) (h0 : l[0]? = some '\t')
    (h3 : ¬ (l.length > 1 ∧ l[1]? ≠ some '\t')) (hm : st.ctx.inClassBlock = true)
    (h : processLine st l = .ok st1) :
    6 ≤ l.length ∧ (cols l 2 4).all isHexDigit = true ∧ hexNum (cols l 2 4) < 2 ^ 8 ∧
      st1 = { st with
              db := { st.db with
                ProgrammingInterfaces := st.db.ProgrammingInterfaces.insert
                  (progIfaceKey st.ctx.curClassSubclass (hexNum (cols l 2 4)))
                  (String.mk (l.drop 6)) } } := by
  rw [processLine_progIface st l h0 h3 hm] at h
  obtain ⟨_, hh, hlt, h⟩ := slice_mustParse8_ok l 2 _ _ h
  obtain ⟨hl, h⟩ := sliceFrom_bind_ok l 6 _ _ h
  exact ⟨hl, hh, hlt, (Except.ok.inj h).symm⟩

theorem processLine_subsystem_ok (st st1 : State) (l : List Char) (h0 : l[0]? = some '\t')
    (h3 : ¬ (l.length > 1 ∧ l[1]? ≠ some '\t')) (hm : st.ctx.inClassBlock = false)
    (h : processLine st l = .ok st1) :
    13 ≤ l.length ∧ (cols l 2 6).all isHexDigit = true ∧ hexNum (cols l 2 6) < 2 ^ 16 ∧
      (cols l 7 11).all isHexDigit = true ∧ hexNum (cols l 7 11) < 2 ^ 16 ∧
      st1 = { st with
              db := { st.db with
                Subsystems := st.db.Subsystems.insert
                  (subsystemKey st.ctx.curVendorProduct (hexNum (cols l 7 11)))
                  { Vendor := hexNum (cols l 2 6), Name := String.mk (l.drop 13) } } } := by
  rw [processLine_subsystem st l h0 h3 hm] at h
  obtain ⟨_, hh, hlt, h⟩ := slice_mustParse16_ok l 2 _ _ h
  obtain ⟨_, hh2, hlt2, h⟩ := slice_mustParse16_ok l 7 _ _ h
  obtain ⟨hl, h⟩ := sliceFrom_bind_ok l 13 _ _ h
  exact ⟨hl, hh, hlt, hh2, hlt2, (Except.ok.inj h).symm⟩

/-! ## Lemmas: the mode flag and the first-level registers follow the last header -/

theorem isHeader_iff (l : List Char) :
    isHeader l = true ↔ ¬ (l = [] ∨ l[0]? = some '#') ∧ l[0]? ≠ some '\t' := by
  simp [isHeader, ← isBlankOrComment_iff]

theorem HeaderInv_congr (h : Option (List Char)) (c1 c2 : Ctx)
    (hm : c2.inClassBlock = c1.inClassBlock) (hc : c2.curClass = c1.curClass)
    (hv : c2.curVendor = c1.curVendor) (hi : HeaderInv h c1) : HeaderInv h c2 := by
  unfold HeaderInv at hi ⊢
  rw [hm, hc, hv]
  exact hi

theorem HeaderInv_step (cur : Option (List Char)) (st st1 : State) (l : List Char)
    (hi : HeaderInv cur st.ctx) (h : processLine st l = .ok st1) :
    HeaderInv (if isHeader l then some l else cur) st1.ctx := by
  by_cases h0 : l = [] ∨ l[0]? = some '#'
  · rw [processLine_skip st l h0] at h
    cases h
    rw [if_neg (by rw [isHeader_iff]; tauto)]
    exact hi
  by_cases hC : l[0]? = some 'C'
  · obtain ⟨hl, hh, _, rfl⟩ := processLine_class_ok st st1 l hC h
    rw [if_pos ((isHeader_iff l).mpr ⟨h0, by rw [hC]; decide⟩)]
    simp only [HeaderInv, hC, if_true]
    exact ⟨trivial, hl, hh, trivial⟩
  by_cases ht : l[0]? = some '\t'
  swap
  · obtain ⟨hl, hh, _, rfl⟩ := processLine_vendor_ok st st1 l h0 hC ht h
    rw [if_pos ((isHeader_iff l).mpr ⟨h0, ht⟩)]
    simp only [HeaderInv, hC, if_false]
    exact ⟨trivial, hl, hh, trivial⟩
  rw [if_neg (by rw [isHeader_iff]; tauto)]
  by_cases h3 : l.length > 1 ∧ l[1]? ≠ some '\t'
  · cases hm : st.ctx.inClassBlock
    · obtain ⟨_, _, _, rfl⟩ := processLine_product_ok st st1 l ht h3 hm h
      exact HeaderInv_congr cur st.ctx _ rfl rfl rfl hi
    · obtain ⟨_, _, _, rfl⟩ := processLine_subclass_ok st st1 l ht h3 hm h
      exact HeaderInv_congr cur st.ctx _ rfl rfl rfl hi
  · cases hm : st.ctx.inClassBlock
    · obtain ⟨_, _, _, _, _, rfl⟩ := processLine_subsystem_ok st st1 l ht h3 hm h
      exact hi
    · obtain ⟨_, _, _, rfl⟩ := processLine_progIface_ok st st1 l ht h3 hm h
      exact hi

theorem HeaderInv_run (cur : Option (List Char)) (st st1 : State) (lines : List (List Char))
    (hi : HeaderInv cur st.ctx) (h : parseLines st lines = .ok st1) :
    HeaderInv (lastHeaderFrom cur lines) st1.ctx := by
  induction lines generalizing cur st with
  | nil =>
    cases h
    exact hi
  | cons l rest ih =>
    rw [parseLines_cons] at h
    cases hp : processLine st l with
    | error e => rw [hp, error_bind] at h; cases h
    | ok st2 =>
      rw [hp, ok_bind] at h
      exact ih _ st2 (HeaderInv_step cur st st2 l hi hp) h

theorem HeaderInv_init : HeaderInv none Ctx.init := ⟨rfl, rfl, rfl⟩

theorem parseLines_append_ok (st0 st2 : State) (xs ys : List (List Char))
    (h : parseLines st0 (xs ++ ys) = .ok st2) :
    ∃ st1, parseLines st0 xs = .ok st1 ∧ parseLines st1 ys = .ok st2 := by
  rw [parseLines_append] at h
  cases hx : parseLines st0 xs with
  | error e => rw [hx, error_bind] at h; cases h
  | ok st1 => rw [hx, ok_bind] at h; exact ⟨st1, rfl, h⟩

theorem parseLines_cons_ok (st0 st2 : State) (l : List Char) (ys : List (List Char))
    (h : parseLines st0 (l :: ys) = .ok st2) :
    ∃ st1, processLine st0 l = .ok st1 ∧ parseLines st1 ys = .ok st2 := by
  rw [parseLines_cons] at h
  cases hx : processLine st0 l with
  | error e => rw [hx, error_bind] at h; cases h
  | ok st1 => rw [hx, ok_bind] at h; exact ⟨st1, rfl, h⟩

theorem parseLines_db_overlay (st st1 : State) (lines : List (List Char))
    (h : parseLines st lines = .ok st1) : ∃ w : Tables, st1.db = w.overlay st.db := by
  have hov := parseLines_overlay st.ctx st.db lines
  rw [show ({ ctx := st.ctx, db := st.db } : State) = st from rfl, h] at hov
  cases hw : parseLines { ctx := st.ctx, db := Tables.empty } lines with
  | error e => rw [hw, map_error] at hov; cases hov
  | ok s =>
    rw [hw, map_ok] at hov
    exact ⟨s.db, by rw [Except.ok.inj hov]⟩

/-! ## Lemmas: where a `NumError` comes from -/

theorem parseLines_error (st0 : State) (lines : List (List Char)) (e : Abort)
    (h : parseLines st0 lines = .error e) :
    ∃ pre l post st, lines = pre ++ l :: post ∧ parseLines st0 pre = .ok st ∧
      processLine st l = .error e := by
  induction lines generalizing st0 with
  | nil => cases h
  | cons l rest ih =>
    rw [parseLines_cons] at h
    cases hp : processLine st0 l with
    | error e1 =>
      rw [hp, error_bind] at h
      cases h
      exact ⟨[], l, rest, st0, rfl, rfl, hp⟩
    | ok st1 =>
      rw [hp, ok_bind] at h
      obtain ⟨pre, m, post, st, hsplit, hpre, hm⟩ := ih st1 h
      refine ⟨l :: pre, m, post, st, by rw [hsplit]; rfl, ?_, hm⟩
      rw [parseLines_cons, hp, ok_bind, hpre]

theorem slice_mustParse8_numError {β : Type} (l : List Char) (lo hi : Nat)
    (f : Nat → Except Abort β) (num : List Char) (k : NumErrKind)
    (h : (slice l lo hi >>= fun x => mustParse8 x >>= f) = .error (.numError num k)) :
    (num = fieldText l lo hi ∧ parseUint num 16 8 = .error k) ∨
      ∃ v, mustParse8 (fieldText l lo hi) = .ok v ∧ f v = .error (.numError num k) := by
  rcases slice_cases l lo hi with hs | hs
  · rw [hs, ok_bind] at h
    cases hm : mustParse8 (fieldText l lo hi) with
    | error e =>
      rw [hm, error_bind] at h
      have he : e = .numError num k := Except.error.inj h
      subst he
      unfold mustParse8 at hm
      cases hp : parseUint (fieldText l lo hi) 16 8 with
      | error k1 =>
        simp only [hp] at hm
        injection hm with hm
        injection hm with h1 h2
        subst h1 h2
        exact Or.inl ⟨rfl, hp⟩
      | ok v =>
        simp only [hp] at hm
        cases hm
    | ok v =>
      rw [hm, ok_bind] at h
      exact Or.inr ⟨v, rfl, h⟩
  · rw [hs, error_bind] at h
    cases h

theorem slice_mustParse16_numError {β : Type} (l : List Char) (lo hi : Nat)
    (f : Nat → Except Abort β) (num : List Char) (k : NumErrKind)
    (h : (slice l lo hi >>= fun x => mustParse16 x >>= f) = .error (.numError num k)) :
    (num = fieldText l lo hi ∧ parseUint num 16 16 = .error k) ∨
      ∃ v, mustParse16 (fieldText l lo hi) = .ok v ∧ f v = .error (.numError num k) := by
  rcases slice_cases l lo hi with hs | hs
  · rw [hs, ok_bind] at h
    cases hm : mustParse16 (fieldText l lo hi) with
    | error e =>
      rw [hm, error_bind] at h
      have he : e = .numError num k := Except.error.inj h
      subst he
      unfold mustParse16 at hm
      cases hp : parseUint (fieldText l lo hi) 16 16 with
      | error k1 =>
        simp only [hp] at hm
        injection hm with hm
        injection hm with h1 h2
        subst h1 h2
        exact Or.inl ⟨rfl, hp⟩
      | ok v =>
        simp only [hp] at hm
        cases hm
    | ok v =>
      rw [hm, ok_bind] at h
      exact Or.inr ⟨v, rfl, h⟩
  · rw [hs, error_bind] at h
    cases h

theorem sliceFrom_not_numError {β : Type} (l : List Char) (lo : Nat) (g : List Char → β)
    (num : List Char) (k : NumErrKind) :
    (sliceFrom l lo >>= fun x => (Except.ok (g x) : Except Abort β)) ≠
      .error (.numError num k) := by
  unfold sliceFrom
  split
  · intro h; cases h
  · intro h; cases h

theorem parseUintLoop_fixed_width (m : Nat) (hm : m < 2 ^ 64) (s : List Char) (n : Nat)
    (hw : (n + 1) * 16 ^ s.length ≤ m + 1) :
    parseUintLoop 16 m ((2 ^ 64 - 1) / 16 + 1) s n = .error .ErrSyntax ∨
      ∃ v, parseUintLoop 16 m ((2 ^ 64 - 1) / 16 + 1) s n = .ok v := by
  induction s generalizing n with
  | nil => exact Or.inr ⟨n, rfl⟩
  | cons c cs ih =>
    have hpos : 1 ≤ 16 ^ cs.length := Nat.one_le_two_pow.trans (Nat.pow_le_pow_left (by norm_num) _)
    rw [List.length_cons, Nat.pow_succ] at hw
    have h16 : (n + 1) * 16 ≤ m + 1 := by
      calc (n + 1) * 16 ≤ (n + 1) * 16 * 16 ^ cs.length := Nat.le_mul_of_pos_right _ hpos
        _ = (n + 1) * (16 ^ cs.length * 16) := by ring
        _ ≤ m + 1 := hw
    by_cases hc : isHexDigit c = true
    · have hlt := (digitVal_of_hex c hc).2
      rw [parseUintLoop_hex_step m c cs n hc (by omega) hm]
      apply ih
      calc (n * 16 + hexVal c + 1) * 16 ^ cs.length
          ≤ ((n + 1) * 16) * 16 ^ cs.length := Nat.mul_le_mul_right _ (by omega)
        _ = (n + 1) * (16 ^ cs.length * 16) := by ring
        _ ≤ m + 1 := hw
    · left
      rw [parseUintLoop]
      cases hd : digitVal c with
      | none => rfl
      | some d =>
        have := digitVal_of_not_hex c (by simpa using hc) d hd
        simp only
        rw [if_pos this]

theorem parseUint_fixed_width_error (s : List Char) (bitSize : Nat) (k : NumErrKind)
    (hb : bitSize ≤ 64) (hw : 16 ^ s.length ≤ 2 ^ bitSize)
    (h : parseUint s 16 bitSize = .error k) : k = .ErrSyntax := by
  unfold parseUint at h
  split at h
  · cases h; rfl
  · have hpos : 1 ≤ 2 ^ bitSize := Nat.one_le_two_pow
    have hle : 2 ^ bitSize ≤ 2 ^ 64 := Nat.pow_le_pow_right (by norm_num) hb
    rcases parseUintLoop_fixed_width (2 ^ bitSize - 1) (by omega) s 0 (by omega) with h1 | ⟨v, h1⟩
    · rw [h1] at h; cases h; rfl
    · rw [h1] at h; cases h

theorem field8_facts (l : List Char) (lo : Nat) (num : List Char) (k : NumErrKind)
    (hn : num = fieldText l lo (lo + 2)) (hp : parseUint num 16 8 = .error k) :
    k = .ErrSyntax ∧ ∃ c ∈ num, isHexDigit c = false := by
  have hlen : num.length = 2 := by rw [hn, fieldText_length]; omega
  refine ⟨parseUint_fixed_width_error num 8 k (by norm_num) (by rw [hlen]; norm_num) hp, ?_⟩
  rcases all_hex_or_not num with hall | hbad
  · exfalso
    obtain ⟨a, b, hab⟩ := List.length_eq_two.mp hlen
    rw [hab] at hall hp
    simp only [List.all_cons, List.all_nil, Bool.and_true, Bool.and_eq_true] at hall
    rw [parseUint_hex2 a b hall.1 hall.2] at hp
    cases hp
  · exact hbad

theorem field16_facts (l : List Char) (lo : Nat) (num : List Char) (k : NumErrKind)
    (hn : num = fieldText l lo (lo + 4)) (hp : parseUint num 16 16 = .error k) :
    k = .ErrSyntax ∧ ∃ c ∈ num, isHexDigit c = false := by
  have hlen : num.length = 4 := by rw [hn, fieldText_length]; omega
  refine ⟨parseUint_fixed_width_error num 16 k (by norm_num) (by rw [hlen]; norm_num) hp, ?_⟩
  rcases all_hex_or_not num with hall | hbad
  · exfalso
    obtain ⟨a, b, c, d, hab⟩ := length_eq_four num hlen
    rw [hab] at hall hp
    simp only [List.all_cons, List.all_nil, Bool.and_true, Bool.and_eq_true] at hall
    rw [parseUint_hex4 a b c d hall.1 hall.2.1 hall.2.2.1 hall.2.2.2] at hp
    cases hp
  · exact hbad

theorem mustParse16_ok_all_hex (s : List Char) (v : Nat) (h : mustParse16 s = .ok v) :
    s.all isHexDigit = true := by
  rcases all_hex_or_not s with hall | hbad
  · exact hall
  · obtain ⟨k, hk⟩ := mustParse16_not_hex s hbad
    rw [hk] at h
    cases h

theorem processLine_numError (st : State) (l : List Char) (num : List Char) (k : NumErrKind)
    (h : processLine st l = .error (.numError num k)) :
    (k = .ErrSyntax ∧ ∃ c ∈ num, isHexDigit c = false) ∧
    ((l[0]? = some 'C' ∧ num = fieldText l 2 4) ∨
      (isHeader l = true ∧ l[0]? ≠ some 'C' ∧ num = fieldText l 0 4) ∨
      (l[0]? = some '\t' ∧ (l.length > 1 ∧ l[1]? ≠ some '\t') ∧
        st.ctx.inClassBlock = true ∧ num = fieldText l 1 3) ∨
      (l[0]? = some '\t' ∧ (l.length > 1 ∧ l[1]? ≠ some '\t') ∧
        st.ctx.inClassBlock = false ∧ num = fieldText l 1 5) ∨
      (l[0]? = some '\t' ∧ ¬ (l.length > 1 ∧ l[1]? ≠ some '\t') ∧
        st.ctx.inClassBlock = true ∧ num = fieldText l 2 4) ∨
      (l[0]? = some '\t' ∧ ¬ (l.length > 1 ∧ l[1]? ≠ some '\t') ∧
        st.ctx.inClassBlock = false ∧
        (num = fieldText l 2 6 ∨
          ((fieldText l 2 6).all isHexDigit = true ∧ num = fieldText l 7 11)))) := by
  by_cases h0 : l = [] ∨ l[0]? = some '#'
  · rw [processLine_skip st l h0] at h
    cases h
  by_cases hC : l[0]? = some 'C'
  · rw [processLine_class st l hC] at h
    rcases slice_mustParse8_numError l 2 4 _ num k h with ⟨hn, hp⟩ | ⟨v, _, hv⟩
    · exact ⟨field8_facts l 2 num k hn hp, Or.inl ⟨hC, hn⟩⟩
    · exact absurd hv (sliceFrom_not_numError l 6 _ num k)
  by_cases ht : l[0]? = some '\t'
  swap
  · rw [processLine_vendor st l h0 hC ht] at h
    rcases slice_mustParse16_numError l 0 4 _ num k h with ⟨hn, hp⟩ | ⟨v, _, hv⟩
    · exact ⟨field16_facts l 0 num k hn hp,
        Or.inr (Or.inl ⟨(isHeader_iff l).mpr ⟨h0, ht⟩, hC, hn⟩)⟩
    · exact absurd hv (sliceFrom_not_numError l 6 _ num k)
  by_cases h3 : l.length > 1 ∧ l[1]? ≠ some '\t'
  · by_cases hm : st.ctx.inClassBlock = true
    · rw [processLine_subclass st l ht h3 hm] at h
      rcases slice_mustParse8_numError l 1 3 _ num k h with ⟨hn, hp⟩ | ⟨v, _, hv⟩
      · exact ⟨field8_facts l 1 num k hn hp, Or.inr (Or.inr (Or.inl ⟨ht, h3, hm, hn⟩))⟩
      · exact absurd hv (sliceFrom_not_numError l 5 _ num k)
    · have hm' : st.ctx.inClassBlock = false := by simpa using hm
      rw [processLine_product st l ht h3 hm'] at h
      rcases slice_mustParse16_numError l 1 5 _ num k h with ⟨hn, hp⟩ | ⟨v, _, hv⟩
      · exact ⟨field16_facts l 1 num k hn hp,
          Or.inr (Or.inr (Or.inr (Or.inl ⟨ht, h3, hm', hn⟩)))⟩
      · exact absurd hv (sliceFrom_not_numError l 7 _ num k)
  · by_cases hm : st.ctx.inClassBlock = true
    · rw [processLine_progIface st l ht h3 hm] at h
      rcases slice_mustParse8_numError l 2 4 _ num k h with ⟨hn, hp⟩ | ⟨v, _, hv⟩
      · exact ⟨field8_facts l 2 num k hn hp,
          Or.inr (Or.inr (Or.inr (Or.inr (Or.inl ⟨ht, h3, hm, hn⟩))))⟩
      · exact absurd hv (sliceFrom_not_numError l 6 _ num k)
    · have hm' : st.ctx.inClassBlock = false := by simpa using hm
      rw [processLine_subsystem st l ht h3 hm'] at h
      rcases slice_mustParse16_numError l 2 6 _ num k h with ⟨hn, hp⟩ | ⟨v, hv1, hv⟩
      · exact ⟨field16_facts l 2 num k hn hp,
          Or.inr (Or.inr (Or.inr (Or.inr (Or.inr ⟨ht, h3, hm', Or.inl hn⟩))))⟩
      · rcases slice_mustParse16_numError l 7 11 _ num k hv with ⟨hn, hp⟩ | ⟨w, _, hw⟩
        · exact ⟨field16_facts l 7 num k hn hp,
            Or.inr (Or.inr (Or.inr (Or.inr (Or.inr
              ⟨ht, h3, hm', Or.inr ⟨mustParse16_ok_all_hex _ v hv1, hn⟩⟩))))⟩
        · exact absurd hw (sliceFrom_not_numError l 13 _ num k)

/-! ## Lemmas: the stored value is the last one written -/

theorem lookup_union_map {β γ : Type} (f : β → γ) (a b : GoMap β) (k : Nat) :
    ((a ∪ b).lookup k).map f = ((a.lookup k).map f).or ((b.lookup k).map f) := by
  by_cases h : k ∈ a
  · rw [Finmap.lookup_union_left h]
    obtain ⟨v, hv⟩ := Finmap.mem_iff.mp h
    rw [hv]
    rfl
  · rw [Finmap.lookup_union_right h, Finmap.lookup_eq_none.mpr h]
    rfl

theorem Tables.entry_overlay (a b : Tables) (t : TableId) (k : Nat) :
    (a.overlay b).entry t k = (a.entry t k).or (b.entry t k) := by
  cases t
  · exact lookup_union_map Payload.name a.Classes b.Classes k
  · exact lookup_union_map Payload.name a.Vendors b.Vendors k
  · exact lookup_union_map Payload.name a.Subclasses b.Subclasses k
  · exact lookup_union_map Payload.name a.Products b.Products k
  · exact lookup_union_map Payload.name a.ProgrammingInterfaces b.ProgrammingInterfaces k
  · exact lookup_union_map Payload.subsystem a.Subsystems b.Subsystems k

theorem Tables.entry_empty (t : TableId) (k : Nat) : Tables.empty.entry t k = none := by
  cases t <;> rfl

theorem writeAt_nil (ctx : Ctx) (i : Nat) (t : TableId) (k : Nat) :
    writeAt ctx [] i t k = none := rfl

theorem writeAt_cons_zero (ctx : Ctx) (l : List Char) (rest : List (List Char)) (s : State)
    (t : TableId) (k : Nat) (h : processLine { ctx := ctx, db := Tables.empty } l = .ok s) :
    writeAt ctx (l :: rest) 0 t k = s.db.entry t k := by
  simp only [writeAt, lineWrites, h]
  rfl

theorem writeAt_cons_succ (ctx : Ctx) (l : List Char) (rest : List (List Char)) (s : State)
    (j : Nat) (t : TableId) (k : Nat)
    (h : processLine { ctx := ctx, db := Tables.empty } l = .ok s) :
    writeAt ctx (l :: rest) (j + 1) t k = writeAt s.ctx rest j t k := by
  simp only [writeAt, lineWrites, h]

theorem processLine_ok_overlay (ctx : Ctx) (db : Tables) (l : List Char) (st1 : State)
    (h : processLine { ctx := ctx, db := db } l = .ok st1) :
    ∃ s, processLine { ctx := ctx, db := Tables.empty } l = .ok s ∧
      st1 = { ctx := s.ctx, db := s.db.overlay db } := by
  rw [processLine_overlay] at h
  cases hs : processLine { ctx := ctx, db := Tables.empty } l with
  | error e => rw [hs, map_error] at h; cases h
  | ok s =>
    rw [hs, map_ok] at h
    exact ⟨s, rfl, (Except.ok.inj h).symm⟩

theorem last_write_general (ctx : Ctx) (db0 : Tables) (lines : List (List Char)) (stf : State)
    (t : TableId) (k : Nat) (v : Payload)
    (h : parseLines { ctx := ctx, db := db0 } lines = .ok stf) :
    stf.db.entry t k = some v ↔
      (∃ i, writeAt ctx lines i t k = some v ∧ ∀ j, i < j → writeAt ctx lines j t k = none) ∨
      ((∀ j, writeAt ctx lines j t k = none) ∧ db0.entry t k = some v) := by
  induction lines generalizing ctx db0 with
  | nil =>
    cases h
    simp [writeAt_nil]
  | cons l rest ih =>
    obtain ⟨st1, hl, hrest⟩ := parseLines_cons_ok _ _ _ _ h
    obtain ⟨s, hs, rfl⟩ := processLine_ok_overlay ctx db0 l st1 hl
    rw [ih s.ctx (s.db.overlay db0) hrest, Tables.entry_overlay]
    have w0 := writeAt_cons_zero ctx l rest s t k hs
    have wS := fun j => writeAt_cons_succ ctx l rest s j t k hs
    constructor
    · rintro (⟨i, hi, hlater⟩ | ⟨hnone, hdb⟩)
      · refine Or.inl ⟨i + 1, by rw [wS]; exact hi, ?_⟩
        intro j hj
        obtain ⟨j', rfl⟩ : ∃ j', j = j' + 1 := ⟨j - 1, by omega⟩
        rw [wS]
        exact hlater j' (by omega)
      · cases he : s.db.entry t k with
        | none =>
          rw [he, Option.none_or] at hdb
          refine Or.inr ⟨?_, hdb⟩
          intro j
          cases j with
          | zero => rw [w0, he]
          | succ j' => rw [wS]; exact hnone j'
        | some v' =>
          rw [he, Option.or_some] at hdb
          refine Or.inl ⟨0, by rw [w0, he]; exact hdb, ?_⟩
          intro j hj
          obtain ⟨j', rfl⟩ : ∃ j', j = j' + 1 := ⟨j - 1, by omega⟩
          rw [wS]
          exact hnone j'
    · rintro (⟨i, hi, hlater⟩ | ⟨hnone, hdb⟩)
      · cases i with
        | zero =>
          rw [w0] at hi
          refine Or.inr ⟨?_, by rw [hi, Option.or_some]⟩
          intro j
          have := hlater (j + 1) (by omega)
          rwa [wS] at this
        | succ i' =>
          rw [wS] at hi
          refine Or.inl ⟨i', hi, ?_⟩
          intro j hj
          have := hlater (j + 1) (by omega)
          rwa [wS] at this
      · have h0 := hnone 0
        rw [w0] at h0
        refine Or.inr ⟨?_, by rw [h0, Option.none_or]; exact hdb⟩
        intro j
        have := hnone (j + 1)
        rwa [wS] at this

theorem Classes_lookup_step (st st1 : State) (m : List Char) (k : Nat)
    (h : processLine st m = .ok st1) (hne : m[0]? = some 'C' → hexNum (cols m 2 4) ≠ k) :
    st1.db.Classes.lookup k = st.db.Classes.lookup k := by
  by_cases h0 : m = [] ∨ m[0]? = some '#'
  · rw [processLine_skip st m h0] at h
    cases h
    rfl
  by_cases hC : m[0]? = some 'C'
  · obtain ⟨_, _, _, rfl⟩ := processLine_class_ok st st1 m hC h
    exact Finmap.lookup_insert_of_ne _ (fun heq => hne hC heq.symm)
  by_cases ht : m[0]? = some '\t'
  swap
  · obtain ⟨_, _, _, rfl⟩ := processLine_vendor_ok st st1 m h0 hC ht h
    rfl
  by_cases h3 : m.length > 1 ∧ m[1]? ≠ some '\t'
  · cases hm : st.ctx.inClassBlock
    · obtain ⟨_, _, _, rfl⟩ := processLine_product_ok st st1 m ht h3 hm h
      rfl
    · obtain ⟨_, _, _, rfl⟩ := processLine_subclass_ok st st1 m ht h3 hm h
      rfl
  · cases hm : st.ctx.inClassBlock
    · obtain ⟨_, _, _, _, _, rfl⟩ := processLine_subsystem_ok st st1 m ht h3 hm h
      rfl
    · obtain ⟨_, _, _, rfl⟩ := processLine_progIface_ok st st1 m ht h3 hm h
      rfl

theorem Vendors_lookup_step (st st1 : State) (m : List Char) (k : Nat)
    (h : processLine st m = .ok st1)
    (hne : isHeader m = true → m[0]? ≠ some 'C' → hexNum (cols m 0 4) ≠ k) :
    st1.db.Vendors.lookup k = st.db.Vendors.lookup k := by
  by_cases h0 : m = [] ∨ m[0]? = some '#'
  · rw [processLine_skip st m h0] at h
    cases h
    rfl
  by_cases hC : m[0]? = some 'C'
  · obtain ⟨_, _, _, rfl⟩ := processLine_class_ok st st1 m hC h
    rfl
  by_cases ht : m[0]? = some '\t'
  swap
  · obtain ⟨_, _, _, rfl⟩ := processLine_vendor_ok st st1 m h0 hC ht h
    exact Finmap.lookup_insert_of_ne _
      (fun heq => hne ((isHeader_iff m).mpr ⟨h0, ht⟩) hC heq.symm)
  by_cases h3 : m.length > 1 ∧ m[1]? ≠ some '\t'
  · cases hm : st.ctx.inClassBlock
    · obtain ⟨_, _, _, rfl⟩ := processLine_product_ok st st1 m ht h3 hm h
      rfl
    · obtain ⟨_, _, _, rfl⟩ := processLine_subclass_ok st st1 m ht h3 hm h
      rfl
  · cases hm : st.ctx.inClassBlock
    · obtain ⟨_, _, _, _, _, rfl⟩ := processLine_subsystem_ok st st1 m ht h3 hm h
      rfl
    · obtain ⟨_, _, _, rfl⟩ := processLine_progIface_ok st st1 m ht h3 hm h
      rfl

theorem Classes_lookup_run (st st1 : State) (post : List (List Char)) (k : Nat)
    (h : parseLines st post = .ok st1)
    (hne : ∀ m ∈ post, m[0]? = some 'C' → hexNum (cols m 2 4) ≠ k) :
    st1.db.Classes.lookup k = st.db.Classes.lookup k := by
  induction post generalizing st with
  | nil => cases h; rfl
  | cons m rest ih =>
    obtain ⟨st2, hm, hrest⟩ := parseLines_cons_ok _ _ _ _ h
    rw [ih st2 hrest (fun x hx => hne x (List.mem_cons_of_mem m hx)),
      Classes_lookup_step st st2 m k hm (hne m (List.mem_cons_self m rest))]

theorem Vendors_lookup_run (st st1 : State) (post : List (List Char)) (k : Nat)
    (h : parseLines st post = .ok st1)
    (hne : ∀ m ∈ post, isHeader m = true → m[0]? ≠ some 'C' → hexNum (cols m 0 4) ≠ k) :
    st1.db.Vendors.lookup k = st.db.Vendors.lookup k := by
  induction post generalizing st with
  | nil => cases h; rfl
  | cons m rest ih =>
    obtain ⟨st2, hm, hrest⟩ := parseLines_cons_ok _ _ _ _ h
    rw [ih st2 hrest (fun x hx => hne x (List.mem_cons_of_mem m hx)),
      Vendors_lookup_step st st2 m k hm (hne m (List.mem_cons_self m rest))]

/-! ## Lemmas: the emitted cases -/

theorem emitCases_ok {β : Type} (zero : β) (m : GoMap β) (ranged : List Nat)
    (h : IsRange m ranged) : CasesOk m (emitCases zero m ranged) := by
  obtain ⟨hnd, hkeys⟩ := h
  have hperm : (sortSlice ranged).Perm ranged := List.perm_insertionSort _ _
  have hmem : ∀ k, k ∈ sortSlice ranged ↔ k ∈ m := by
    intro k
    rw [hperm.mem_iff, ← Finmap.mem_keys, ← hkeys, List.mem_toFinset]
  refine ⟨?_, ?_, ?_⟩
  · have hfst : (emitCases zero m ranged).map Prod.fst = sortSlice ranged := by
      simp [emitCases, List.map_map, Function.comp_def]
    rw [hfst]
    exact (List.sorted_insertionSort (· ≤ ·) ranged).lt_of_le (hperm.nodup_iff.mpr hnd)
  · intro k v
    simp only [emitCases, List.mem_map, Prod.mk.injEq]
    constructor
    · rintro ⟨id, hid, rfl, rfl⟩
      obtain ⟨b, hb⟩ := Finmap.mem_iff.mp ((hmem id).mp hid)
      rw [hb]
      rfl
    · intro hv
      exact ⟨k, (hmem k).mpr (Finmap.mem_of_lookup_eq_some hv), rfl, by rw [hv]; rfl⟩
  · rw [emitCases, List.length_map, hperm.length_eq, ← hkeys, List.toFinset_card_of_nodup hnd]

/-! ## Lemmas: the last header line, spelled out -/

theorem lastHeaderFrom_eq_some_iff (cur : Option (List Char)) (lines : List (List Char))
    (h : List Char) :
    lastHeaderFrom cur lines = some h ↔
      (∃ pre post, lines = pre ++ h :: post ∧ isHeader h = true ∧
        ∀ m ∈ post, isHeader m = false) ∨
      (cur = some h ∧ ∀ m ∈ lines, isHeader m = false) := by
  induction lines generalizing cur with
  | nil => simp [lastHeaderFrom]
  | cons l rest ih =>
    rw [lastHeaderFrom, ih]
    by_cases hl : isHeader l = true
    · rw [if_pos hl]
      constructor
      · rintro (⟨pre, post, hsplit, hh, hpost⟩ | ⟨heq, hrest⟩)
        · exact Or.inl ⟨l :: pre, post, by rw [hsplit]; rfl, hh, hpost⟩
        · cases heq
          exact Or.inl ⟨[], rest, rfl, hl, hrest⟩
      · rintro (⟨pre, post, hsplit, hh, hpost⟩ | ⟨_, hall⟩)
        · cases pre with
          | nil =>
            simp only [List.nil_append, List.cons.injEq] at hsplit
            obtain ⟨rfl, rfl⟩ := hsplit
            exact Or.inr ⟨rfl, hpost⟩
          | cons p pre' =>
            simp only [List.cons_append, List.cons.injEq] at hsplit
            obtain ⟨rfl, rfl⟩ := hsplit
            exact Or.inl ⟨pre', post, rfl, hh, hpost⟩
        · have := hall l (List.mem_cons_self l rest)
          rw [hl] at this
          cases this
    · rw [if_neg hl]
      have hl' : isHeader l = false := by simpa using hl
      constructor
      · rintro (⟨pre, post, hsplit, hh, hpost⟩ | ⟨heq, hrest⟩)
        · exact Or.inl ⟨l :: pre, post, by rw [hsplit]; rfl, hh, hpost⟩
        · refine Or.inr ⟨heq, ?_⟩
          intro m hm
          rcases List.mem_cons.mp hm with rfl | hm
          · exact hl'
          · exact hrest m hm
      · rintro (⟨pre, post, hsplit, hh, hpost⟩ | ⟨heq, hall⟩)
        · cases pre with
          | nil =>
            simp only [List.nil_append, List.cons.injEq] at hsplit
            obtain ⟨rfl, rfl⟩ := hsplit
            rw [hh] at hl'
            cases hl'
          | cons p pre' =>
            simp only [List.cons_append, List.cons.injEq] at hsplit
            obtain ⟨rfl, rfl⟩ := hsplit
            exact Or.inl ⟨pre', post, rfl, hh, hpost⟩
        · exact Or.inr ⟨heq, fun m hm => hall m (List.mem_cons_of_mem l hm)⟩

theorem lastHeaderFrom_eq_none_iff (cur : Option (List Char)) (lines : List (List Char)) :
    lastHeaderFrom cur lines = none ↔ cur = none ∧ ∀ m ∈ lines, isHeader m = false := by
  induction lines generalizing cur with
  | nil => simp [lastHeaderFrom]
  | cons l rest ih =>
    rw [lastHeaderFrom, ih]
    by_cases hl : isHeader l = true
    · simp [hl]
    · simp [hl]

theorem lastHeader_eq_some_iff (lines : List (List Char)) (h : List Char) :
    lastHeader lines = some h ↔
      ∃ pre post, lines = pre ++ h :: post ∧ isHeader h = true ∧
        ∀ m ∈ post, isHeader m = false := by
  rw [lastHeader, lastHeaderFrom_eq_some_iff]
  simp

theorem single_indent_cond (l : List Char) (hl1 : ∃ c, l[1]? = some c ∧ c ≠ '\t') :
    l.length > 1 ∧ l[1]? ≠ some '\t' := by
  obtain ⟨c, hc, hne⟩ := hl1
  refine ⟨?_, ?_⟩
  · by_contra hcon
    rw [List.getElem?_eq_none (by omega)] at hc
    cases hc
  · rw [hc]
    intro heq
    exact hne (Option.some.inj heq)

/-! ## Lemmas: one insertion, and nothing removed -/

theorem lookup_insert_other {β : Type} (m : GoMap β) (k k2 : Nat) (v : β) (h : k2 ≠ k) :
    (m.insert k v).lookup k2 = m.lookup k2 := Finmap.lookup_insert_of_ne m h

theorem entry_insert_Classes (db : Tables) (k : Nat) (v : String) :
    ({ db with Classes := db.Classes.insert k v } : Tables).entry .classes k = some (.name v) ∧
      ∀ t2 k2, (t2 ≠ .classes ∨ k2 ≠ k) →
        ({ db with Classes := db.Classes.insert k v } : Tables).entry t2 k2 = db.entry t2 k2 := by
  refine ⟨by simp [Tables.entry], ?_⟩
  intro t2 k2 h
  cases t2 <;> simp only [Tables.entry]
  rw [lookup_insert_other _ _ _ _ (by tauto)]

theorem entry_insert_Vendors (db : Tables) (k : Nat) (v : String) :
    ({ db with Vendors := db.Vendors.insert k v } : Tables).entry .vendors k = some (.name v) ∧
      ∀ t2 k2, (t2 ≠ .vendors ∨ k2 ≠ k) →
        ({ db with Vendors := db.Vendors.insert k v } : Tables).entry t2 k2 = db.entry t2 k2 := by
  refine ⟨by simp [Tables.entry], ?_⟩
  intro t2 k2 h
  cases t2 <;> simp only [Tables.entry]
  rw [lookup_insert_other _ _ _ _ (by tauto)]

theorem entry_insert_Subclasses (db : Tables) (k : Nat) (v : String) :
    ({ db with Subclasses := db.Subclasses.insert k v } : Tables).entry .subclasses k =
        some (.name v) ∧
      ∀ t2 k2, (t2 ≠ .subclasses ∨ k2 ≠ k) →
        ({ db with Subclasses := db.Subclasses.insert k v } : Tables).entry t2 k2 =
          db.entry t2 k2 := by
  refine ⟨by simp [Tables.entry], ?_⟩
  intro t2 k2 h
  cases t2 <;> simp only [Tables.entry]
  rw [lookup_insert_other _ _ _ _ (by tauto)]

theorem entry_insert_Products (db : Tables) (k : Nat) (v : String) :
    ({ db with Products := db.Products.insert k v } : Tables).entry .products k =
        some (.name v) ∧
      ∀ t2 k2, (t2 ≠ .products ∨ k2 ≠ k) →
        ({ db with Products := db.Products.insert k v } : Tables).entry t2 k2 =
          db.entry t2 k2 := by
  refine ⟨by simp [Tables.entry], ?_⟩
  intro t2 k2 h
  cases t2 <;> simp only [Tables.entry]
  rw [lookup_insert_other _ _ _ _ (by tauto)]

theorem entry_insert_ProgrammingInterfaces (db : Tables) (k : Nat) (v : String) :
    ({ db with ProgrammingInterfaces := db.ProgrammingInterfaces.insert k v } : Tables).entry
        .progIfaces k = some (.name v) ∧
      ∀ t2 k2, (t2 ≠ .progIfaces ∨ k2 ≠ k) →
        ({ db with ProgrammingInterfaces := db.ProgrammingInterfaces.insert k v } :
          Tables).entry t2 k2 = db.entry t2 k2 := by
  refine ⟨by simp [Tables.entry], ?_⟩
  intro t2 k2 h
  cases t2 <;> simp only [Tables.entry]
  rw [lookup_insert_other _ _ _ _ (by tauto)]

theorem entry_insert_Subsystems (db : Tables) (k : Nat) (v : Subsystem) :
    ({ db with Subsystems := db.Subsystems.insert k v } : Tables).entry .subsystems k =
        some (.subsystem v) ∧
      ∀ t2 k2, (t2 ≠ .subsystems ∨ k2 ≠ k) →
        ({ db with Subsystems := db.Subsystems.insert k v } : Tables).entry t2 k2 =
          db.entry t2 k2 := by
  refine ⟨by simp [Tables.entry], ?_⟩
  intro t2 k2 h
  cases t2 <;> simp only [Tables.entry]
  rw [lookup_insert_other _ _ _ _ (by tauto)]

theorem Tables.keys_overlay (w db : Tables) (t : TableId) :
    db.keys t ⊆ (w.overlay db).keys t := by
  cases t <;> simp only [Tables.keys, Tables.overlay, Finmap.keys_union] <;>
    exact Finset.subset_union_right

theorem Tables.mem_keys_iff (db : Tables) (t : TableId) (k : Nat) :
    k ∈ db.keys t ↔ ∃ v, db.entry t k = some v := by
  cases t <;> simp only [Tables.keys, Tables.entry, Finmap.mem_keys, Finmap.mem_iff,
    Option.map_eq_some'] <;> constructor
  all_goals first
    | (rintro ⟨b, hb⟩; exact ⟨_, b, hb, rfl⟩)
    | (rintro ⟨_, b, hb, _⟩; exact ⟨b, hb⟩)

/-! ## Lemmas: the start of a run -/

theorem parseLines_blank (st : State) (pre : List (List Char))
    (hpre : ∀ m ∈ pre, isBlankOrComment m = true) : parseLines st pre = .ok st := by
  induction pre with
  | nil => rfl
  | cons m rest ih =>
    rw [parseLines_cons,
      processLine_skip st m ((isBlankOrComment_iff m).mp (hpre m (List.mem_cons_self m rest))),
      ok_bind]
    exact ih (fun x hx => hpre x (List.mem_cons_of_mem m hx))

theorem cols_head (l : List Char) (lo hi : Nat) (h : lo < hi) :
    (cols l lo hi)[0]? = l[lo]? := by
  simp [cols, List.getElem?_drop, List.getElem?_take, h]

theorem not_tab_of_hex_field (l : List Char) (lo hi : Nat) (h : lo < hi) (hl : hi ≤ l.length)
    (hhex : (cols l lo hi).all isHexDigit = true) : ∃ c, l[lo]? = some c ∧ c ≠ '\t' := by
  have hlt : lo < l.length := by omega
  refine ⟨l[lo], List.getElem?_eq_getElem hlt, ?_⟩
  intro hc
  have hmem : l[lo] ∈ cols l lo hi := by
    apply List.mem_iff_getElem?.mpr
    exact ⟨0, by rw [cols_head l lo hi h, List.getElem?_eq_getElem hlt]⟩
  have := List.all_eq_true.mp hhex _ hmem
  rw [hc] at this
  exact absurd this (by decide)

theorem productKey_zero (p : Nat) : productKey 0 p = p := by
  simp [productKey]

/-! ## Lemmas: the parents of first-level children -/

theorem subclassKey_shift (c s : Nat) (hc : c < 2 ^ 8) (hs : s < 2 ^ 8) :
    subclassKey c s >>> 8 = c := by
  rw [subclassKey_eq c s hc hs, Nat.shiftRight_eq_div_pow]
  omega

theorem productKey_shift (v p : Nat) (hv : v < 2 ^ 16) (hp : p < 2 ^ 16) :
    productKey v p >>> 16 = v := by
  rw [productKey_eq v p hv hp, Nat.shiftRight_eq_div_pow]
  omega

theorem ClassParentInv_step (st st1 : State) (l : List Char) (hi : ClassParentInv st)
    (hp : processLine st l = .ok st1) : ClassParentInv st1 := by
  obtain ⟨hcur, hsub⟩ := hi
  by_cases h0 : l = [] ∨ l[0]? = some '#'
  · rw [processLine_skip st l h0] at hp
    cases hp
    exact ⟨hcur, hsub⟩
  by_cases hC : l[0]? = some 'C'
  · obtain ⟨_, _, hlt, rfl⟩ := processLine_class_ok st st1 l hC hp
    exact ⟨fun _ => ⟨Finmap.mem_insert.mpr (Or.inl rfl), hlt⟩,
      fun k hk => Finmap.mem_insert.mpr (Or.inr (hsub k hk))⟩
  by_cases ht : l[0]? = some '\t'
  swap
  · obtain ⟨_, _, _, rfl⟩ := processLine_vendor_ok st st1 l h0 hC ht hp
    exact ⟨fun hc => (Bool.false_ne_true hc).elim, hsub⟩
  by_cases h3 : l.length > 1 ∧ l[1]? ≠ some '\t'
  · by_cases hm : st.ctx.inClassBlock = true
    · obtain ⟨_, _, hslt, rfl⟩ := processLine_subclass_ok st st1 l ht h3 hm hp
      refine ⟨fun _ => hcur hm, ?_⟩
      intro k hk
      rcases Finmap.mem_insert.mp hk with rfl | hk
      · show subclassKey _ _ >>> 8 ∈ st.db.Classes
        rw [subclassKey_shift _ _ (hcur hm).2 hslt]
        exact (hcur hm).1
      · exact hsub k hk
    · have hm' : st.ctx.inClassBlock = false := by simpa using hm
      obtain ⟨_, _, _, rfl⟩ := processLine_product_ok st st1 l ht h3 hm' hp
      exact ⟨hcur, hsub⟩
  · by_cases hm : st.ctx.inClassBlock = true
    · obtain ⟨_, _, _, rfl⟩ := processLine_progIface_ok st st1 l ht h3 hm hp
      exact ⟨hcur, hsub⟩
    · have hm' : st.ctx.inClassBlock = false := by simpa using hm
      obtain ⟨_, _, _, _, _, rfl⟩ := processLine_subsystem_ok st st1 l ht h3 hm' hp
      exact ⟨hcur, hsub⟩

theorem VendorParentInv_step (st st1 : State) (l : List Char) (hi : VendorParentInv st)
    (hp : processLine st l = .ok st1) : VendorParentInv st1 := by
  obtain ⟨hcur, hprod⟩ := hi
  by_cases h0 : l = [] ∨ l[0]? = some '#'
  · rw [processLine_skip st l h0] at hp
    cases hp
    exact ⟨hcur, hprod⟩
  by_cases hC : l[0]? = some 'C'
  · obtain ⟨_, _, _, rfl⟩ := processLine_class_ok st st1 l hC hp
    exact ⟨fun hc => (Bool.false_ne_true hc.symm).elim, hprod⟩
  by_cases ht : l[0]? = some '\t'
  swap
  · obtain ⟨_, _, hlt, rfl⟩ := processLine_vendor_ok st st1 l h0 hC ht hp
    exact ⟨fun _ => ⟨Finmap.mem_insert.mpr (Or.inl rfl), hlt⟩,
      fun k hk => Finmap.mem_insert.mpr (Or.inr (hprod k hk))⟩
  by_cases h3 : l.length > 1 ∧ l[1]? ≠ some '\t'
  · by_cases hm : st.ctx.inClassBlock = true
    · obtain ⟨_, _, _, rfl⟩ := processLine_subclass_ok st st1 l ht h3 hm hp
      exact ⟨hcur, hprod⟩
    · have hm' : st.ctx.inClassBlock = false := by simpa using hm
      obtain ⟨_, _, hplt, rfl⟩ := processLine_product_ok st st1 l ht h3 hm' hp
      refine ⟨fun _ => hcur hm', ?_⟩
      intro k hk
      rcases Finmap.mem_insert.mp hk with rfl | hk
      · show productKey _ _ >>> 16 ∈ st.db.Vendors
        rw [productKey_shift _ _ (hcur hm').2 hplt]
        exact (hcur hm').1
      · exact hprod k hk
  · by_cases hm : st.ctx.inClassBlock = true
    · obtain ⟨_, _, _, rfl⟩ := processLine_progIface_ok st st1 l ht h3 hm hp
      exact ⟨hcur, hprod⟩
    · have hm' : st.ctx.inClassBlock = false := by simpa using hm
      obtain ⟨_, _, _, _, _, rfl⟩ := processLine_subsystem_ok st st1 l ht h3 hm' hp
      exact ⟨hcur, hprod⟩

theorem ClassParentInv_run (st st1 : State) (lines : List (List Char))
    (hi : ClassParentInv st) (h : parseLines st lines = .ok st1) : ClassParentInv st1 := by
  induction lines generalizing st with
  | nil => cases h; exact hi
  | cons l rest ih =>
    obtain ⟨st2, hl, hrest⟩ := parseLines_cons_ok _ _ _ _ h
    exact ih st2 (ClassParentInv_step st st2 l hi hl) hrest

theorem VendorParentInv_run (st st1 : State) (lines : List (List Char))
    (hi : VendorParentInv st) (h : parseLines st lines = .ok st1) : VendorParentInv st1 := by
  induction lines generalizing st with
  | nil => cases h; exact hi
  | cons l rest ih =>
    obtain ⟨st2, hl, hrest⟩ := parseLines_cons_ok _ _ _ _ h
    exact ih st2 (VendorParentInv_step st st2 l hi hl) hrest

theorem VendorParentInv_header (st st1 : State) (hd : List Char)
    (hprod : ∀ k ∈ st.db.Products, (k >>> 16) ∈ st.db.Vendors) (hH : isHeader hd = true)
    (hp : processLine st hd = .ok st1) : VendorParentInv st1 := by
  obtain ⟨h0, ht⟩ := (isHeader_iff hd).mp hH
  by_cases hC : hd[0]? = some 'C'
  · obtain ⟨_, _, _, rfl⟩ := processLine_class_ok st st1 hd hC hp
    exact ⟨fun hc => (Bool.false_ne_true hc.symm).elim, hprod⟩
  · obtain ⟨_, _, hlt, rfl⟩ := processLine_vendor_ok st st1 hd h0 hC ht hp
    exact ⟨fun _ => ⟨Finmap.mem_insert.mpr (Or.inl rfl), hlt⟩,
      fun k hk => Finmap.mem_insert.mpr (Or.inr (hprod k hk))⟩

theorem parseLines_filter (st : State) (lines : List (List Char)) :
    parseLines st (lines.filter (fun l => !isBlankOrComment l)) = parseLines st lines := by
  induction lines generalizing st with
  | nil => rfl
  | cons l rest ih =>
    by_cases hb : isBlankOrComment l = true
    · rw [List.filter_cons_of_neg (by simp [hb]), parseLines_cons,
        processLine_skip st l ((isBlankOrComment_iff l).mp hb), ok_bind, ih]
    · rw [List.filter_cons_of_pos (by simp [hb]), parseLines_cons, parseLines_cons]
      cases processLine st l with
      | error e => rfl
      | ok st1 => rw [ok_bind, ok_bind, ih]

/-! ## Lemmas: the second-level registers hold the last key written -/

theorem register_last_write (t : TableId) (reg : Ctx → Nat)
    (hstep : ∀ (ctx : Ctx) (l : List Char) (s : State),
      processLine { ctx := ctx, db := Tables.empty } l = .ok s →
        (∀ k v, s.db.entry t k = some v → k = reg s.ctx) ∧
        ((∀ k, s.db.entry t k = none) → reg s.ctx = reg ctx))
    (ctx : Ctx) (db0 : Tables) (lines : List (List Char)) (stf : State)
    (h : parseLines { ctx := ctx, db := db0 } lines = .ok stf) :
    (∀ i k v, writeAt ctx lines i t k = some v →
      (∀ j k2, i < j → writeAt ctx lines j t k2 = none) → reg stf.ctx = k) ∧
    ((∀ j k2, writeAt ctx lines j t k2 = none) → reg stf.ctx = reg ctx) := by
  induction lines generalizing ctx db0 with
  | nil =>
    cases h
    refine ⟨?_, fun _ => rfl⟩
    intro i k v hw
    rw [writeAt_nil] at hw
    cases hw
  | cons l rest ih =>
    obtain ⟨st1, hl, hrest⟩ := parseLines_cons_ok _ _ _ _ h
    obtain ⟨s, hs, rfl⟩ := processLine_ok_overlay ctx db0 l st1 hl
    obtain ⟨ih1, ih2⟩ := ih s.ctx (s.db.overlay db0) hrest
    obtain ⟨hA, hB⟩ := hstep ctx l s hs
    have w0 := fun k => writeAt_cons_zero ctx l rest s t k hs
    have wS := fun j k => writeAt_cons_succ ctx l rest s j t k hs
    refine ⟨?_, ?_⟩
    · intro i k v hw hlater
      cases i with
      | zero =>
        rw [w0] at hw
        rw [ih2 (fun j k2 => by rw [← wS]; exact hlater (j + 1) k2 (by omega))]
        exact (hA k v hw).symm
      | succ i' =>
        rw [wS] at hw
        exact ih1 i' k v hw (fun j k2 hj => by rw [← wS]; exact hlater (j + 1) k2 (by omega))
    · intro hnone
      rw [ih2 (fun j k2 => by rw [← wS]; exact hnone (j + 1) k2)]
      exact hB (fun k => by rw [← w0]; exact hnone 0 k)

theorem subclass_register_step (ctx : Ctx) (l : List Char) (s : State)
    (hp : processLine { ctx := ctx, db := Tables.empty } l = .ok s) :
    (∀ k v, s.db.entry .subclasses k = some v → k = s.ctx.curClassSubclass) ∧
      ((∀ k, s.db.entry .subclasses k = none) → s.ctx.curClassSubclass = ctx.curClassSubclass) := by
  have hempty : ∀ (x : Nat) k v, Tables.empty.entry .subclasses k = some v → k = x := by
    intro x k v hk
    rw [Tables.entry_empty] at hk
    cases hk
  by_cases h0 : l = [] ∨ l[0]? = some '#'
  · rw [processLine_skip _ l h0] at hp
    cases hp
    exact ⟨hempty _, fun _ => rfl⟩
  by_cases hC : l[0]? = some 'C'
  · obtain ⟨_, _, _, rfl⟩ := processLine_class_ok _ s l hC hp
    exact ⟨hempty _, fun _ => rfl⟩
  by_cases ht : l[0]? = some '\t'
  swap
  · obtain ⟨_, _, _, rfl⟩ := processLine_vendor_ok _ s l h0 hC ht hp
    exact ⟨hempty _, fun _ => rfl⟩
  by_cases h3 : l.length > 1 ∧ l[1]? ≠ some '\t'
  · by_cases hm : ctx.inClassBlock = true
    · obtain ⟨_, _, _, rfl⟩ := processLine_subclass_ok _ s l ht h3 hm hp
      refine ⟨?_, ?_⟩
      · intro k v hk
        by_contra hne
        have := (entry_insert_Subclasses Tables.empty
          (subclassKey ctx.curClass (hexNum (cols l 1 3))) (String.mk (l.drop 5))).2
          .subclasses k (Or.inr hne)
        rw [this, Tables.entry_empty] at hk
        cases hk
      · intro hnone
        have := (entry_insert_Subclasses Tables.empty
          (subclassKey ctx.curClass (hexNum (cols l 1 3))) (String.mk (l.drop 5))).1
        rw [hnone] at this
        cases this
    · have hm' : ctx.inClassBlock = false := by simpa using hm
      obtain ⟨_, _, _, rfl⟩ := processLine_product_ok _ s l ht h3 hm' hp
      exact ⟨hempty _, fun _ => rfl⟩
  · by_cases hm : ctx.inClassBlock = true
    · obtain ⟨_, _, _, rfl⟩ := processLine_progIface_ok _ s l ht h3 hm hp
      exact ⟨hempty _, fun _ => rfl⟩
    · have hm' : ctx.inClassBlock = false := by simpa using hm
      obtain ⟨_, _, _, _, _, rfl⟩ := processLine_subsystem_ok _ s l ht h3 hm' hp
      exact ⟨hempty _, fun _ => rfl⟩

theorem product_register_step (ctx : Ctx) (l : List Char) (s : State)
    (hp : processLine { ctx := ctx, db := Tables.empty } l = .ok s) :
    (∀ k v, s.db.entry .products k = some v → k = s.ctx.curVendorProduct) ∧
      ((∀ k, s.db.entry .products k = none) → s.ctx.curVendorProduct = ctx.curVendorProduct) := by
  have hempty : ∀ (x : Nat) k v, Tables.empty.entry .products k = some v → k = x := by
    intro x k v hk
    rw [Tables.entry_empty] at hk
    cases hk
  by_cases h0 : l = [] ∨ l[0]? = some '#'
  · rw [processLine_skip _ l h0] at hp
    cases hp
    exact ⟨hempty _, fun _ => rfl⟩
  by_cases hC : l[0]? = some 'C'
  · obtain ⟨_, _, _, rfl⟩ := processLine_class_ok _ s l hC hp
    exact ⟨hempty _, fun _ => rfl⟩
  by_cases ht : l[0]? = some '\t'
  swap
  · obtain ⟨_, _, _, rfl⟩ := processLine_vendor_ok _ s l h0 hC ht hp
    exact ⟨hempty _, fun _ => rfl⟩
  by_cases h3 : l.length > 1 ∧ l[1]? ≠ some '\t'
  · by_cases hm : ctx.inClassBlock = true
    · obtain ⟨_, _, _, rfl⟩ := processLine_subclass_ok _ s l ht h3 hm hp
      exact ⟨hempty _, fun _ => rfl⟩
    · have hm' : ctx.inClassBlock = false := by simpa using hm
      obtain ⟨_, _, _, rfl⟩ := processLine_product_ok _ s l ht h3 hm' hp
      refine ⟨?_, ?_⟩
      · intro k v hk
        by_contra hne
        have := (entry_insert_Products Tables.empty
          (productKey ctx.curVendor (hexNum (cols l 1 5))) (String.mk (l.drop 7))).2
          .products k (Or.inr hne)
        rw [this, Tables.entry_empty] at hk
        cases hk
      · intro hnone
        have := (entry_insert_Products Tables.empty
          (productKey ctx.curVendor (hexNum (cols l 1 5))) (String.mk (l.drop 7))).1
        rw [hnone] at this
        cases this
  · by_cases hm : ctx.inClassBlock = true
    · obtain ⟨_, _, _, rfl⟩ := processLine_progIface_ok _ s l ht h3 hm hp
      exact ⟨hempty _, fun _ => rfl⟩
    · have hm' : ctx.inClassBlock = false := by simpa using hm
      obtain ⟨_, _, _, _, _, rfl⟩ := processLine_subsystem_ok _ s l ht h3 hm' hp
      exact ⟨hempty _, fun _ => rfl⟩

/-! # The claims -/

/-- C1. Class header step: from every parser state, a line that starts with `C`, has at
least 6 characters and has hexadecimal digits at columns 2 and 3 is processed
successfully; afterwards the Class mapping sends the 8-bit value of the two digits to
the substring of the line from column 6 on, the current-class register holds that value
and the mode is class-hierarchy. -/
theorem class_header_step (st : State) (l : List Char) (h0 : l[0]? = some 'C')
    (hlen : 6 ≤ l.length) (hhex : (cols l 2 4).all isHexDigit = true) :
    ∃ st1, processLine st l = .ok st1 ∧
      hexNum (cols l 2 4) < 2 ^ 8 ∧
      st1.db.Classes.lookup (hexNum (cols l 2 4)) = some (String.mk (l.drop 6)) ∧
      st1.ctx.curClass = hexNum (cols l 2 4) ∧
      st1.ctx.inClassBlock = true := by
  obtain ⟨hp, hlt⟩ := mustParse8_cols l 2 (by omega) hhex
  rw [processLine_class st l h0, slice_eq_cols l 2 4 (by omega) (by omega), ok_bind, hp, ok_bind,
    sliceFrom_ok l 6 hlen, ok_bind]
  exact ⟨_, rfl, hlt, Finmap.lookup_insert _, rfl, rfl⟩

/-- C1, at a concrete input: the header `C 02  Network controller` processed in a state
whose mode is vendor-hierarchy and whose Class mapping already holds another name
for the id 2. -/
theorem class_header_step_witness :
    ∃ st1,
      processLine
          { ctx := { Ctx.init with curClass := 7 },
            db := { Tables.empty with Classes := Finmap.singleton 2 "old" } }
          "C 02  Network controller".toList = .ok st1 ∧
        hexNum (cols "C 02  Network controller".toList 2 4) < 2 ^ 8 ∧
        st1.db.Classes.lookup (hexNum (cols "C 02  Network controller".toList 2 4)) =
          some (String.mk ("C 02  Network controller".toList.drop 6)) ∧
        st1.ctx.curClass = hexNum (cols "C 02  Network controller".toList 2 4) ∧
        st1.ctx.inClassBlock = true :=
  class_header_step _ _ (by decide) (by decide) (by decide)

/-- C2. Subclass key under interleaving: in an input that parses successfully, let `l` be
a single-indent line (first character TAB, second character not TAB) and let the last
header line before it, whatever precedes that header, be a class header `h`.  Then
columns 2..3 of `h` and columns 1..2 of `l` are hexadecimal digits, and processing `l`
inserts into the Subclass mapping, under the key `(c << 8) | s` with `c` the value of
the former and `s` the value of the latter, the substring of `l` from column 5; the
key is still present when the run ends. -/
theorem subclass_key_interleaved (db0 : Tables) (pre post : List (List Char))
    (l h : List Char) (final : Tables)
    (hparse : parseDBFile db0 (pre ++ l :: post) = .ok final)
    (hl0 : l[0]? = some '\t') (hl1 : ∃ c, l[1]? = some c ∧ c ≠ '\t')
    (hh : lastHeader pre = some h) (hC : h[0]? = some 'C') :
    ∃ st1 st2, parseLines { ctx := Ctx.init, db := db0 } pre = .ok st1 ∧
      processLine st1 l = .ok st2 ∧
      (cols h 2 4).all isHexDigit = true ∧ hexNum (cols h 2 4) < 2 ^ 8 ∧
      (cols l 1 3).all isHexDigit = true ∧ hexNum (cols l 1 3) < 2 ^ 8 ∧
      st2.db.Subclasses =
        st1.db.Subclasses.insert (hexNum (cols h 2 4) <<< 8 ||| hexNum (cols l 1 3))
          (String.mk (l.drop 5)) ∧
      st2.db.Subclasses.lookup (hexNum (cols h 2 4) <<< 8 ||| hexNum (cols l 1 3)) =
        some (String.mk (l.drop 5)) ∧
      (hexNum (cols h 2 4) <<< 8 ||| hexNum (cols l 1 3)) ∈ final.Subclasses := by
  obtain ⟨stf, hstf, hfin⟩ := (parseDBFile_ok_iff _ _ _).mp hparse
  obtain ⟨st1, hpre, hrest⟩ := parseLines_append_ok _ _ _ _ hstf
  obtain ⟨st2, hl, hpost⟩ := parseLines_cons_ok _ _ _ _ hrest
  have hinv := HeaderInv_run none _ st1 pre HeaderInv_init hpre
  rw [show lastHeaderFrom none pre = lastHeader pre from rfl, hh] at hinv
  simp only [HeaderInv, hC, if_true] at hinv
  obtain ⟨hm, hlen, hhex, hcur⟩ := hinv
  have hclt : hexNum (cols h 2 4) < 2 ^ 8 := (mustParse8_cols h 2 (by omega) hhex).2
  have h3 : l.length > 1 ∧ l[1]? ≠ some '\t' := by
    obtain ⟨c, hc, hne⟩ := hl1
    refine ⟨?_, ?_⟩
    · by_contra hcon
      rw [List.getElem?_eq_none (by omega)] at hc
      cases hc
    · rw [hc]
      intro heq
      exact hne (Option.some.inj heq)
  obtain ⟨_, hlhex, hslt, hst2⟩ := processLine_subclass_ok st1 st2 l hl0 h3 hm hl
  have hkey : subclassKey st1.ctx.curClass (hexNum (cols l 1 3)) =
      hexNum (cols h 2 4) <<< 8 ||| hexNum (cols l 1 3) := by
    have hs : hexNum (cols h 2 4) <<< 8 < 2 ^ 16 := by rw [Nat.shiftLeft_eq]; omega
    rw [hcur, subclassKey, Nat.mod_eq_of_lt hs]
  rw [hkey] at hst2
  have hins : st2.db.Subclasses =
      st1.db.Subclasses.insert (hexNum (cols h 2 4) <<< 8 ||| hexNum (cols l 1 3))
        (String.mk (l.drop 5)) := by rw [hst2]
  have hlook : st2.db.Subclasses.lookup (hexNum (cols h 2 4) <<< 8 ||| hexNum (cols l 1 3)) =
      some (String.mk (l.drop 5)) := by rw [hins]; exact Finmap.lookup_insert _
  refine ⟨st1, st2, hpre, hl, hhex, hclt, hlhex, hslt, hins, hlook, ?_⟩
  obtain ⟨w, hw⟩ := parseLines_db_overlay st2 stf post hpost
  rw [← hfin, hw]
  exact Finmap.mem_union.mpr (Or.inr (Finmap.mem_of_lookup_eq_some hlook))

/-- C2, at concrete inputs: a subclass line under the class header 02 that follows a
class block and a vendor block is keyed 0x0200, and the two-line input
`C 02  Network controller`, `\t00  Ethernet controller` yields exactly
Class{0x02} and Subclass{0x0200}. -/
theorem subclass_key_interleaved_witness :
    (∃ st1 st2,
      parseLines { ctx := Ctx.init, db := Tables.empty }
          ["C 01  Mass storage controller".toList, "\t01  IDE interface".toList,
            "0a89  BREA Technologies Inc".toList, "\t0002  PCI to MCA Bridge".toList,
            "C 02  Network controller".toList] = .ok st1 ∧
        processLine st1 "\t00  Ethernet controller".toList = .ok st2 ∧
        st2.db.Subclasses.lookup 0x0200 = some "Ethernet controller") ∧
    parseDBFile Tables.empty
        ["C 02  Network controller".toList, "\t00  Ethernet controller".toList] =
      .ok { Tables.empty with
        Classes := Finmap.singleton 0x02 "Network controller",
        Subclasses := Finmap.singleton 0x0200 "Ethernet controller" } := by
  refine ⟨?_, rfl⟩
  obtain ⟨st1, st2, h1, h2, _, _, _, _, _, h3, _⟩ :=
    subclass_key_interleaved Tables.empty
      ["C 01  Mass storage controller".toList, "\t01  IDE interface".toList,
        "0a89  BREA Technologies Inc".toList, "\t0002  PCI to MCA Bridge".toList,
        "C 02  Network controller".toList]
      [] "\t00  Ethernet controller".toList "C 02  Network controller".toList
      { Tables.empty with
        Classes :=
          (Finmap.singleton 0x01 "Mass storage controller").insert 0x02 "Network controller",
        Subclasses :=
          (Finmap.singleton 0x0101 "IDE interface").insert 0x0200 "Ethernet controller",
        Vendors := Finmap.singleton 0x0a89 "BREA Technologies Inc",
        Products := Finmap.singleton 0x0a890002 "PCI to MCA Bridge" }
      (by rfl) (by decide) ⟨'0', by decide, by decide⟩ (by decide) (by decide)
  exact ⟨st1, st2, h1, h2, h3⟩

/-- C3. Subsystem owner vendor comes from the line: in vendor-hierarchy mode, a
double-indent line of length at least 13 with hexadecimal digits at columns 2..5 and
7..10 is processed successfully and inserts into the Subsystem mapping, under the key
`(curVendorProduct << 16) | (value of columns 7..10)`, the record whose owner vendor
is the value of columns 2..5 and whose name is the substring from column 13.  Neither
the key nor the record mentions the current-vendor register, and the key does not
mention columns 2..5; the registers and the other mappings are left as they were. -/
theorem subsystem_owner_from_line (st : State) (l : List Char)
    (hm : st.ctx.inClassBlock = false) (hwf : st.ctx.WF)
    (h0 : l[0]? = some '\t') (h1 : l[1]? = some '\t') (hlen : 13 ≤ l.length)
    (hv : (cols l 2 6).all isHexDigit = true) (hs : (cols l 7 11).all isHexDigit = true) :
    ∃ st1, processLine st l = .ok st1 ∧
      st1 = { st with
          db := { st.db with
            Subsystems :=
              st.db.Subsystems.insert (st.ctx.curVendorProduct <<< 16 ||| hexNum (cols l 7 11))
                { Vendor := hexNum (cols l 2 6), Name := String.mk (l.drop 13) } } } ∧
      st1.db.Subsystems.lookup (st.ctx.curVendorProduct <<< 16 ||| hexNum (cols l 7 11)) =
          some { Vendor := hexNum (cols l 2 6), Name := String.mk (l.drop 13) } ∧
      hexNum (cols l 2 6) < 2 ^ 16 ∧ hexNum (cols l 7 11) < 2 ^ 16 := by
  obtain ⟨hpv, hvlt⟩ := mustParse16_cols l 2 (by omega) hv
  obtain ⟨hps, hslt⟩ := mustParse16_cols l 7 (by omega) hs
  have hkey : subsystemKey st.ctx.curVendorProduct (hexNum (cols l 7 11)) =
      st.ctx.curVendorProduct <<< 16 ||| hexNum (cols l 7 11) := by
    have hs : st.ctx.curVendorProduct <<< 16 < 2 ^ 64 := by
      have := hwf.2.2.2
      rw [Nat.shiftLeft_eq]; omega
    rw [subsystemKey, Nat.mod_eq_of_lt hs]
  rw [processLine_subsystem st l h0 (by simp [h1]) hm,
    slice_eq_cols l 2 6 (by omega) (by omega), ok_bind, hpv, ok_bind,
    slice_eq_cols l 7 11 (by omega) (by omega), ok_bind, hps, ok_bind,
    sliceFrom_ok l 13 hlen, ok_bind, hkey]
  exact ⟨_, rfl, rfl, Finmap.lookup_insert _, hvlt, hslt⟩

/-- C3, at a concrete input: the current vendor is 0x0a89, the current product key is
0x0a890002, and the line names the different owner vendor 0x0e11. -/
theorem subsystem_owner_from_line_witness :
    ∃ st1,
      processLine
          { ctx := { Ctx.init with curVendor := 0x0a89, curVendorProduct := 0x0a890002 },
            db := Tables.empty }
          "\t\t0e11 4091  Smart Array 6i".toList = .ok st1 ∧
        st1.db.Subsystems.lookup 0x0a8900024091 =
          some { Vendor := 0x0e11, Name := "Smart Array 6i" } := by
  obtain ⟨st1, h1, _, h3, _⟩ := subsystem_owner_from_line
    { ctx := { Ctx.init with curVendor := 0x0a89, curVendorProduct := 0x0a890002 },
      db := Tables.empty }
    "\t\t0e11 4091  Smart Array 6i".toList rfl (by decide) (by decide) (by decide) (by decide)
    (by decide) (by decide)
  exact ⟨st1, h1, h3⟩

/-- C4. Idempotence of the parse: if a run of `parseDBFile` from six empty mappings
succeeds with the mappings `M`, then a second run on the same input that starts from
the mappings `M` (the mode flag and the registers being initialised again) succeeds
and leaves exactly `M`; and any run from empty mappings on that input yields `M`. -/
theorem parse_idempotent (lines : List (List Char)) (M : Tables)
    (h : parseDBFile Tables.empty lines = .ok M) :
    parseDBFile M lines = .ok M ∧
      ∀ M2, parseDBFile Tables.empty lines = .ok M2 → M2 = M := by
  refine ⟨?_, ?_⟩
  · obtain ⟨st, hst, hM⟩ := (parseDBFile_ok_iff _ _ _).mp h
    rw [parseDBFile, parseLines_overlay, hst, map_ok]
    simp only
    rw [hM, Tables.overlay_self]
  · intro M2 h2
    rw [h] at h2
    exact (Except.ok.inj h2).symm

/-- C4, at a concrete input with a repeated key: a second run from the result of the
first leaves it as it is. -/
theorem parse_idempotent_witness :
    parseDBFile
        { Tables.empty with
          Classes := Finmap.singleton 2 "Network controller",
          Subclasses := Finmap.singleton 0x0200 "Token ring" }
        ["C 02  Network controller".toList, "\t00  Ethernet controller".toList,
          "\t00  Token ring".toList] =
      .ok { Tables.empty with
          Classes := Finmap.singleton 2 "Network controller",
          Subclasses := Finmap.singleton 0x0200 "Token ring" } :=
  (parse_idempotent
    ["C 02  Network controller".toList, "\t00  Ethernet controller".toList,
      "\t00  Token ring".toList]
    { Tables.empty with
      Classes := Finmap.singleton 2 "Network controller",
      Subclasses := Finmap.singleton 0x0200 "Token ring" }
    (by rfl)).1

/-- C5. Last write wins: after a successful run from empty mappings, a key `k` of a
mapping `t` holds the value `v` exactly when some line of the input writes `v` under
that key and no later line writes that key.  In particular the Class mapping holds,
under the id of a class header, the name of that header when no later class header
has the same id, whatever earlier headers said; likewise for vendor headers and the
Vendor mapping. -/
theorem last_write_wins (lines : List (List Char)) (final : Tables)
    (h : parseDBFile Tables.empty lines = .ok final) :
    (∀ (t : TableId) (k : Nat) (v : Payload),
      final.entry t k = some v ↔
        ∃ i, writeAt Ctx.init lines i t k = some v ∧
          ∀ j, i < j → writeAt Ctx.init lines j t k = none) ∧
    (∀ (pre post : List (List Char)) (hd : List Char), lines = pre ++ hd :: post →
      hd[0]? = some 'C' →
      (∀ m ∈ post, m[0]? = some 'C' → hexNum (cols m 2 4) ≠ hexNum (cols hd 2 4)) →
      final.Classes.lookup (hexNum (cols hd 2 4)) = some (String.mk (hd.drop 6))) ∧
    (∀ (pre post : List (List Char)) (hd : List Char), lines = pre ++ hd :: post →
      isHeader hd = true → hd[0]? ≠ some 'C' →
      (∀ m ∈ post, isHeader m = true → m[0]? ≠ some 'C' →
        hexNum (cols m 0 4) ≠ hexNum (cols hd 0 4)) →
      final.Vendors.lookup (hexNum (cols hd 0 4)) = some (String.mk (hd.drop 6))) := by
  obtain ⟨stf, hstf, rfl⟩ := (parseDBFile_ok_iff _ _ _).mp h
  refine ⟨?_, ?_, ?_⟩
  · intro t k v
    rw [last_write_general Ctx.init Tables.empty lines stf t k v hstf]
    constructor
    · rintro (hw | ⟨_, hdb⟩)
      · exact hw
      · rw [Tables.entry_empty] at hdb
        cases hdb
    · exact Or.inl
  · intro pre post hd hsplit hC hne
    rw [hsplit] at hstf
    obtain ⟨st1, _, hrest⟩ := parseLines_append_ok _ _ _ _ hstf
    obtain ⟨st2, hl, hpost⟩ := parseLines_cons_ok _ _ _ _ hrest
    obtain ⟨_, _, _, rfl⟩ := processLine_class_ok st1 st2 hd hC hl
    rw [Classes_lookup_run _ stf post _ hpost hne]
    exact Finmap.lookup_insert _
  · intro pre post hd hsplit hH hC hne
    rw [hsplit] at hstf
    obtain ⟨st1, _, hrest⟩ := parseLines_append_ok _ _ _ _ hstf
    obtain ⟨st2, hl, hpost⟩ := parseLines_cons_ok _ _ _ _ hrest
    obtain ⟨h0, ht⟩ := (isHeader_iff hd).mp hH
    obtain ⟨_, _, _, rfl⟩ := processLine_vendor_ok st1 st2 hd h0 hC ht hl
    rw [Vendors_lookup_run _ stf post _ hpost hne]
    exact Finmap.lookup_insert _

/-- C5, at a concrete input: two class headers with the id 02 and different names, a
subclass line in between; the Class mapping ends with the name of the later header,
which is the write of line 2 and of no later line. -/
theorem last_write_wins_witness :
    parseDBFile Tables.empty
        ["C 02  First name".toList, "\t00  Ethernet controller".toList,
          "C 02  Second name".toList] =
      .ok { Tables.empty with
        Classes := Finmap.singleton 0x02 "Second name",
        Subclasses := Finmap.singleton 0x0200 "Ethernet controller" } ∧
    (Finmap.singleton 0x02 "Second name" : GoMap String).lookup 0x02 = some "Second name" ∧
    ∃ i,
      writeAt Ctx.init
          ["C 02  First name".toList, "\t00  Ethernet controller".toList,
            "C 02  Second name".toList] i .classes 0x02 = some (.name "Second name") ∧
        ∀ j, i < j →
          writeAt Ctx.init
            ["C 02  First name".toList, "\t00  Ethernet controller".toList,
              "C 02  Second name".toList] j .classes 0x02 = none := by
  have hrun : parseDBFile Tables.empty
      ["C 02  First name".toList, "\t00  Ethernet controller".toList,
        "C 02  Second name".toList] =
      .ok { Tables.empty with
        Classes := Finmap.singleton 0x02 "Second name",
        Subclasses := Finmap.singleton 0x0200 "Ethernet controller" } := rfl
  have hall := last_write_wins _ _ hrun
  refine ⟨hrun, ?_, (hall.1 .classes 0x02 (.name "Second name")).mp rfl⟩
  exact hall.2.1 ["C 02  First name".toList, "\t00  Ethernet controller".toList] []
    "C 02  Second name".toList rfl (by decide) (by simp)

/-- C6. Malformed hex field aborts: from every state, a non-blank, non-comment line whose
shape requires an id field (class: columns 2..3; vendor: 0..3; subclass: 1..2;
product: 1..4; programming interface: 2..3; subsystem: 2..5 and 7..10) and which holds a
character that is not a hexadecimal digit in such a field makes the loop body stop with
a panic, and every run of `parseDBFile` that reaches the line in that state stops with
the same panic and yields no mappings.  Conversely `mustParse8` on two and
`mustParse16` on four hexadecimal digits, upper or lower case, return their value. -/
theorem malformed_hex_aborts :
    (∀ (st : State) (l : List Char),
      ((l[0]? = some 'C' ∧ hasNonHex l 2 4 = true) ∨
        (l ≠ [] ∧ l[0]? ≠ some '#' ∧ l[0]? ≠ some 'C' ∧ l[0]? ≠ some '\t' ∧
          hasNonHex l 0 4 = true) ∨
        (l[0]? = some '\t' ∧ 1 < l.length ∧ l[1]? ≠ some '\t' ∧
          st.ctx.inClassBlock = true ∧ hasNonHex l 1 3 = true) ∨
        (l[0]? = some '\t' ∧ 1 < l.length ∧ l[1]? ≠ some '\t' ∧
          st.ctx.inClassBlock = false ∧ hasNonHex l 1 5 = true) ∨
        (l[0]? = some '\t' ∧ (l.length = 1 ∨ l[1]? = some '\t') ∧
          st.ctx.inClassBlock = true ∧ hasNonHex l 2 4 = true) ∨
        (l[0]? = some '\t' ∧ (l.length = 1 ∨ l[1]? = some '\t') ∧
          st.ctx.inClassBlock = false ∧
          (hasNonHex l 2 6 = true ∨ hasNonHex l 7 11 = true))) →
      ∃ e, processLine st l = .error e ∧
        ∀ (db : Tables) (pre post : List (List Char)),
          parseLines { ctx := Ctx.init, db := db } pre = .ok st →
            parseDBFile db (pre ++ l :: post) = .error e) ∧
    (∀ s : List Char, s.length = 2 → s.all isHexDigit = true →
      mustParse8 s = .ok (hexNum s) ∧ hexNum s < 2 ^ 8) ∧
    (∀ s : List Char, s.length = 4 → s.all isHexDigit = true →
      mustParse16 s = .ok (hexNum s) ∧ hexNum s < 2 ^ 16) := by
  refine ⟨?_, ?_, ?_⟩
  · intro st l hshape
    have key : ∃ e, processLine st l = .error e := by
      rcases hshape with ⟨h0, hb⟩ | ⟨hne, hc, h1, h2, hb⟩ | ⟨h0, h1, h2, hm, hb⟩ |
        ⟨h0, h1, h2, hm, hb⟩ | ⟨h0, h1, hm, hb⟩ | ⟨h0, h1, hm, hb⟩
      · rw [processLine_class st l h0]
        exact slice_mustParse8_fails l 2 4 _ hb
      · rw [processLine_vendor st l (by tauto) h1 h2]
        exact slice_mustParse16_fails l 0 4 _ hb
      · rw [processLine_subclass st l h0 ⟨h1, h2⟩ hm]
        exact slice_mustParse8_fails l 1 3 _ hb
      · rw [processLine_product st l h0 ⟨h1, h2⟩ hm]
        exact slice_mustParse16_fails l 1 5 _ hb
      · rw [processLine_progIface st l h0 (by rcases h1 with h | h <;> simp [h]) hm]
        exact slice_mustParse8_fails l 2 4 _ hb
      · rw [processLine_subsystem st l h0 (by rcases h1 with h | h <;> simp [h]) hm]
        rcases hb with hb | hb
        · exact slice_mustParse16_fails l 2 6 _ hb
        · exact bind_fails _ _ fun _ => bind_fails _ _ fun _ =>
            slice_mustParse16_fails l 7 11 _ hb
    obtain ⟨e, he⟩ := key
    exact ⟨e, he, fun db pre post hpre => parseDBFile_abort db st pre post l e hpre he⟩
  · intro s hlen hhex
    obtain ⟨a, b, rfl⟩ := List.length_eq_two.mp hlen
    simp only [List.all_cons, List.all_nil, Bool.and_true, Bool.and_eq_true] at hhex
    exact ⟨mustParse8_hex2 a b hhex.1 hhex.2, hexNum_two_lt a b hhex.1 hhex.2⟩
  · intro s hlen hhex
    obtain ⟨a, b, c, d, rfl⟩ := length_eq_four s hlen
    simp only [List.all_cons, List.all_nil, Bool.and_true, Bool.and_eq_true] at hhex
    exact ⟨mustParse16_hex4 a b c d hhex.1 hhex.2.1 hhex.2.2.1 hhex.2.2.2,
      hexNum_four_lt a b c d hhex.1 hhex.2.1 hhex.2.2.1 hhex.2.2.2⟩

/-- C6, at the class header `C ZZ  Bad`: the run stops, the panic value being the
`NumError` of `ParseUint` on the field `ZZ`; the field `fF` parses to 255. -/
theorem malformed_hex_aborts_witness :
    (∃ e, processLine { ctx := Ctx.init, db := Tables.empty } "C ZZ  Bad".toList = .error e ∧
      parseDBFile Tables.empty ["C ZZ  Bad".toList] = .error e) ∧
    parseDBFile Tables.empty ["C ZZ  Bad".toList] =
      .error (.numError "ZZ".toList .ErrSyntax) ∧
    mustParse8 "fF".toList = .ok 255 := by
  obtain ⟨e, h1, h2⟩ := malformed_hex_aborts.1 { ctx := Ctx.init, db := Tables.empty }
    "C ZZ  Bad".toList (Or.inl ⟨by decide, by decide⟩)
  exact ⟨⟨e, h1, h2 Tables.empty [] [] rfl⟩, rfl,
    (malformed_hex_aborts.2.1 "fF".toList (by decide) (by decide)).1⟩

/-- C7, as stated, fails: the header `C ZZ  Bad` on line 1 of one input and the
different line `\tZZ  Worse` on line 3 of another input stop the run with the very same
panic value, the `NumError` for the field text `ZZ`; it names neither line. -/
theorem error_identifies_line_counterexample :
    parseDBFile Tables.empty ["C ZZ  Bad".toList] =
        .error (.numError "ZZ".toList .ErrSyntax) ∧
      parseDBFile Tables.empty
          ["# pci.ids".toList, "C 02  Network controller".toList, "\tZZ  Worse".toList] =
        .error (.numError "ZZ".toList .ErrSyntax) :=
  ⟨rfl, rfl⟩

/-- C7, amended. Whenever the loop stops because a hex field fails to parse, the panic
value is the `NumError` of `ParseUint` with the syntax error, and the text it carries
is exactly the failing field of the first line that fails: the runes at the id columns
of the shape of that line (class header 2..3, vendor header 0..3, subclass 1..2,
product 1..4, programming interface 2..3, subsystem 2..5 or, when that field is
hexadecimal, 7..10), a column past the end of the line giving a zero rune; one of
these runes is not a hexadecimal digit.  The value holds nothing else of the line and
not its position. -/
theorem numError_carries_field (st0 : State) (lines : List (List Char)) (num : List Char)
    (k : NumErrKind) (h : parseLines st0 lines = .error (.numError num k)) :
    k = .ErrSyntax ∧
      ∃ pre l post st, lines = pre ++ l :: post ∧ parseLines st0 pre = .ok st ∧
        processLine st l = .error (.numError num k) ∧
        (∃ c ∈ num, isHexDigit c = false) ∧
        ((l[0]? = some 'C' ∧ num = fieldText l 2 4) ∨
          (isHeader l = true ∧ l[0]? ≠ some 'C' ∧ num = fieldText l 0 4) ∨
          (l[0]? = some '\t' ∧ (l.length > 1 ∧ l[1]? ≠ some '\t') ∧
            st.ctx.inClassBlock = true ∧ num = fieldText l 1 3) ∨
          (l[0]? = some '\t' ∧ (l.length > 1 ∧ l[1]? ≠ some '\t') ∧
            st.ctx.inClassBlock = false ∧ num = fieldText l 1 5) ∨
          (l[0]? = some '\t' ∧ ¬ (l.length > 1 ∧ l[1]? ≠ some '\t') ∧
            st.ctx.inClassBlock = true ∧ num = fieldText l 2 4) ∨
          (l[0]? = some '\t' ∧ ¬ (l.length > 1 ∧ l[1]? ≠ some '\t') ∧
            st.ctx.inClassBlock = false ∧
            (num = fieldText l 2 6 ∨
              ((fieldText l 2 6).all isHexDigit = true ∧ num = fieldText l 7 11)))) := by
  obtain ⟨pre, l, post, st, hsplit, hpre, hl⟩ := parseLines_error st0 lines _ h
  obtain ⟨⟨hk, hbad⟩, hshape⟩ := processLine_numError st l num k hl
  exact ⟨hk, pre, l, post, st, hsplit, hpre, hl, hbad, hshape⟩

/-- C7 amended, at a concrete input: the third line `\tZ` ends inside its subclass field,
and the panic value carries the field as read, `Z` followed by a zero rune. -/
theorem numError_carries_field_witness :
    NumErrKind.ErrSyntax = .ErrSyntax ∧
      ∃ pre l post st,
        ["# pci.ids".toList, "C 02  Network controller".toList, "\tZ".toList] =
            pre ++ l :: post ∧
          parseLines { ctx := Ctx.init, db := Tables.empty } pre = .ok st ∧
          processLine st l = .error (.numError ['Z', Char.ofNat 0] .ErrSyntax) ∧
          (∃ c ∈ ['Z', Char.ofNat 0], isHexDigit c = false) ∧
          ((l[0]? = some 'C' ∧ ['Z', Char.ofNat 0] = fieldText l 2 4) ∨
            (isHeader l = true ∧ l[0]? ≠ some 'C' ∧ ['Z', Char.ofNat 0] = fieldText l 0 4) ∨
            (l[0]? = some '\t' ∧ (l.length > 1 ∧ l[1]? ≠ some '\t') ∧
              st.ctx.inClassBlock = true ∧ ['Z', Char.ofNat 0] = fieldText l 1 3) ∨
            (l[0]? = some '\t' ∧ (l.length > 1 ∧ l[1]? ≠ some '\t') ∧
              st.ctx.inClassBlock = false ∧ ['Z', Char.ofNat 0] = fieldText l 1 5) ∨
            (l[0]? = some '\t' ∧ ¬ (l.length > 1 ∧ l[1]? ≠ some '\t') ∧
              st.ctx.inClassBlock = true ∧ ['Z', Char.ofNat 0] = fieldText l 2 4) ∨
            (l[0]? = some '\t' ∧ ¬ (l.length > 1 ∧ l[1]? ≠ some '\t') ∧
              st.ctx.inClassBlock = false ∧
              (['Z', Char.ofNat 0] = fieldText l 2 6 ∨
                ((fieldText l 2 6).all isHexDigit = true ∧
                  ['Z', Char.ofNat 0] = fieldText l 7 11)))) :=
  numError_carries_field { ctx := Ctx.init, db := Tables.empty }
    ["# pci.ids".toList, "C 02  Network controller".toList, "\tZ".toList]
    ['Z', Char.ofNat 0] .ErrSyntax (by rfl)

/-- C8. Short lines abort: from every state, a non-blank, non-comment line shorter than
the minimum length of its shape (class header 6, vendor header 6, subclass 5,
product 7, programming interface 6, subsystem 13; a line that is a single TAB is
handled as a double-indent line) makes the loop body stop with a panic, so no state
and no entry results from it, and every run of `parseDBFile` that reaches the line in
that state stops with the same panic and yields no mappings. -/
theorem short_lines_abort (st : State) (l : List Char)
    (hshape :
      (l[0]? = some 'C' ∧ l.length < 6) ∨
      (l ≠ [] ∧ l[0]? ≠ some '#' ∧ l[0]? ≠ some 'C' ∧ l[0]? ≠ some '\t' ∧ l.length < 6) ∨
      (l[0]? = some '\t' ∧ 1 < l.length ∧ l[1]? ≠ some '\t' ∧
        st.ctx.inClassBlock = true ∧ l.length < 5) ∨
      (l[0]? = some '\t' ∧ 1 < l.length ∧ l[1]? ≠ some '\t' ∧
        st.ctx.inClassBlock = false ∧ l.length < 7) ∨
      (l[0]? = some '\t' ∧ (l.length = 1 ∨ l[1]? = some '\t') ∧
        st.ctx.inClassBlock = true ∧ l.length < 6) ∨
      (l[0]? = some '\t' ∧ (l.length = 1 ∨ l[1]? = some '\t') ∧
        st.ctx.inClassBlock = false ∧ l.length < 13)) :
    ∃ e, processLine st l = .error e ∧
      ∀ (db : Tables) (pre post : List (List Char)),
        parseLines { ctx := Ctx.init, db := db } pre = .ok st →
          parseDBFile db (pre ++ l :: post) = .error e := by
  have key : ∃ e, processLine st l = .error e := by
    rcases hshape with ⟨h0, hl⟩ | ⟨hne, hc, h1, h2, hl⟩ | ⟨h0, h1, h2, hm, hl⟩ |
      ⟨h0, h1, h2, hm, hl⟩ | ⟨h0, h1, hm, hl⟩ | ⟨h0, h1, hm, hl⟩
    · rw [processLine_class st l h0]
      exact bind_fails _ _ fun _ => bind_fails _ _ fun _ => sliceFrom_fails l 6 _ hl
    · rw [processLine_vendor st l (by tauto) h1 h2]
      exact bind_fails _ _ fun _ => bind_fails _ _ fun _ => sliceFrom_fails l 6 _ hl
    · rw [processLine_subclass st l h0 ⟨h1, h2⟩ hm]
      exact bind_fails _ _ fun _ => bind_fails _ _ fun _ => sliceFrom_fails l 5 _ hl
    · rw [processLine_product st l h0 ⟨h1, h2⟩ hm]
      exact bind_fails _ _ fun _ => bind_fails _ _ fun _ => sliceFrom_fails l 7 _ hl
    · rw [processLine_progIface st l h0 (by rcases h1 with h | h <;> simp [h]) hm]
      exact bind_fails _ _ fun _ => bind_fails _ _ fun _ => sliceFrom_fails l 6 _ hl
    · rw [processLine_subsystem st l h0 (by rcases h1 with h | h <;> simp [h]) hm]
      exact bind_fails _ _ fun _ => bind_fails _ _ fun _ => bind_fails _ _ fun _ =>
        bind_fails _ _ fun _ => sliceFrom_fails l 13 _ hl
  obtain ⟨e, he⟩ := key
  exact ⟨e, he, fun db pre post hpre => parseDBFile_abort db st pre post l e hpre he⟩

/-- C8, at a concrete input: a line that is a single TAB, reached after a class header. -/
theorem short_lines_abort_witness :
    ∃ e,
      processLine
          { ctx := { Ctx.init with inClassBlock := true, curClass := 2 },
            db := { Tables.empty with Classes := Finmap.singleton 2 "Network controller" } }
          "\t".toList = .error e ∧
        parseDBFile Tables.empty ["C 02  Network controller".toList, "\t".toList] = .error e := by
  obtain ⟨e, h1, h2⟩ := short_lines_abort
    { ctx := { Ctx.init with inClassBlock := true, curClass := 2 },
      db := { Tables.empty with Classes := Finmap.singleton 2 "Network controller" } }
    "\t".toList
    (Or.inr (Or.inr (Or.inr (Or.inr (Or.inl ⟨by decide, Or.inl (by decide), rfl, by decide⟩)))))
  exact ⟨e, h1, h2 Tables.empty ["C 02  Network controller".toList] [] (by rfl)⟩

/-- C9. Blank and comment lines are inert: from every state, a line that is empty or
starts with `#` is processed successfully and leaves the whole state (mode flag,
registers, mappings) unchanged; hence removing all such lines from an input changes
neither the outcome of the loop from any state nor the outcome of `parseDBFile`. -/
theorem blank_comment_inert :
    (∀ (st : State) (l : List Char), (l = [] ∨ l[0]? = some '#') → processLine st l = .ok st) ∧
    (∀ (st : State) (lines : List (List Char)),
      parseLines st (lines.filter (fun l => !isBlankOrComment l)) = parseLines st lines) ∧
    (∀ (db : Tables) (lines : List (List Char)),
      parseDBFile db (lines.filter (fun l => !isBlankOrComment l)) = parseDBFile db lines) := by
  have h2 : ∀ (st : State) (lines : List (List Char)),
      parseLines st (lines.filter (fun l => !isBlankOrComment l)) = parseLines st lines := by
    intro st lines
    induction lines generalizing st with
    | nil => rfl
    | cons l rest ih =>
      by_cases hb : isBlankOrComment l = true
      · rw [List.filter_cons_of_neg (by simp [hb]), parseLines_cons,
          processLine_skip st l ((isBlankOrComment_iff l).mp hb), ok_bind, ih]
      · rw [List.filter_cons_of_pos (by simp [hb]), parseLines_cons, parseLines_cons]
        cases processLine st l with
        | error e => rfl
        | ok st1 => rw [ok_bind, ok_bind, ih]
  refine ⟨processLine_skip, h2, ?_⟩
  intro db lines
  rw [parseDBFile, parseDBFile, h2]

/-- C9, at a concrete input: a comment line and an empty line around a class header. -/
theorem blank_comment_inert_witness :
    processLine { ctx := { Ctx.init with curClass := 3 }, db := Tables.empty }
        "# pci.ids".toList =
      .ok { ctx := { Ctx.init with curClass := 3 }, db := Tables.empty } ∧
    parseDBFile Tables.empty ["C 02  Network controller".toList] =
      parseDBFile Tables.empty ["# pci.ids".toList, [], "C 02  Network controller".toList, []] :=
  ⟨blank_comment_inert.1 _ _ (Or.inr (by decide)),
    blank_comment_inert.2.2 Tables.empty
      ["# pci.ids".toList, [], "C 02  Network controller".toList, []]⟩

/-- C10. Composite keys are unique and order-preserving: for each of the four
encodings, with parent and child ids within their bit widths, the shift does not
overflow the key type (reducing it modulo the width changes nothing and the key stays
within the width), the key is the shifted parent OR-ed with the child, the order of two
keys is the lexicographic order of the (parent, child) pairs, and equal keys come from
equal pairs. -/
theorem composite_keys_order :
    (∀ c1 s1 c2 s2 : Nat, c1 < 2 ^ 8 → s1 < 2 ^ 8 → c2 < 2 ^ 8 → s2 < 2 ^ 8 →
      (c1 <<< 8) % 2 ^ 16 = c1 <<< 8 ∧ subclassKey c1 s1 = c1 <<< 8 ||| s1 ∧
      subclassKey c1 s1 < 2 ^ 16 ∧
      (subclassKey c1 s1 < subclassKey c2 s2 ↔ c1 < c2 ∨ (c1 = c2 ∧ s1 < s2)) ∧
      (subclassKey c1 s1 = subclassKey c2 s2 ↔ c1 = c2 ∧ s1 = s2)) ∧
    (∀ c1 p1 c2 p2 : Nat, c1 < 2 ^ 16 → p1 < 2 ^ 8 → c2 < 2 ^ 16 → p2 < 2 ^ 8 →
      (c1 <<< 8) % 2 ^ 32 = c1 <<< 8 ∧ progIfaceKey c1 p1 = c1 <<< 8 ||| p1 ∧
      progIfaceKey c1 p1 < 2 ^ 32 ∧
      (progIfaceKey c1 p1 < progIfaceKey c2 p2 ↔ c1 < c2 ∨ (c1 = c2 ∧ p1 < p2)) ∧
      (progIfaceKey c1 p1 = progIfaceKey c2 p2 ↔ c1 = c2 ∧ p1 = p2)) ∧
    (∀ v1 p1 v2 p2 : Nat, v1 < 2 ^ 16 → p1 < 2 ^ 16 → v2 < 2 ^ 16 → p2 < 2 ^ 16 →
      (v1 <<< 16) % 2 ^ 32 = v1 <<< 16 ∧ productKey v1 p1 = v1 <<< 16 ||| p1 ∧
      productKey v1 p1 < 2 ^ 32 ∧
      (productKey v1 p1 < productKey v2 p2 ↔ v1 < v2 ∨ (v1 = v2 ∧ p1 < p2)) ∧
      (productKey v1 p1 = productKey v2 p2 ↔ v1 = v2 ∧ p1 = p2)) ∧
    (∀ v1 s1 v2 s2 : Nat, v1 < 2 ^ 32 → s1 < 2 ^ 16 → v2 < 2 ^ 32 → s2 < 2 ^ 16 →
      (v1 <<< 16) % 2 ^ 64 = v1 <<< 16 ∧ subsystemKey v1 s1 = v1 <<< 16 ||| s1 ∧
      subsystemKey v1 s1 < 2 ^ 64 ∧
      (subsystemKey v1 s1 < subsystemKey v2 s2 ↔ v1 < v2 ∨ (v1 = v2 ∧ s1 < s2)) ∧
      (subsystemKey v1 s1 = subsystemKey v2 s2 ↔ v1 = v2 ∧ s1 = s2)) := by
  refine ⟨?_, ?_, ?_, ?_⟩
  · intro c1 s1 c2 s2 h1 h2 h3 h4
    have e1 := subclassKey_eq c1 s1 h1 h2
    have e2 := subclassKey_eq c2 s2 h3 h4
    have hs : c1 <<< 8 < 2 ^ 16 := by rw [Nat.shiftLeft_eq]; omega
    refine ⟨Nat.mod_eq_of_lt hs, ?_, ?_, ?_, ?_⟩
    · rw [subclassKey, Nat.mod_eq_of_lt hs]
    · omega
    · omega
    · omega
  · intro c1 s1 c2 s2 h1 h2 h3 h4
    have e1 := progIfaceKey_eq c1 s1 h1 h2
    have e2 := progIfaceKey_eq c2 s2 h3 h4
    have hs : c1 <<< 8 < 2 ^ 32 := by rw [Nat.shiftLeft_eq]; omega
    refine ⟨Nat.mod_eq_of_lt hs, ?_, ?_, ?_, ?_⟩
    · rw [progIfaceKey, Nat.mod_eq_of_lt hs]
    · omega
    · omega
    · omega
  · intro c1 s1 c2 s2 h1 h2 h3 h4
    have e1 := productKey_eq c1 s1 h1 h2
    have e2 := productKey_eq c2 s2 h3 h4
    have hs : c1 <<< 16 < 2 ^ 32 := by rw [Nat.shiftLeft_eq]; omega
    refine ⟨Nat.mod_eq_of_lt hs, ?_, ?_, ?_, ?_⟩
    · rw [productKey, Nat.mod_eq_of_lt hs]
    · omega
    · omega
    · omega
  · intro c1 s1 c2 s2 h1 h2 h3 h4
    have e1 := subsystemKey_eq c1 s1 h1 h2
    have e2 := subsystemKey_eq c2 s2 h3 h4
    have hs : c1 <<< 16 < 2 ^ 64 := by rw [Nat.shiftLeft_eq]; omega
    refine ⟨Nat.mod_eq_of_lt hs, ?_, ?_, ?_, ?_⟩
    · rw [subsystemKey, Nat.mod_eq_of_lt hs]
    · omega
    · omega
    · omega

/-- C10, at concrete ids: the subclass key of class 2, subclass 0 is 0x0200, it lies below
the key of class 2, subclass 1, and the subsystem key of product 0x0a890002,
subsystem 1 is 0x0a8900020001. -/
theorem composite_keys_order_witness :
    subclassKey 2 0 = 0x0200 ∧ subclassKey 2 0 < subclassKey 2 1 ∧
      subsystemKey 0x0a890002 1 = 0x0a8900020001 ∧ subsystemKey 0x0a890002 1 < 2 ^ 64 :=
  ⟨by decide,
    ((composite_keys_order.1 2 0 2 1 (by decide) (by decide) (by decide) (by decide)).2.2.2.1).mpr
      (Or.inr ⟨rfl, by decide⟩),
    by decide,
    (composite_keys_order.2.2.2 0x0a890002 1 0x0a890002 1 (by decide) (by decide) (by decide)
      (by decide)).2.2.1⟩

/-- C11. Vendor end-to-end scenario: from empty mappings, the three lines
`0a89  BREA Technologies Inc`, `\t0002  PCI to MCA Bridge`, `\t\t0a89 0001  Widget`
are parsed successfully and leave exactly Vendor{0x0a89}, Product{0x0a890002} and
Subsystem{0x0a8900020001: owner vendor 0x0a89, name Widget}; the Class, Subclass and
ProgrammingInterface mappings stay empty. -/
theorem vendor_scenario :
    parseDBFile Tables.empty
        ["0a89  BREA Technologies Inc".toList, "\t0002  PCI to MCA Bridge".toList,
          "\t\t0a89 0001  Widget".toList] =
      .ok { Classes := ∅, Subclasses := ∅, ProgrammingInterfaces := ∅,
            Vendors := Finmap.singleton 0x0a89 "BREA Technologies Inc",
            Products := Finmap.singleton 0x0a890002 "PCI to MCA Bridge",
            Subsystems := Finmap.singleton 0x0a8900020001 { Vendor := 0x0a89, Name := "Widget" } } := by
  rfl

/-- C12. Ascending emission order: whatever the mappings hold and in whatever order the
`range` loops visit the keys, each of the six lookup functions `main` prints has
exactly one case per key of its mapping, the case carries the value stored under that
key, and the cases come in strictly ascending order of the keys. -/
theorem ascending_emission (db : Tables) (r : RangeOrders) (hr : r.Valid db) :
    CasesOk db.Classes (emitLookups db r).lookupClass ∧
    CasesOk db.Subclasses (emitLookups db r).lookupSubclass ∧
    CasesOk db.ProgrammingInterfaces (emitLookups db r).lookupProgrammingInterface ∧
    CasesOk db.Vendors (emitLookups db r).lookupVendor ∧
    CasesOk db.Products (emitLookups db r).lookupProduct ∧
    CasesOk db.Subsystems (emitLookups db r).lookupSubsystem :=
  ⟨emitCases_ok _ _ _ hr.1, emitCases_ok _ _ _ hr.2.1, emitCases_ok _ _ _ hr.2.2.1,
    emitCases_ok _ _ _ hr.2.2.2.1, emitCases_ok _ _ _ hr.2.2.2.2.1,
    emitCases_ok _ _ _ hr.2.2.2.2.2⟩

/-- C12, at concrete mappings: three classes visited in the order 0x0c, 0x02, 0x06 are
printed in the order 0x02, 0x06, 0x0c. -/
theorem ascending_emission_witness :
    (emitLookups
        { Tables.empty with
          Classes := ((Finmap.singleton 0x0c "Serial bus controller").insert 0x02
            "Network controller").insert 0x06 "Bridge" }
        { classes := [0x0c, 0x02, 0x06], subclasses := [], progIfaces := [], vendors := [],
          products := [], subsystems := [] }).lookupClass =
      [(0x02, "Network controller"), (0x06, "Bridge"), (0x0c, "Serial bus controller")] ∧
    CasesOk
      (((Finmap.singleton 0x0c "Serial bus controller").insert 0x02
        "Network controller").insert 0x06 "Bridge" : GoMap String)
      [(0x02, "Network controller"), (0x06, "Bridge"), (0x0c, "Serial bus controller")] :=
  ⟨by rfl,
    (ascending_emission
      { Tables.empty with
        Classes := ((Finmap.singleton 0x0c "Serial bus controller").insert 0x02
          "Network controller").insert 0x06 "Bridge" }
      { classes := [0x0c, 0x02, 0x06], subclasses := [], progIfaces := [], vendors := [],
        products := [], subsystems := [] }
      ⟨⟨by decide, by decide⟩, ⟨by decide, by decide⟩, ⟨by decide, by decide⟩,
        ⟨by decide, by decide⟩, ⟨by decide, by decide⟩, ⟨by decide, by decide⟩⟩).1⟩

/-- C13. Mode flag tracks the last header: after a successful run of the loop from the
initial registers, the mode is class-hierarchy exactly when the input has a header
line (not indented, not blank, not a comment) and the last one starts with `C`;
otherwise, with a vendor header last or no header at all, the mode is
vendor-hierarchy.  Hence a single-indent line processed next is recorded in the
Subclass mapping, and nowhere else, when the last header is a class header, and in the
Product mapping, and nowhere else, in every other case. -/
theorem mode_tracks_last_header (db : Tables) (lines : List (List Char)) (st : State)
    (h : parseLines { ctx := Ctx.init, db := db } lines = .ok st) :
    (st.ctx.inClassBlock = true ↔
      ∃ pre hd post, lines = pre ++ hd :: post ∧ isHeader hd = true ∧
        (∀ m ∈ post, isHeader m = false) ∧ hd[0]? = some 'C') ∧
    (st.ctx.inClassBlock = false ↔
      (∀ m ∈ lines, isHeader m = false) ∨
      ∃ pre hd post, lines = pre ++ hd :: post ∧ isHeader hd = true ∧
        (∀ m ∈ post, isHeader m = false) ∧ hd[0]? ≠ some 'C') ∧
    (∀ (l : List Char) (st2 : State), l[0]? = some '\t' → (∃ c, l[1]? = some c ∧ c ≠ '\t') →
      processLine st l = .ok st2 →
      (st.ctx.inClassBlock = true →
        st2.db = { st.db with
          Subclasses := st.db.Subclasses.insert
            (subclassKey st.ctx.curClass (hexNum (cols l 1 3))) (String.mk (l.drop 5)) }) ∧
      (st.ctx.inClassBlock = false →
        st2.db = { st.db with
          Products := st.db.Products.insert
            (productKey st.ctx.curVendor (hexNum (cols l 1 5))) (String.mk (l.drop 7)) })) := by
  have hinv := HeaderInv_run none _ st lines HeaderInv_init h
  have hchar := lastHeader_eq_some_iff lines
  have hmode : st.ctx.inClassBlock = true ↔
      ∃ pre hd post, lines = pre ++ hd :: post ∧ isHeader hd = true ∧
        (∀ m ∈ post, isHeader m = false) ∧ hd[0]? = some 'C' := by
    constructor
    · intro hm
      cases hlh : lastHeaderFrom none lines with
      | none =>
        rw [hlh] at hinv
        have := hinv.1
        rw [hm] at this
        cases this
      | some hd =>
        rw [hlh] at hinv
        obtain ⟨pre, post, hsplit, hH, hpost⟩ := (hchar hd).mp hlh
        by_cases hC : hd[0]? = some 'C'
        · exact ⟨pre, hd, post, hsplit, hH, hpost, hC⟩
        · simp only [HeaderInv, hC, if_false] at hinv
          have := hinv.1
          rw [hm] at this
          cases this
    · rintro ⟨pre, hd, post, hsplit, hH, hpost, hC⟩
      have hlh : lastHeaderFrom none lines = some hd := (hchar hd).mpr ⟨pre, post, hsplit, hH, hpost⟩
      rw [hlh] at hinv
      simp only [HeaderInv, hC, if_true] at hinv
      exact hinv.1
  refine ⟨hmode, ?_, ?_⟩
  · constructor
    · intro hm
      cases hlh : lastHeaderFrom none lines with
      | none =>
        exact Or.inl ((lastHeaderFrom_eq_none_iff none lines).mp hlh).2
      | some hd =>
        obtain ⟨pre, post, hsplit, hH, hpost⟩ := (hchar hd).mp hlh
        right
        refine ⟨pre, hd, post, hsplit, hH, hpost, ?_⟩
        intro hC
        have := hmode.mpr ⟨pre, hd, post, hsplit, hH, hpost, hC⟩
        rw [hm] at this
        cases this
    · rintro (hnone | ⟨pre, hd, post, hsplit, hH, hpost, hC⟩)
      · cases hb : st.ctx.inClassBlock with
        | false => rfl
        | true =>
          obtain ⟨pre, hd, post, hsplit, hH, _, _⟩ := hmode.mp hb
          have := hnone hd (by rw [hsplit]; simp)
          rw [hH] at this
          cases this
      · cases hb : st.ctx.inClassBlock with
        | false => rfl
        | true =>
          obtain ⟨pre2, hd2, post2, hsplit2, hH2, hpost2, hC2⟩ := hmode.mp hb
          have h1 : lastHeader lines = some hd := (hchar hd).mpr ⟨pre, post, hsplit, hH, hpost⟩
          have h2 : lastHeader lines = some hd2 := (hchar hd2).mpr ⟨pre2, post2, hsplit2, hH2, hpost2⟩
          rw [h1] at h2
          cases h2
          exact absurd hC2 hC
  · intro l st2 hl0 hl1 hp
    have h3 := single_indent_cond l hl1
    refine ⟨fun hm => ?_, fun hm => ?_⟩
    · obtain ⟨_, _, _, rfl⟩ := processLine_subclass_ok st st2 l hl0 h3 hm hp
      rfl
    · obtain ⟨_, _, _, rfl⟩ := processLine_product_ok st st2 l hl0 h3 hm hp
      rfl

/-- C13, at a concrete input: a class block, a vendor block and a class header; the last
header starts with `C` and the mode is class-hierarchy. -/
theorem mode_tracks_last_header_witness :
    ∃ pre hd post,
      ["C 01  Mass storage controller".toList, "0a89  BREA Technologies Inc".toList,
          "\t0002  PCI to MCA Bridge".toList, "C 02  Network controller".toList,
          "# end".toList] = pre ++ hd :: post ∧
        isHeader hd = true ∧ (∀ m ∈ post, isHeader m = false) ∧ hd[0]? = some 'C' :=
  (mode_tracks_last_header Tables.empty
    ["C 01  Mass storage controller".toList, "0a89  BREA Technologies Inc".toList,
      "\t0002  PCI to MCA Bridge".toList, "C 02  Network controller".toList, "# end".toList]
    { ctx := { inClassBlock := true, curClass := 0x02, curClassSubclass := 0,
               curVendor := 0x0a89, curVendorProduct := 0x0a890002 },
      db := { Tables.empty with
        Classes :=
          (Finmap.singleton 0x01 "Mass storage controller").insert 0x02 "Network controller",
        Vendors := Finmap.singleton 0x0a89 "BREA Technologies Inc",
        Products := Finmap.singleton 0x0a890002 "PCI to MCA Bridge" } }
    (by rfl)).1.mp rfl

/-- C14, as stated, fails: the single-indent line `\t0002  PCI to MCA Bridge` is not a
header line, yet processing it from the initial registers changes the current
vendor+product register from 0 to 2. -/
theorem non_header_keeps_state_counterexample :
    isHeader "\t0002  PCI to MCA Bridge".toList = false ∧
      processLine { ctx := Ctx.init, db := Tables.empty } "\t0002  PCI to MCA Bridge".toList =
        .ok { ctx := { Ctx.init with curVendorProduct := 2 },
              db := { Tables.empty with
                Products := Finmap.singleton 2 "PCI to MCA Bridge" } } ∧
      ({ Ctx.init with curVendorProduct := 2 } : Ctx) ≠ Ctx.init :=
  ⟨by decide, by rfl, by decide⟩

/-- C14, amended. A line that is not a header line and is processed successfully leaves
the mode flag, the current class id and the current vendor id unchanged.  If it is
blank, a comment or a double-indent line, it leaves all four registers unchanged.  If
it is a single-indent line, it sets the current class+subclass register (in
class-hierarchy mode) or the current vendor+product register (in vendor-hierarchy
mode) to the key it inserts, and leaves the other registers unchanged. -/
theorem non_header_keeps_mode_and_ids (st st1 : State) (l : List Char)
    (hnh : isHeader l = false) (hp : processLine st l = .ok st1) :
    st1.ctx.inClassBlock = st.ctx.inClassBlock ∧ st1.ctx.curClass = st.ctx.curClass ∧
      st1.ctx.curVendor = st.ctx.curVendor ∧
      (¬ (l.length > 1 ∧ l[1]? ≠ some '\t') → st1.ctx = st.ctx) ∧
      (isBlankOrComment l = true → st1.ctx = st.ctx) ∧
      (isBlankOrComment l = false → (l.length > 1 ∧ l[1]? ≠ some '\t') →
        (st.ctx.inClassBlock = true →
          st1.ctx = { st.ctx with
            curClassSubclass := subclassKey st.ctx.curClass (hexNum (cols l 1 3)) } ∧
          st1.db.Subclasses.lookup (subclassKey st.ctx.curClass (hexNum (cols l 1 3))) =
            some (String.mk (l.drop 5))) ∧
        (st.ctx.inClassBlock = false →
          st1.ctx = { st.ctx with
            curVendorProduct := productKey st.ctx.curVendor (hexNum (cols l 1 5)) } ∧
          st1.db.Products.lookup (productKey st.ctx.curVendor (hexNum (cols l 1 5))) =
            some (String.mk (l.drop 7)))) := by
  by_cases h0 : l = [] ∨ l[0]? = some '#'
  · rw [processLine_skip st l h0] at hp
    cases hp
    refine ⟨rfl, rfl, rfl, fun _ => rfl, fun _ => rfl, ?_⟩
    intro hb
    rw [(isBlankOrComment_iff l).mpr h0] at hb
    cases hb
  have hb : isBlankOrComment l = false := by
    cases hbc : isBlankOrComment l with
    | false => rfl
    | true => exact absurd ((isBlankOrComment_iff l).mp hbc) h0
  have ht : l[0]? = some '\t' := by
    by_contra hcon
    have := (isHeader_iff l).mpr ⟨h0, hcon⟩
    rw [hnh] at this
    cases this
  by_cases h3 : l.length > 1 ∧ l[1]? ≠ some '\t'
  · cases hm : st.ctx.inClassBlock
    · obtain ⟨_, _, _, rfl⟩ := processLine_product_ok st st1 l ht h3 hm hp
      refine ⟨hm, rfl, rfl, fun hn => absurd h3 hn, ?_, ?_⟩
      · intro hbt
        rw [hb] at hbt
        cases hbt
      · intro _ _
        exact ⟨fun hc => absurd hc (by decide), fun _ => ⟨rfl, Finmap.lookup_insert _⟩⟩
    · obtain ⟨_, _, _, rfl⟩ := processLine_subclass_ok st st1 l ht h3 hm hp
      refine ⟨hm, rfl, rfl, fun hn => absurd h3 hn, ?_, ?_⟩
      · intro hbt
        rw [hb] at hbt
        cases hbt
      · intro _ _
        exact ⟨fun _ => ⟨rfl, Finmap.lookup_insert _⟩, fun hc => absurd hc (by decide)⟩
  · cases hm : st.ctx.inClassBlock
    · obtain ⟨_, _, _, _, _, rfl⟩ := processLine_subsystem_ok st st1 l ht h3 hm hp
      refine ⟨hm, rfl, rfl, fun _ => rfl, fun _ => rfl, ?_⟩
      intro _ h3'
      exact absurd h3' h3
    · obtain ⟨_, _, _, rfl⟩ := processLine_progIface_ok st st1 l ht h3 hm hp
      refine ⟨hm, rfl, rfl, fun _ => rfl, fun _ => rfl, ?_⟩
      intro _ h3'
      exact absurd h3' h3

/-- C14 amended, at a concrete input: a double-indent line in class-hierarchy mode leaves
the registers as they were. -/
theorem non_header_keeps_mode_and_ids_witness :
    processLine
        { ctx := { Ctx.init with
              inClassBlock := true, curClass := 0x0c, curClassSubclass := 0x0c03 },
          db := Tables.empty }
        "\t\t00  UHCI".toList =
      .ok { ctx := { Ctx.init with
              inClassBlock := true, curClass := 0x0c, curClassSubclass := 0x0c03 },
            db := { Tables.empty with
              ProgrammingInterfaces := Finmap.singleton 0x0c0300 "UHCI" } } ∧
    ({ Ctx.init with inClassBlock := true, curClass := 0x0c, curClassSubclass := 0x0c03 } :
        Ctx) =
      { Ctx.init with inClassBlock := true, curClass := 0x0c, curClassSubclass := 0x0c03 } :=
  ⟨by rfl,
    (non_header_keeps_mode_and_ids
      { ctx := { Ctx.init with
              inClassBlock := true, curClass := 0x0c, curClassSubclass := 0x0c03 },
        db := Tables.empty }
      { ctx := { Ctx.init with
              inClassBlock := true, curClass := 0x0c, curClassSubclass := 0x0c03 },
        db := { Tables.empty with
          ProgrammingInterfaces := Finmap.singleton 0x0c0300 "UHCI" } }
      "\t\t00  UHCI".toList (by decide) (by rfl)).2.2.2.1 (by decide)⟩

/-- C15, as stated, fails: a vendor header processed with the class registers holding
0x02 and 0x0200 leaves them as they are, and in the input `0a89  V`, `\t0002  P`,
`C 01  A`, `0b00  W`, `\t\t0b00 0001  X` the subsystem line, processed after the switch
to class 01 and back to vendor 0b00, is keyed under the product 0x0a890002 of the vendor
seen before the switch. -/
theorem header_resets_other_context_counterexample :
    processLine
        { ctx := { Ctx.init with
            inClassBlock := true, curClass := 0x02, curClassSubclass := 0x0200 },
          db := Tables.empty }
        "0a89  BREA Technologies Inc".toList =
      .ok { ctx := { inClassBlock := false, curClass := 0x02, curClassSubclass := 0x0200,
                     curVendor := 0x0a89, curVendorProduct := 0 },
            db := { Tables.empty with
              Vendors := Finmap.singleton 0x0a89 "BREA Technologies Inc" } } ∧
    parseDBFile Tables.empty
        ["0a89  V".toList, "\t0002  P".toList, "C 01  A".toList, "0b00  W".toList,
          "\t\t0b00 0001  X".toList] =
      .ok { Tables.empty with
        Classes := Finmap.singleton 0x01 "A",
        Vendors := (Finmap.singleton 0x0a89 "V").insert 0x0b00 "W",
        Products := Finmap.singleton 0x0a890002 "P",
        Subsystems := Finmap.singleton 0x0a8900020001 { Vendor := 0x0b00, Name := "X" } } :=
  ⟨by rfl, by rfl⟩

/-- C15, amended. A header line processed successfully switches the mode flag and
records its own id, and resets nothing: a vendor header sets vendor-hierarchy mode and
the current vendor id and leaves the current class id, the current class+subclass id
and the current vendor+product id unchanged; a class header sets class-hierarchy mode
and the current class id and leaves the other three registers unchanged.  A
single-indent line processed right after the header is keyed under the id of that
header. -/
theorem header_switches_mode_only (st st1 : State) (hd : List Char)
    (hH : isHeader hd = true) (hp : processLine st hd = .ok st1) :
    (hd[0]? = some 'C' →
      st1.ctx = { st.ctx with inClassBlock := true, curClass := hexNum (cols hd 2 4) } ∧
      hexNum (cols hd 2 4) < 2 ^ 8) ∧
    (hd[0]? ≠ some 'C' →
      st1.ctx = { st.ctx with inClassBlock := false, curVendor := hexNum (cols hd 0 4) } ∧
      hexNum (cols hd 0 4) < 2 ^ 16) ∧
    (∀ (l : List Char) (st2 : State), l[0]? = some '\t' → (∃ c, l[1]? = some c ∧ c ≠ '\t') →
      processLine st1 l = .ok st2 →
      (hd[0]? = some 'C' →
        st2.db.Subclasses =
          st1.db.Subclasses.insert (hexNum (cols hd 2 4) <<< 8 ||| hexNum (cols l 1 3))
            (String.mk (l.drop 5))) ∧
      (hd[0]? ≠ some 'C' →
        st2.db.Products =
          st1.db.Products.insert (hexNum (cols hd 0 4) <<< 16 ||| hexNum (cols l 1 5))
            (String.mk (l.drop 7)))) := by
  obtain ⟨h0, ht⟩ := (isHeader_iff hd).mp hH
  by_cases hC : hd[0]? = some 'C'
  · obtain ⟨_, _, hlt, rfl⟩ := processLine_class_ok st st1 hd hC hp
    refine ⟨fun _ => ⟨rfl, hlt⟩, fun hn => absurd hC hn, ?_⟩
    intro l st2 hl0 hl1 hp2
    refine ⟨fun _ => ?_, fun hn => absurd hC hn⟩
    obtain ⟨_, _, _, rfl⟩ :=
      processLine_subclass_ok _ st2 l hl0 (single_indent_cond l hl1) rfl hp2
    have hs : hexNum (cols hd 2 4) <<< 8 < 2 ^ 16 := by rw [Nat.shiftLeft_eq]; omega
    simp only [subclassKey, Nat.mod_eq_of_lt hs]
  · obtain ⟨_, _, hlt, rfl⟩ := processLine_vendor_ok st st1 hd h0 hC ht hp
    refine ⟨fun hc => absurd hc hC, fun _ => ⟨rfl, hlt⟩, ?_⟩
    intro l st2 hl0 hl1 hp2
    refine ⟨fun hc => absurd hc hC, fun _ => ?_⟩
    obtain ⟨_, _, _, rfl⟩ :=
      processLine_product_ok _ st2 l hl0 (single_indent_cond l hl1) rfl hp2
    have hs : hexNum (cols hd 0 4) <<< 16 < 2 ^ 32 := by rw [Nat.shiftLeft_eq]; omega
    simp only [productKey, Nat.mod_eq_of_lt hs]

/-- C15 amended, at a concrete input: the vendor header `0a89  BREA Technologies Inc`
processed in class-hierarchy mode with class registers 0x02 and 0x0200. -/
theorem header_switches_mode_only_witness :
    ({ inClassBlock := false, curClass := 0x02, curClassSubclass := 0x0200,
       curVendor := 0x0a89, curVendorProduct := 0 } : Ctx) =
      { ({ Ctx.init with
            inClassBlock := true, curClass := 0x02, curClassSubclass := 0x0200 } : Ctx) with
        inClassBlock := false, curVendor := hexNum (cols "0a89  BREA Technologies Inc".toList 0 4) } ∧
      hexNum (cols "0a89  BREA Technologies Inc".toList 0 4) < 2 ^ 16 :=
  (header_switches_mode_only
    { ctx := { Ctx.init with
        inClassBlock := true, curClass := 0x02, curClassSubclass := 0x0200 },
      db := Tables.empty }
    { ctx := { inClassBlock := false, curClass := 0x02, curClassSubclass := 0x0200,
               curVendor := 0x0a89, curVendorProduct := 0 },
      db := { Tables.empty with
        Vendors := Finmap.singleton 0x0a89 "BREA Technologies Inc" } }
    "0a89  BREA Technologies Inc".toList (by decide) (by rfl)).2.1 (by decide)

/-- C16. One line, one insertion: a non-blank, non-comment line that is processed
successfully is handled by exactly one of the six record shapes, told apart by its first
characters and the mode; the resulting mappings are the previous ones with one insert
into the mapping of that shape.  So one key of one mapping is written, the other five
mappings are the same, and every other key of the written mapping keeps its value. -/
theorem one_line_one_insertion (st st1 : State) (l : List Char)
    (hnb : isBlankOrComment l = false) (hp : processLine st l = .ok st1) :
    ((l[0]? = some 'C' ∧
        ∃ k v, st1.db = { st.db with Classes := st.db.Classes.insert k v }) ∨
      (l[0]? ≠ some 'C' ∧ l[0]? ≠ some '\t' ∧
        ∃ k v, st1.db = { st.db with Vendors := st.db.Vendors.insert k v }) ∨
      (l[0]? = some '\t' ∧ (l.length > 1 ∧ l[1]? ≠ some '\t') ∧ st.ctx.inClassBlock = true ∧
        ∃ k v, st1.db = { st.db with Subclasses := st.db.Subclasses.insert k v }) ∨
      (l[0]? = some '\t' ∧ (l.length > 1 ∧ l[1]? ≠ some '\t') ∧ st.ctx.inClassBlock = false ∧
        ∃ k v, st1.db = { st.db with Products := st.db.Products.insert k v }) ∨
      (l[0]? = some '\t' ∧ ¬ (l.length > 1 ∧ l[1]? ≠ some '\t') ∧
        st.ctx.inClassBlock = true ∧
        ∃ k v, st1.db =
          { st.db with ProgrammingInterfaces := st.db.ProgrammingInterfaces.insert k v }) ∨
      (l[0]? = some '\t' ∧ ¬ (l.length > 1 ∧ l[1]? ≠ some '\t') ∧
        st.ctx.inClassBlock = false ∧
        ∃ k v, st1.db = { st.db with Subsystems := st.db.Subsystems.insert k v })) ∧
    ∃ t k v, st1.db.entry t k = some v ∧
      ∀ t2 k2, (t2 ≠ t ∨ k2 ≠ k) → st1.db.entry t2 k2 = st.db.entry t2 k2 := by
  have h0 : ¬ (l = [] ∨ l[0]? = some '#') := by
    intro hcon
    rw [(isBlankOrComment_iff l).mpr hcon] at hnb
    cases hnb
  by_cases hC : l[0]? = some 'C'
  · obtain ⟨_, _, _, rfl⟩ := processLine_class_ok st st1 l hC hp
    exact ⟨Or.inl ⟨hC, _, _, rfl⟩, .classes, _, _, entry_insert_Classes st.db _ _⟩
  by_cases ht : l[0]? = some '\t'
  swap
  · obtain ⟨_, _, _, rfl⟩ := processLine_vendor_ok st st1 l h0 hC ht hp
    exact ⟨Or.inr (Or.inl ⟨hC, ht, _, _, rfl⟩), .vendors, _, _, entry_insert_Vendors st.db _ _⟩
  by_cases h3 : l.length > 1 ∧ l[1]? ≠ some '\t'
  · by_cases hm : st.ctx.inClassBlock = true
    · obtain ⟨_, _, _, rfl⟩ := processLine_subclass_ok st st1 l ht h3 hm hp
      exact ⟨Or.inr (Or.inr (Or.inl ⟨ht, h3, hm, _, _, rfl⟩)), .subclasses, _, _,
        entry_insert_Subclasses st.db _ _⟩
    · have hm' : st.ctx.inClassBlock = false := by simpa using hm
      obtain ⟨_, _, _, rfl⟩ := processLine_product_ok st st1 l ht h3 hm' hp
      exact ⟨Or.inr (Or.inr (Or.inr (Or.inl ⟨ht, h3, hm', _, _, rfl⟩))), .products, _, _,
        entry_insert_Products st.db _ _⟩
  · by_cases hm : st.ctx.inClassBlock = true
    · obtain ⟨_, _, _, rfl⟩ := processLine_progIface_ok st st1 l ht h3 hm hp
      exact ⟨Or.inr (Or.inr (Or.inr (Or.inr (Or.inl ⟨ht, h3, hm, _, _, rfl⟩)))), .progIfaces,
        _, _, entry_insert_ProgrammingInterfaces st.db _ _⟩
    · have hm' : st.ctx.inClassBlock = false := by simpa using hm
      obtain ⟨_, _, _, _, _, rfl⟩ := processLine_subsystem_ok st st1 l ht h3 hm' hp
      exact ⟨Or.inr (Or.inr (Or.inr (Or.inr (Or.inr ⟨ht, h3, hm', _, _, rfl⟩)))),
        .subsystems, _, _, entry_insert_Subsystems st.db _ _⟩

/-- C16, at a concrete input: a product line overwrites one key of the Product mapping
and leaves another key of it, and the Vendor mapping, as they were. -/
theorem one_line_one_insertion_witness :
    ∃ t k v,
      ({ Tables.empty with
          Vendors := Finmap.singleton 0x0a89 "BREA Technologies Inc",
          Products := ((Finmap.singleton 0x0a890001 "Other").insert 0x0a890002 "Old").insert
            0x0a890002 "PCI to MCA Bridge" } : Tables).entry t k = some v ∧
        ∀ t2 k2, (t2 ≠ t ∨ k2 ≠ k) →
          ({ Tables.empty with
              Vendors := Finmap.singleton 0x0a89 "BREA Technologies Inc",
              Products := ((Finmap.singleton 0x0a890001 "Other").insert 0x0a890002
                "Old").insert 0x0a890002 "PCI to MCA Bridge" } : Tables).entry t2 k2 =
            ({ Tables.empty with
              Vendors := Finmap.singleton 0x0a89 "BREA Technologies Inc",
              Products := (Finmap.singleton 0x0a890001 "Other").insert 0x0a890002
                "Old" } : Tables).entry t2 k2 :=
  (one_line_one_insertion
    { ctx := { Ctx.init with curVendor := 0x0a89 },
      db := { Tables.empty with
        Vendors := Finmap.singleton 0x0a89 "BREA Technologies Inc",
        Products := (Finmap.singleton 0x0a890001 "Other").insert 0x0a890002 "Old" } }
    { ctx := { Ctx.init with curVendor := 0x0a89, curVendorProduct := 0x0a890002 },
      db := { Tables.empty with
        Vendors := Finmap.singleton 0x0a89 "BREA Technologies Inc",
        Products := ((Finmap.singleton 0x0a890001 "Other").insert 0x0a890002 "Old").insert
          0x0a890002 "PCI to MCA Bridge" } }
    "\t0002  PCI to MCA Bridge".toList (by decide) (by rfl)).2

/-- C17. Mappings only grow: a line processed successfully leaves every key of every
mapping in place, so the key set of each of the six mappings after the line contains
its key set before; the same holds from the start to the end of any successful run of
the loop, and for `parseDBFile` and the mappings it starts from. -/
theorem mappings_only_grow :
    (∀ (st st1 : State) (l : List Char), processLine st l = .ok st1 →
      ∀ t, st.db.keys t ⊆ st1.db.keys t) ∧
    (∀ (st st1 : State) (lines : List (List Char)), parseLines st lines = .ok st1 →
      ∀ t, st.db.keys t ⊆ st1.db.keys t) ∧
    (∀ (db final : Tables) (lines : List (List Char)), parseDBFile db lines = .ok final →
      ∀ t, db.keys t ⊆ final.keys t) := by
  have hrun : ∀ (st st1 : State) (lines : List (List Char)), parseLines st lines = .ok st1 →
      ∀ t, st.db.keys t ⊆ st1.db.keys t := by
    intro st st1 lines h t
    obtain ⟨w, hw⟩ := parseLines_db_overlay st st1 lines h
    rw [hw]
    exact Tables.keys_overlay w st.db t
  refine ⟨?_, hrun, ?_⟩
  · intro st st1 l h t
    apply hrun st st1 [l]
    rw [parseLines_cons, h, ok_bind]
    rfl
  · intro db final lines h t
    obtain ⟨stf, hstf, rfl⟩ := (parseDBFile_ok_iff _ _ _).mp h
    exact hrun _ stf lines hstf t

/-- C17, at a concrete input: a run that starts with a Vendor mapping holding 0x1234
keeps that key while it adds 0x0a89. -/
theorem mappings_only_grow_witness :
    (Finmap.singleton 0x1234 "Kept" : GoMap String).keys ⊆
      ((Finmap.singleton 0x1234 "Kept" : GoMap String).insert 0x0a89
        "BREA Technologies Inc").keys :=
  mappings_only_grow.2.2
    { Tables.empty with Vendors := Finmap.singleton 0x1234 "Kept" }
    { Tables.empty with
      Vendors := (Finmap.singleton 0x1234 "Kept").insert 0x0a89 "BREA Technologies Inc" }
    ["0a89  BREA Technologies Inc".toList] (by rfl) .vendors

/-- C18. Initial state: a run starts in vendor-hierarchy mode with the four registers at
zero.  Hence, when the first non-blank, non-comment line of the input is a well-formed
single-indent line (a TAB, four hexadecimal digits at columns 1..4, the name from
column 7), the run gets past that line and records it in the Product mapping, under
the key `(0 << 16) | productId`, which is the product id itself; the Subclass mapping
is not touched. -/
theorem initial_state_product (db : Tables) (pre : List (List Char)) (l : List Char)
    (hpre : ∀ m ∈ pre, isBlankOrComment m = true) (h0 : l[0]? = some '\t')
    (hlen : 7 ≤ l.length) (hhex : (cols l 1 5).all isHexDigit = true) :
    Ctx.init = { inClassBlock := false, curClass := 0, curClassSubclass := 0,
                 curVendor := 0, curVendorProduct := 0 } ∧
    0 <<< 16 ||| hexNum (cols l 1 5) = hexNum (cols l 1 5) ∧
    ∃ st1, parseLines { ctx := Ctx.init, db := db } (pre ++ [l]) = .ok st1 ∧
      st1.db = { db with
        Products := db.Products.insert (hexNum (cols l 1 5)) (String.mk (l.drop 7)) } ∧
      st1.db.Products.lookup (hexNum (cols l 1 5)) = some (String.mk (l.drop 7)) ∧
      st1.db.Subclasses = db.Subclasses ∧
      st1.ctx.curVendorProduct = hexNum (cols l 1 5) := by
  refine ⟨rfl, by simp, ?_⟩
  have h3 := single_indent_cond l (not_tab_of_hex_field l 1 5 (by omega) (by omega) hhex)
  obtain ⟨hp, _⟩ := mustParse16_cols l 1 (by omega) hhex
  rw [parseLines_append, parseLines_blank _ pre hpre, ok_bind, parseLines_cons,
    processLine_product _ l h0 h3 rfl, slice_eq_cols l 1 5 (by omega) (by omega), ok_bind, hp,
    ok_bind, sliceFrom_ok l 7 hlen, ok_bind, ok_bind]
  show ∃ st1, parseLines _ [] = .ok st1 ∧ _
  rw [parseLines]
  refine ⟨_, rfl, ?_, ?_, rfl, ?_⟩
  · show _ = _
    simp only [Ctx.init, productKey_zero]
  · show Finmap.lookup _ (Finmap.insert _ _ _) = _
    simp only [Ctx.init, productKey_zero]
    exact Finmap.lookup_insert _
  · show productKey Ctx.init.curVendor _ = _
    simp only [Ctx.init, productKey_zero]

/-- C18, at a concrete input: a comment, an empty line and then the single-indent line
`\t0002  PCI to MCA Bridge`, from empty mappings. -/
theorem initial_state_product_witness :
    ∃ st1,
      parseLines { ctx := Ctx.init, db := Tables.empty }
          (["# pci.ids".toList, []] ++ ["\t0002  PCI to MCA Bridge".toList]) = .ok st1 ∧
        st1.db.Products.lookup 0x0002 = some "PCI to MCA Bridge" ∧
        st1.db.Subclasses = ∅ := by
  obtain ⟨_, _, st1, h1, _, h3, h4, _⟩ :=
    initial_state_product Tables.empty ["# pci.ids".toList, []]
      "\t0002  PCI to MCA Bridge".toList (by decide) (by decide) (by decide) (by decide)
  exact ⟨st1, h1, h3, h4⟩

/-- C19. Parents of first-level children exist: after a successful run from empty
mappings, every key `k` of the Subclass mapping has its class id `k >> 8` among the
keys of the Class mapping; and if the first non-blank, non-comment line of the input
(if there is one) is a header line, every key `k` of the Product mapping has its
vendor id `k >> 16` among the keys of the Vendor mapping. -/
theorem parents_exist (lines : List (List Char)) (final : Tables)
    (h : parseDBFile Tables.empty lines = .ok final) :
    (∀ k ∈ final.Subclasses, (k >>> 8) ∈ final.Classes) ∧
    ((∀ hd, (lines.filter (fun l => !isBlankOrComment l)).head? = some hd →
        isHeader hd = true) →
      ∀ k ∈ final.Products, (k >>> 16) ∈ final.Vendors) := by
  obtain ⟨stf, hstf, rfl⟩ := (parseDBFile_ok_iff _ _ _).mp h
  refine ⟨?_, ?_⟩
  · have hinit : ClassParentInv { ctx := Ctx.init, db := Tables.empty } :=
      ⟨fun hc => (Bool.false_ne_true hc).elim, fun k hk => absurd hk (Finmap.not_mem_empty)⟩
    exact (ClassParentInv_run _ stf lines hinit hstf).2
  · intro hfirst
    rw [← parseLines_filter] at hstf
    cases hf : lines.filter (fun l => !isBlankOrComment l) with
    | nil =>
      rw [hf] at hstf
      cases hstf
      intro k hk
      exact absurd hk (Finmap.not_mem_empty)
    | cons hd rest =>
      rw [hf] at hstf hfirst
      obtain ⟨st1, hl, hrest⟩ := parseLines_cons_ok _ _ _ _ hstf
      have hinv := VendorParentInv_header _ st1 hd
        (fun k hk => absurd hk (Finmap.not_mem_empty)) (hfirst hd rfl) hl
      exact (VendorParentInv_run st1 stf rest hinv hrest).2

/-- C19, at a concrete input: interleaved vendor and class blocks; the class id of the
Subclass key 0x0200 and the vendor id of the Product key 0x0a890002 are keys of the
Class and Vendor mappings. -/
theorem parents_exist_witness :
    (0x0200 >>> 8) ∈
        ((Finmap.singleton 0x01 "Mass storage controller").insert 0x02
          "Network controller" : GoMap String) ∧
      (0x0a890002 >>> 16) ∈ (Finmap.singleton 0x0a89 "BREA Technologies Inc" : GoMap String) := by
  have hall := parents_exist
    ["# pci.ids".toList, "0a89  BREA Technologies Inc".toList,
      "\t0002  PCI to MCA Bridge".toList, "C 01  Mass storage controller".toList,
      "C 02  Network controller".toList, "\t00  Ethernet controller".toList]
    { Tables.empty with
      Classes :=
        (Finmap.singleton 0x01 "Mass storage controller").insert 0x02 "Network controller",
      Subclasses := Finmap.singleton 0x0200 "Ethernet controller",
      Vendors := Finmap.singleton 0x0a89 "BREA Technologies Inc",
      Products := Finmap.singleton 0x0a890002 "PCI to MCA Bridge" }
    (by rfl)
  exact ⟨hall.1 0x0200 (by decide), hall.2 (by decide) 0x0a890002 (by decide)⟩

/-- C20. Second-level context survives headers: a header line processed successfully
leaves the current class+subclass register and the current vendor+product register
unchanged.  So after any successful run of the loop from the initial registers, the
class+subclass register holds the key written by the last line that wrote into the
Subclass mapping (zero if no line did), the vendor+product register holds the key
written by the last line that wrote into the Product mapping (zero if no line did),
headers in between notwithstanding, and a double-indent line processed next is keyed
under that register: in the ProgrammingInterface mapping in class-hierarchy mode, in
the Subsystem mapping in vendor-hierarchy mode. -/
theorem second_level_survives_headers :
    (∀ (st st1 : State) (hd : List Char), isHeader hd = true → processLine st hd = .ok st1 →
      st1.ctx.curClassSubclass = st.ctx.curClassSubclass ∧
      st1.ctx.curVendorProduct = st.ctx.curVendorProduct) ∧
    (∀ (db : Tables) (lines : List (List Char)) (st : State),
      parseLines { ctx := Ctx.init, db := db } lines = .ok st →
      (∀ i k v, writeAt Ctx.init lines i .subclasses k = some v →
        (∀ j k2, i < j → writeAt Ctx.init lines j .subclasses k2 = none) →
        st.ctx.curClassSubclass = k) ∧
      ((∀ j k2, writeAt Ctx.init lines j .subclasses k2 = none) →
        st.ctx.curClassSubclass = 0) ∧
      (∀ i k v, writeAt Ctx.init lines i .products k = some v →
        (∀ j k2, i < j → writeAt Ctx.init lines j .products k2 = none) →
        st.ctx.curVendorProduct = k) ∧
      ((∀ j k2, writeAt Ctx.init lines j .products k2 = none) →
        st.ctx.curVendorProduct = 0) ∧
      (∀ (l : List Char) (st2 : State), l[0]? = some '\t' → l[1]? = some '\t' →
        processLine st l = .ok st2 →
        (st.ctx.inClassBlock = true →
          st2.db.ProgrammingInterfaces =
            st.db.ProgrammingInterfaces.insert
              (progIfaceKey st.ctx.curClassSubclass (hexNum (cols l 2 4)))
              (String.mk (l.drop 6))) ∧
        (st.ctx.inClassBlock = false →
          st2.db.Subsystems =
            st.db.Subsystems.insert
              (subsystemKey st.ctx.curVendorProduct (hexNum (cols l 7 11)))
              { Vendor := hexNum (cols l 2 6), Name := String.mk (l.drop 13) }))) := by
  refine ⟨?_, ?_⟩
  · intro st st1 hd hH hp
    obtain ⟨h0, ht⟩ := (isHeader_iff hd).mp hH
    by_cases hC : hd[0]? = some 'C'
    · obtain ⟨_, _, _, rfl⟩ := processLine_class_ok st st1 hd hC hp
      exact ⟨rfl, rfl⟩
    · obtain ⟨_, _, _, rfl⟩ := processLine_vendor_ok st st1 hd h0 hC ht hp
      exact ⟨rfl, rfl⟩
  · intro db lines st h
    obtain ⟨hs1, hs2⟩ := register_last_write .subclasses (fun c => c.curClassSubclass)
      subclass_register_step Ctx.init db lines st h
    obtain ⟨hp1, hp2⟩ := register_last_write .products (fun c => c.curVendorProduct)
      product_register_step Ctx.init db lines st h
    refine ⟨hs1, hs2, hp1, hp2, ?_⟩
    intro l st2 hl0 hl1 hp
    have h3 : ¬ (l.length > 1 ∧ l[1]? ≠ some '\t') := by
      rintro ⟨_, hne⟩
      exact hne hl1
    refine ⟨fun hm => ?_, fun hm => ?_⟩
    · obtain ⟨_, _, _, rfl⟩ := processLine_progIface_ok st st2 l hl0 h3 hm hp
      rfl
    · obtain ⟨_, _, _, _, _, rfl⟩ := processLine_subsystem_ok st st2 l hl0 h3 hm hp
      rfl

/-- C20, at the input `C 01  A`, `\t00  B`, `C 02  D`, `\t\t05  E`: the header `C 02  D`
leaves the class+subclass register at 0x0100, and the run yields the programming
interface key 0x010005, under class 01 and not under class 02. -/
theorem second_level_survives_headers_witness :
    ({ inClassBlock := true, curClass := 0x02, curClassSubclass := 0x0100, curVendor := 0,
       curVendorProduct := 0 } : Ctx).curClassSubclass = 0x0100 ∧
    parseDBFile Tables.empty
        ["C 01  A".toList, "\t00  B".toList, "C 02  D".toList, "\t\t05  E".toList] =
      .ok { Tables.empty with
        Classes := (Finmap.singleton 0x01 "A").insert 0x02 "D",
        Subclasses := Finmap.singleton 0x0100 "B",
        ProgrammingInterfaces := Finmap.singleton 0x010005 "E" } :=
  ⟨(second_level_survives_headers.1
      { ctx := { inClassBlock := true, curClass := 0x01, curClassSubclass := 0x0100,
                 curVendor := 0, curVendorProduct := 0 },
        db := { Tables.empty with
          Classes := Finmap.singleton 0x01 "A",
          Subclasses := Finmap.singleton 0x0100 "B" } }
      { ctx := { inClassBlock := true, curClass := 0x02, curClassSubclass := 0x0100,
                 curVendor := 0, curVendorProduct := 0 },
        db := { Tables.empty with
          Classes := (Finmap.singleton 0x01 "A").insert 0x02 "D",
          Subclasses := Finmap.singleton 0x0100 "B" } }
      "C 02  D".toList (by decide) (by rfl)).1,
    by rfl⟩

end Pcidb
